import Mathlib

/-! # CombatRecordRecognitionTask: event reconstruction

A shallow embedding of `src/MaaCore/Task/Experiment/CombatRecordRecognitionTask.cpp`.

Conventions of the embedding.

* Images (`cv::Mat`) are opaque to the pipeline; an image is an identifier (`Mat`) and every
  recognizer is a function of it, collected in `Env`.  Resizing a frame by `m_scale` is part of
  the recognizer.
* The video is the list `Env.frames` read through the cursor `Task.pos`; reading past the end
  gives the empty frame (`none`).
* `std::unordered_map` and `std::unordered_set` are association lists without duplicate keys;
  the list order stands for the iteration order of the container.  The iteration order of a
  tally that a vote builds is a function of `Env` (`tally_order`, `dir_order`, `loc_order`).
* `size_t` arithmetic wraps modulo `2 ^ 64` (`size_sub`, `SIZE_MOD`).
* A sampling loop is a recursion on a fuel; every iteration reads a frame, so the fuel
  `frames.length + 1` given by the callers is never used up (theorems `detect_loop_fuel`,
  `classify_loop_fuel`, `analyze_formation_loop_fuel`, `analyze_stage_loop_fuel`,
  `analyze_deployment_loop_fuel`, `slice_video_loop_fuel`).
* The body of the loop of `slice_video` is the function `slice_step` of the sample index, of
  what the frame shows and of the state of the loop; `slice_run` iterates it over a list of
  samples, and the loop over the video is such an iteration (theorem `slice_video_loop_run`).
* Logging and progress callbacks are observational and are left out.
-/

namespace CombatRecord

/-! ## Data model -/

/-- Image handle standing for a `cv::Mat`. -/
abbrev Mat := Nat

/-- Unit role, `battle::Role`, as its integer code. -/
abbrev Role := Nat

/-- Facing, `battle::DeployDirection`, as the integer written to the action list. -/
abbrev DeployDirection := Int

/-- Screen position or grid location, `asst::Point`. -/
structure Point where
  x : Int
  y : Int
deriving DecidableEq, Repr

/-- Rectangle, `asst::Rect`. -/
structure Rect where
  x : Int
  y : Int
  width : Int
  height : Int
deriving DecidableEq, Repr

/-- Tile of the stage map, `TilePack::TileInfo`: screen position and grid location. -/
structure TileInfo where
  pos : Point
  loc : Point
deriving DecidableEq, Repr

/-- Entry of the deployment tray, `battle::DeploymentOper`. -/
structure DeploymentOper where
  name : String
  avatar : Mat
  role : Role
  index : Nat
  cooling : Bool
deriving DecidableEq, Repr

/-- Unit standing on the battlefield, `BattlefiledOper`; a fresh record is not flagged. -/
structure BattlefiledOper where
  direction : DeployDirection
  new_here : Bool
deriving DecidableEq, Repr

/-- Stable interval of the battle, `ClipInfo`. -/
structure ClipInfo where
  start_frame : Nat
  end_frame : Nat
  deployment : List DeploymentOper
  cooling : Nat
  battlefield : List (Point × BattlefiledOper)
deriving DecidableEq, Repr

/-- Entry of `m_copilot_json["actions"]`: the two JSON objects built by `process_changes`. -/
inductive Action where
  | Deploy (name : String) (location : Point) (direction : DeployDirection)
  | Retreat (location : Point)
deriving DecidableEq, Repr

/-- Result of a member function: a returned flag, or an exception that leaves the function. -/
inductive Outcome where
  | ret (ok : Bool)
  | thrown
deriving DecidableEq, Repr

/-- Recognizers, static game data and the video, all fixed during a run. -/
structure Env where
  /-- frames of the video, in order -/
  frames : List Mat
  /-- `BattleFormationImageAnalyzer`: the roster read from a frame, `none` when not analysed -/
  formation_analyze : Mat → Option (List (String × Mat))
  /-- `BattleOperatorsImageAnalyzer`: rectangles of the units detected on the field -/
  operators_analyze : Mat → List Rect
  /-- `BattleDeployDirectionImageAnalyzer`: class id at a base point -/
  direction_analyze : Mat → Point → DeployDirection
  /-- `BestMatchImageAnalyzer` on an avatar against named templates, threshold included -/
  best_match : Mat → List (String × Mat) → Option String
  /-- `BattleData.get_role` -/
  get_role : String → Role
  /-- `battle::Role::Warrior` -/
  role_warrior : Role
  /-- `Rect::move` -/
  rect_move : Rect → Rect → Rect
  /-- `Rect::include` -/
  rect_include : Rect → Point → Bool
  /-- `Task.get("BattleOperBoxRectMove")->rect_move` -/
  det_box_move : Rect
  /-- value of a default-constructed `BattlefiledOper::direction` -/
  default_direction : DeployDirection
  /-- iteration order of the occupancy tally (an unordered map) -/
  tally_order : List (List Point × Nat) → List (List Point × Nat)
  /-- iteration order of the direction tally of one location (an unordered map) -/
  dir_order : List (DeployDirection × Nat) → List (DeployDirection × Nat) := fun l => l
  /-- iteration order of the direction tallies by location (an unordered map) -/
  loc_order : List (Point × List (DeployDirection × Nat)) →
    List (Point × List (DeployDirection × Nat)) := fun l => l
  /-- `OcrWithPreprocessImageAnalyzer` with the task `BattleStageName`: the text of the best
  scored result, `none` when not analysed -/
  stage_analyze : Mat → Option String := fun _ => none
  /-- `BattleImageAnalyzer` with its default targets: whether the battle has started -/
  battle_analyze : Mat → Bool := fun _ => false
  /-- `Tile.contains` -/
  tile_contains : String → Bool := fun _ => false
  /-- `Tile.calc` of a stage, without side tiles -/
  tile_calc : String → List (Point × TileInfo) := fun _ => []
  /-- `BattleImageAnalyzer` with the targets `Oper` and `DetailPage`: the deployment tray and
  whether the detail page is shown, `none` when not analysed -/
  slice_analyze : Mat → Option (List DeploymentOper × Bool) := fun _ => none
  /-- `BattleImageAnalyzer` with the targets `Oper` and `PauseButton`: whether the frame is
  analysed, and the deployment tray that the analyzer then holds -/
  deployment_analyze : Mat → Bool × List DeploymentOper := fun _ => (false, [])

/-- Mutable members of the task that the modelled functions touch. -/
structure Task where
  /-- read position of `m_video_ptr` -/
  pos : Nat
  m_video_frame_count : Nat
  m_formation : List (String × Mat)
  m_formation_end_frame : Nat
  m_normal_tile_info : List (Point × TileInfo)
  m_all_avatars : List (String × Mat)
  m_clips : List ClipInfo
  /-- `m_copilot_json["opers"]`, by name -/
  opers : List String
  /-- `m_copilot_json["actions"]` -/
  actions : List Action
  m_stage_name : String := ""
  m_stage_ocr_end_frame : Nat := 0
  m_battle_start_frame : Nat := 0
  m_battle_end_frame : Nat := 0
  /-- `m_copilot_json["stage_name"]`, `none` while the key is absent -/
  json_stage_name : Option String := none
deriving DecidableEq, Repr

/-! ## size_t arithmetic and the video cursor -/

/-- Width of `size_t`. -/
def SIZE_MOD : Nat := 2 ^ 64

/-- Subtraction of two `size_t` values. -/
def size_sub (a b : Nat) : Nat := (a % SIZE_MOD + SIZE_MOD - b % SIZE_MOD) % SIZE_MOD

/-- Sequential read `*m_video_ptr >> frame`: the frame under the cursor, which then advances. -/
def read_frame (env : Env) (t : Task) : Option Mat × Task :=
  match env.frames.get? t.pos with
  | some f => (some f, { t with pos := t.pos + 1 })
  | none => (none, t)

/-- Function `skip_frames`: reads `count - 1` frames and returns `count`. -/
def skip_frames (env : Env) (t : Task) (count : Nat) : Nat × Task :=
  (count, (List.range (count - 1)).foldl (fun s _ => (read_frame env s).2) t)

/-! ## Name resolution -/

/-- Name given to a tray entry that matches no known avatar. -/
def UnknownDeployment : String := "UnknownDeployment"

/-- Name given to a deployed unit when the deployed names are used up. -/
def UnkownDeployed : String := "UnkownDeployed"

/-- Templates appended for one tray entry: the known avatars whose role set contains its role. -/
def avatar_candidates (env : Env) (t : Task) (oper : DeploymentOper) : List (String × Mat) :=
  t.m_all_avatars.filter (fun na =>
    let roles := if na.1 = "阿米娅" then [env.get_role na.1, env.role_warrior]
                 else [env.get_role na.1]
    roles.contains oper.role)

/-- Body of the loop of `ananlyze_deployment_names` for one tray entry. -/
def resolve_name (env : Env) (t : Task) (oper : DeploymentOper) : DeploymentOper :=
  if oper.name ≠ "" then oper
  else
    match env.best_match oper.avatar (avatar_candidates env t oper) with
    | some n => { oper with name := n }
    | none => { oper with name := UnknownDeployment }

/-- Function `ananlyze_deployment_names`. -/
def ananlyze_deployment_names (env : Env) (t : Task) (clip : ClipInfo) : ClipInfo :=
  { clip with deployment := clip.deployment.map (resolve_name env t) }

/-! ## Reconstruction of the events -/

/-- Names of the predecessor's tray that `find_if` does not find in the current tray. -/
def deployed_names (clip pre : ClipInfo) : List String :=
  (pre.deployment.filter (fun pre_oper =>
    (clip.deployment.find? (fun oper => oper.name = pre_oper.name)).isNone)).map (·.name)

/-- Loop over `clip.battlefield` that pairs the flagged locations with the deployed names. -/
def deploy_events : List String → List (Point × BattlefiledOper) → List Action
  | _, [] => []
  | names, (loc, oper) :: rest =>
    if !oper.new_here then deploy_events names rest
    else
      match names with
      | [] => Action.Deploy UnkownDeployed loc oper.direction :: deploy_events [] rest
      | n :: ns => Action.Deploy n loc oper.direction :: deploy_events ns rest

/-- Key lookup `battlefield.contains(loc)`. -/
def battlefield_contains (bf : List (Point × BattlefiledOper)) (loc : Point) : Bool :=
  bf.any (fun e => e.1 = loc)

/-- Loop over the predecessor's battlefield that emits the retreats. -/
def retreat_events (clip pre : ClipInfo) : List Action :=
  (pre.battlefield.filter (fun e => !battlefield_contains clip.battlefield e.1)).map
    (fun e => Action.Retreat e.1)

/-- Function `process_changes`: returned flag, task, current clip and predecessor afterwards. -/
def process_changes (env : Env) (t : Task) (clip : ClipInfo) (pre : Option ClipInfo) :
    Bool × Task × ClipInfo × Option ClipInfo :=
  match pre with
  | none => (true, t, clip, none)
  | some p =>
    if clip.deployment.length = p.deployment.length then
      (true, t, clip, some p)
    else if clip.deployment.length < p.deployment.length then
      let clip1 := ananlyze_deployment_names env t clip
      let p1 := ananlyze_deployment_names env t p
      let deployed := deployed_names clip1 p1
      if deployed.isEmpty then
        (false, t, clip1, some p1)
      else
        (true, { t with actions := t.actions ++ deploy_events deployed clip1.battlefield },
          clip1, some p1)
    else
      (true, { t with actions := t.actions ++ retreat_events clip p }, clip, some p)

/-! ## Majority votes -/

/-- Increment `tally[key] += 1` of an unordered map: the entry with an equal key is
incremented, a missing key is inserted with count 1. -/
def tally_add {α : Type} (same : α → α → Bool) : List (α × Nat) → α → List (α × Nat)
  | [], key => [(key, 1)]
  | (k, n) :: rest, key =>
    if same k key then (k, n + 1) :: rest else (k, n) :: tally_add same rest key

/-- Inner loop of `std::max_element` ordered by the tallies: a later entry replaces the
current largest only when its tally is strictly greater. -/
def max_element_loop {α : Type} (largest : α × Nat) : List (α × Nat) → α × Nat
  | [] => largest
  | e :: rest =>
    if largest.2 < e.2 then max_element_loop e rest else max_element_loop largest rest

/-- Result of `ranges::max_element` on a tally, `none` for the end iterator. -/
def max_element {α : Type} : List (α × Nat) → Option (α × Nat)
  | [] => none
  | e :: rest => some (max_element_loop e rest)

/-- Equality of two `std::unordered_set<Point>` values. -/
def same_set (a b : List Point) : Bool :=
  a.all (fun p => b.contains p) && b.all (fun p => a.contains p)

/-! ## Occupancy vote -/

/-- Number of samples of a vote, `OperDetSamplingCount` and `DirectionClsSamplingCount`. -/
def SamplingCount : Nat := 5

/-- Sampling step of a vote over a span of `frame_count` frames. -/
def vote_skip_count (frame_count : Nat) : Nat :=
  if frame_count > SamplingCount + 1 then frame_count / (SamplingCount + 1) else 1

/-- Insertion `cur_locations.emplace(loc)` into an unordered set. -/
def set_emplace (cur : List Point) (loc : Point) : List Point :=
  if cur.contains loc then cur else cur ++ [loc]

/-- Locations of one sample: each detected box, moved by `det_box_move`, goes to the first
tile whose position it includes; a box on no tile is dropped. -/
def locate_boxes (env : Env) (t : Task) (boxes : List Rect) : List Point :=
  boxes.foldl (fun cur box =>
    let rect := env.rect_move box env.det_box_move
    match (t.m_normal_tile_info.map (·.2)).find? (fun ti => env.rect_include rect ti.pos) with
    | none => cur
    | some ti => set_emplace cur ti.loc) []

/-- Sampling loop of `detect_operators` from index `i`; the flag is `false` when an empty
frame made the function return.  The fuel bounds the number of frames that can be read. -/
def detect_loop (env : Env) (skip_count det_end : Nat) :
    Nat → Nat → Task → List (List Point × Nat) → Bool × Task × List (List Point × Nat)
  | 0, i, t, tally => (decide (¬ i < det_end), t, tally)
  | fuel + 1, i, t, tally =>
    if i < det_end then
      match read_frame env t with
      | (none, t1) => (false, t1, tally)
      | (some frame, t1) =>
        let cur_locations := locate_boxes env t1 (env.operators_analyze frame)
        let tally1 := tally_add same_set tally cur_locations
        let step := skip_frames env t1 skip_count
        detect_loop env skip_count det_end fuel ((i + step.1) % SIZE_MOD) step.2 tally1
    else (true, t, tally)

/-- Insertion `battlefield.emplace(loc, BattlefiledOper {})`: an existing entry is kept. -/
def battlefield_emplace (env : Env) (bf : List (Point × BattlefiledOper)) (loc : Point) :
    List (Point × BattlefiledOper) :=
  if battlefield_contains bf loc then bf
  else bf ++ [(loc, { direction := env.default_direction, new_here := false })]

/-- First part of `detect_operators`, up to the end of its sampling loop: the flag of the
loop, the task afterwards and the tally `oper_det_samping`. -/
def detect_sampling (env : Env) (t : Task) (clip : ClipInfo) :
    Bool × Task × List (List Point × Nat) :=
  let frame_count := size_sub clip.end_frame clip.start_frame
  let skip_count := vote_skip_count frame_count
  let det_begin := (clip.start_frame + skip_count) % SIZE_MOD
  let det_end := size_sub clip.end_frame skip_count
  let t0 := { t with pos := det_begin }
  detect_loop env skip_count det_end (env.frames.length + 1) det_begin t0 []

/-- Function `detect_operators`. -/
def detect_operators (env : Env) (t : Task) (clip : ClipInfo) (_pre : Option ClipInfo) :
    Bool × Task × ClipInfo :=
  match detect_sampling env t clip with
  | (false, t1, _) => (false, t1, clip)
  | (true, t1, oper_det_samping) =>
    match max_element (env.tally_order oper_det_samping) with
    | none => (false, t1, clip)
    | some (locs, _) =>
      (true, t1, { clip with battlefield := locs.foldl (battlefield_emplace env) clip.battlefield })

/-! ## Direction vote -/

/-- Lookup `m_normal_tile_info.at(loc)`, `none` when the key is missing (the call throws). -/
def tile_at (t : Task) (loc : Point) : Option TileInfo :=
  (t.m_normal_tile_info.find? (fun kv => kv.1 = loc)).map (·.2)

/-- Increment `dir_cls_sampling[loc][dir] += 1` of the nested tally. -/
def dir_tally_add : List (Point × List (DeployDirection × Nat)) → Point → DeployDirection →
    List (Point × List (DeployDirection × Nat))
  | [], loc, dir => [(loc, [(dir, 1)])]
  | (k, sampling) :: rest, loc, dir =>
    if k = loc then (k, tally_add (fun a b => decide (a = b)) sampling dir) :: rest
    else (k, sampling) :: dir_tally_add rest loc dir

/-- Inner loop of `classify_direction` over the newcomers of one frame; `none` when the tile
lookup throws. -/
def classify_frame (env : Env) (t : Task) (frame : Mat) :
    List Point → List (Point × List (DeployDirection × Nat)) →
    Option (List (Point × List (DeployDirection × Nat)))
  | [], sampling => some sampling
  | loc :: rest, sampling =>
    match tile_at t loc with
    | none => none
    | some tile =>
      classify_frame env t frame rest
        (dir_tally_add sampling loc (env.direction_analyze frame tile.pos))

/-- Sampling loop of `classify_direction` from index `i`. -/
def classify_loop (env : Env) (newcomer : List Point) (skip_count dir_end : Nat) :
    Nat → Nat → Task → List (Point × List (DeployDirection × Nat)) →
    Outcome × Task × List (Point × List (DeployDirection × Nat))
  | 0, i, t, sampling => (Outcome.ret (decide (¬ i < dir_end)), t, sampling)
  | fuel + 1, i, t, sampling =>
    if i < dir_end then
      match read_frame env t with
      | (none, t1) => (Outcome.ret false, t1, sampling)
      | (some frame, t1) =>
        match classify_frame env t1 frame newcomer sampling with
        | none => (Outcome.thrown, t1, sampling)
        | some sampling1 =>
          let step := skip_frames env t1 skip_count
          classify_loop env newcomer skip_count dir_end fuel ((i + step.1) % SIZE_MOD) step.2
            sampling1
    else (Outcome.ret true, t, sampling)

/-- Access `battlefield[loc]` followed by the two assignments of the voted direction and of
the flag; a missing key is inserted. -/
def battlefield_set (bf : List (Point × BattlefiledOper)) (loc : Point)
    (dir : DeployDirection) : List (Point × BattlefiledOper) :=
  if battlefield_contains bf loc then
    bf.map (fun e => if e.1 = loc then (e.1, { direction := dir, new_here := true }) else e)
  else bf ++ [(loc, { direction := dir, new_here := true })]

/-- Final loop of `classify_direction` over the nested tally; the flag is `false` when an
empty tally made the function return. -/
def apply_directions (env : Env) : List (Point × List (DeployDirection × Nat)) →
    List (Point × BattlefiledOper) → Bool × List (Point × BattlefiledOper)
  | [], bf => (true, bf)
  | (loc, sampling) :: rest, bf =>
    match max_element (env.dir_order sampling) with
    | none => (false, bf)
    | some (dir, _) => apply_directions env rest (battlefield_set bf loc dir)

/-- Function `classify_direction`. -/
def classify_direction (env : Env) (t : Task) (clip : ClipInfo) (pre : Option ClipInfo) :
    Outcome × Task × ClipInfo :=
  match pre with
  | none => (Outcome.ret true, t, clip)
  | some p =>
    let newcomer := (clip.battlefield.map (·.1)).filter
      (fun loc => !battlefield_contains p.battlefield loc)
    if newcomer.isEmpty then (Outcome.ret true, t, clip)
    else
      let frame_count := size_sub clip.end_frame clip.start_frame
      let skip_count := vote_skip_count frame_count
      let dir_begin := (clip.start_frame + skip_count) % SIZE_MOD
      let dir_end := size_sub clip.end_frame skip_count
      let t0 := { t with pos := dir_begin }
      match classify_loop env newcomer skip_count dir_end (env.frames.length + 1) dir_begin t0 []
      with
      | (Outcome.thrown, t1, _) => (Outcome.thrown, t1, clip)
      | (Outcome.ret false, t1, _) => (Outcome.ret false, t1, clip)
      | (Outcome.ret true, t1, dir_cls_sampling) =>
        let r := apply_directions env (env.loc_order dir_cls_sampling) clip.battlefield
        (Outcome.ret r.1, t1, { clip with battlefield := r.2 })

/-! ## Analysis of the clips -/

/-- Function `analyze_clip`: outcome, task, current clip and predecessor afterwards. -/
def analyze_clip (env : Env) (t : Task) (clip : ClipInfo) (pre : Option ClipInfo) :
    Outcome × Task × ClipInfo × Option ClipInfo :=
  match detect_operators env t clip pre with
  | (false, t1, clip1) => (Outcome.ret false, t1, clip1, pre)
  | (true, t1, clip1) =>
    match classify_direction env t1 clip1 pre with
    | (Outcome.thrown, t2, clip2) => (Outcome.thrown, t2, clip2, pre)
    | (Outcome.ret false, t2, clip2) => (Outcome.ret false, t2, clip2, pre)
    | (Outcome.ret true, t2, clip2) =>
      match process_changes env t2 clip2 pre with
      | (false, t3, clip3, pre3) => (Outcome.ret false, t3, clip3, pre3)
      | (true, t3, clip3, pre3) => (Outcome.ret true, t3, clip3, pre3)

/-- Flag `deployment_changed` of `analyze_all_clips`. -/
def deployment_changed (clip : ClipInfo) (pre : Option ClipInfo) : Bool :=
  match pre with
  | none => true
  | some p =>
    if clip.deployment.length = p.deployment.length then
      (clip.deployment.zip p.deployment).foldl
        (fun changed ab => changed || decide (ab.1.role ≠ ab.2.role)) false
    else true

/-- Clip list after a call of `analyze_clip`: the predecessor, last of the kept clips, is
written back and the current clip is kept after it. -/
def keep_clip (kept : List ClipInfo) (clip : ClipInfo) (pre : Option ClipInfo) : List ClipInfo :=
  match pre with
  | none => kept ++ [clip]
  | some p => kept.dropLast ++ [p, clip]

/-- Result of the loop of `analyze_all_clips`. -/
structure ClipsResult where
  outcome : Outcome
  task : Task
  /-- clips before the iterator when the loop ends: the clips that were kept -/
  kept : List ClipInfo
  /-- clips from the iterator on, not reached because of an exception -/
  rest : List ClipInfo
  /-- ghost log of the calls of `analyze_clip`: the clip and the predecessor handed over -/
  calls : List (ClipInfo × Option ClipInfo)

/-- Loop of `analyze_all_clips`: `kept` are the clips before the iterator, the last of them
being `pre_clip_ptr`; the clips from the iterator on are the list argument. -/
def analyze_all_clips_loop (env : Env) :
    List ClipInfo → List ClipInfo → Task → List (ClipInfo × Option ClipInfo) → ClipsResult
  | [], kept, t, calls =>
    { outcome := Outcome.ret true, task := t, kept := kept, rest := [], calls := calls }
  | clip :: rest, kept, t, calls =>
    let pre := kept.getLast?
    if !deployment_changed clip pre || decide (clip.start_frame ≥ clip.end_frame) then
      analyze_all_clips_loop env rest kept t calls
    else
      match analyze_clip env t clip pre with
      | (Outcome.thrown, t1, clip1, pre1) =>
        { outcome := Outcome.thrown, task := t1, kept := keep_clip kept clip1 pre1, rest := rest,
          calls := calls ++ [(clip, pre)] }
      | (Outcome.ret _, t1, clip1, pre1) =>
        analyze_all_clips_loop env rest (keep_clip kept clip1 pre1) t1 (calls ++ [(clip, pre)])

/-- Function `analyze_all_clips`: outcome, task afterwards, and the log of `analyze_clip`. -/
def analyze_all_clips (env : Env) (t : Task) :
    Outcome × Task × List (ClipInfo × Option ClipInfo) :=
  let r := analyze_all_clips_loop env t.m_clips [] t []
  (r.outcome, { r.task with m_clips := r.kept ++ r.rest }, r.calls)

/-! ## Roster phase -/

/-- Loop of `analyze_formation` from index `i` with the counter `no_changes_count`; the flag is
`false` when an empty frame made the function return. -/
def analyze_formation_loop (env : Env) (skip_count : Nat) : Nat → Nat → Nat → Task → Bool × Task
  | 0, i, _, t => (decide (¬ i < t.m_video_frame_count), t)
  | fuel + 1, i, no_changes_count, t =>
    if i < t.m_video_frame_count then
      match read_frame env t with
      | (none, t1) => (false, t1)
      | (some frame, t1) =>
        match env.formation_analyze frame with
        | some cur =>
          if cur.length > t1.m_formation.length then
            let t2 := { t1 with m_formation := cur }
            let step := skip_frames env t2 skip_count
            analyze_formation_loop env skip_count fuel ((i + step.1) % SIZE_MOD)
              no_changes_count step.2
          else if no_changes_count + 1 > 5 then
            (true, { t1 with m_formation_end_frame := i })
          else
            let step := skip_frames env t1 skip_count
            analyze_formation_loop env skip_count fuel ((i + step.1) % SIZE_MOD)
              (no_changes_count + 1) step.2
        | none =>
          if !t1.m_formation.isEmpty then
            (true, { t1 with m_formation_end_frame := i })
          else
            let step := skip_frames env t1 skip_count
            analyze_formation_loop env skip_count fuel ((i + step.1) % SIZE_MOD)
              no_changes_count step.2
    else (true, t)

/-- Function `analyze_formation`; `skip_count` is the sampling step that its first statement
computes from the two frame rates. -/
def analyze_formation (env : Env) (skip_count : Nat) (t : Task) : Bool × Task :=
  match analyze_formation_loop env skip_count (env.frames.length + 1) 0 0 t with
  | (false, t1) => (false, t1)
  | (true, t1) => (true, { t1 with opers := t1.opers ++ t1.m_formation.map (·.1) })

/-! ## A three-clip battle used to exercise the definitions -/

/-- Recognizers of the example: frame `k` of the video is the image `k`; nothing stands on the
field up to frame 10, one unit on `(2,3)` from frame 11, a second one on `(4,1)` from
frame 21; the first faces direction 3 and the second direction 0. -/
def example_env : Env :=
  { frames := List.range 31
    formation_analyze := fun _ => none
    operators_analyze := fun f =>
      if f ≤ 10 then [] else if f ≤ 20 then [⟨200, 300, 5, 5⟩]
      else [⟨200, 300, 5, 5⟩, ⟨400, 100, 5, 5⟩]
    direction_analyze := fun _ pos => if pos = ⟨200, 300⟩ then 3 else 0
    best_match := fun _ _ => none
    get_role := fun _ => 0
    role_warrior := 1
    rect_move := fun r m => ⟨r.x + m.x, r.y + m.y, m.width, m.height⟩
    rect_include := fun r p =>
      decide (r.x ≤ p.x ∧ p.x ≤ r.x + r.width ∧ r.y ≤ p.y ∧ p.y ≤ r.y + r.height)
    det_box_move := ⟨-10, -10, 20, 20⟩
    default_direction := 4
    tally_order := fun l => l }

/-- Tray entry of the example with the given name. -/
def example_oper (name : String) (index : Nat) : DeploymentOper :=
  { name := name, avatar := 0, role := 0, index := index, cooling := false }

/-- First clip of the example: tray `[A, B]`, frames 0 to 10. -/
def example_clip1 : ClipInfo :=
  { start_frame := 0, end_frame := 10, deployment := [example_oper "A" 0, example_oper "B" 1],
    cooling := 0, battlefield := [] }

/-- Second clip of the example: tray `[B]`, frames 11 to 20. -/
def example_clip2 : ClipInfo :=
  { start_frame := 11, end_frame := 20, deployment := [example_oper "B" 0],
    cooling := 0, battlefield := [] }

/-- Third clip of the example: empty tray, frames 21 to 30. -/
def example_clip3 : ClipInfo :=
  { start_frame := 21, end_frame := 30, deployment := [], cooling := 0, battlefield := [] }

/-- Task of the example before `analyze_all_clips`, with the given clips. -/
def example_task (clips : List ClipInfo) : Task :=
  { pos := 0, m_video_frame_count := 31, m_formation := [], m_formation_end_frame := 0
    m_normal_tile_info :=
      [(⟨2, 3⟩, { pos := ⟨200, 300⟩, loc := ⟨2, 3⟩ }), (⟨4, 1⟩, { pos := ⟨400, 100⟩, loc := ⟨4, 1⟩ })]
    m_all_avatars := [], m_clips := clips, opers := [], actions := [] }

/-- Recognizers of a second example: one unit stands on `(2,3)` from frame 11 to frame 20 and
the field is empty before and after. -/
def example_retreat_env : Env :=
  { example_env with
    operators_analyze := fun f => if 11 ≤ f ∧ f ≤ 20 then [⟨200, 300, 5, 5⟩] else [] }

/-- Clip of frames 21 to 30 with the tray `[B]`. -/
def example_clip3_same : ClipInfo :=
  { example_clip3 with deployment := [example_oper "B" 0] }

/-- Clip of frames 11 to 20 with an empty tray. -/
def example_clip2_empty : ClipInfo :=
  { example_clip2 with deployment := [] }

/-- Names of the tray of a clip, in tray order. -/
def tray_names (clip : ClipInfo) : List String :=
  clip.deployment.map (·.name)

/-- Entries of the battlefield of a clip that are flagged newly occupied, in iteration order. -/
def flagged_locations (clip : ClipInfo) : List (Point × BattlefiledOper) :=
  clip.battlefield.filter (fun e => e.2.new_here)

/-- Names of the predecessor's tray that are absent from the current tray, in the order of the
predecessor's tray, both trays taken after name resolution. -/
def resolved_deployed (env : Env) (t : Task) (clip pre : ClipInfo) : List String :=
  (tray_names (ananlyze_deployment_names env t pre)).filter
    (fun n => decide (n ∉ tray_names (ananlyze_deployment_names env t clip)))

/-- Clip of frames 21 to 30 with an empty tray and four occupied locations, three of them
flagged newly occupied. -/
def example_clip3_flagged : ClipInfo :=
  { example_clip3 with
    battlefield := [(⟨2, 3⟩, ⟨3, true⟩), (⟨1, 1⟩, ⟨2, false⟩), (⟨4, 1⟩, ⟨0, true⟩),
      (⟨5, 5⟩, ⟨1, true⟩)] }

/-- Members of the task other than the video cursor and the action list. -/
def fixed_part (t : Task) : Task :=
  { t with pos := 0, actions := [] }

/-- Events that the analysis of `clip` against `pre` appends when started on an empty action
list. -/
def clip_events (env : Env) (t : Task) (clip : ClipInfo) (pre : Option ClipInfo) : List Action :=
  (analyze_clip env { t with actions := [] } clip pre).2.1.actions

/-- Clip of zero width at frame 11 with the tray `[B]`. -/
def example_clip_degenerate : ClipInfo :=
  { example_clip2 with start_frame := 11, end_frame := 11 }

/-- Clip of frames 11 to 12 with the tray `[B]`: too short for the occupancy vote to take a
sample. -/
def example_clip_short : ClipInfo :=
  { example_clip2 with start_frame := 11, end_frame := 12 }

/-- Roster of the given size, with arbitrary names and avatars. -/
def example_roster (size : Nat) : List (String × Mat) :=
  (List.range size).map (fun k => (String.mk (List.replicate (k + 1) 'a'), k))

/-- Recognizers of a roster example with `n` frames: frame `k` shows the roster of size
`sizes k`. -/
def example_formation_env (n : Nat) (sizes : Nat → Nat) : Env :=
  { example_env with
    frames := List.range n
    formation_analyze := fun f => some (example_roster (sizes f)) }

/-- Task of the roster example before `analyze_formation`, for a video of `n` frames. -/
def example_formation_task (n : Nat) : Task :=
  { example_task [] with m_video_frame_count := n }

/-- Location sets of the samples that the loop of `detect_operators` takes from index `i`, in
the order in which they are tallied. -/
def detect_samples_loop (env : Env) (skip_count det_end : Nat) :
    Nat → Nat → Task → List (List Point)
  | 0, _, _ => []
  | fuel + 1, i, t =>
    if i < det_end then
      match read_frame env t with
      | (none, _) => []
      | (some frame, t1) =>
        let step := skip_frames env t1 skip_count
        locate_boxes env t1 (env.operators_analyze frame) ::
          detect_samples_loop env skip_count det_end fuel ((i + step.1) % SIZE_MOD) step.2
    else []

/-- Location sets of the samples that `detect_operators` takes for a clip. -/
def detect_samples (env : Env) (t : Task) (clip : ClipInfo) : List (List Point) :=
  let frame_count := size_sub clip.end_frame clip.start_frame
  let skip_count := vote_skip_count frame_count
  let det_begin := (clip.start_frame + skip_count) % SIZE_MOD
  let det_end := size_sub clip.end_frame skip_count
  detect_samples_loop env skip_count det_end (env.frames.length + 1) det_begin
    { t with pos := det_begin }

/-- Correctness of a tally for the list `samples` under the key equality `same`: every key is
a sample and carries the number of samples equal to it, every sample is equal to a key, and
no two keys are equal. -/
def tally_inv {α : Type} (same : α → α → Bool) (tally : List (α × Nat)) (samples : List α) :
    Prop :=
  (∀ e ∈ tally, e.1 ∈ samples ∧ e.2 = samples.countP (fun x => same e.1 x)) ∧
  (∀ s ∈ samples, ∃ e ∈ tally, same e.1 s = true) ∧
  (tally.map (·.1)).Pairwise (fun a b => same a b = false)

/-- Clip of frames 14 to 24 of the example, which spans the arrival of the second unit. -/
def example_clip_mixed : ClipInfo :=
  { example_clip2 with start_frame := 14, end_frame := 24 }

/-- Sampling part of `classify_direction` for the newcomers `newcomer` of a clip: the outcome
of the loop, the task afterwards and the tally `dir_cls_sampling`. -/
def classify_sampling (env : Env) (t : Task) (clip : ClipInfo) (newcomer : List Point) :
    Outcome × Task × List (Point × List (DeployDirection × Nat)) :=
  let frame_count := size_sub clip.end_frame clip.start_frame
  let skip_count := vote_skip_count frame_count
  let dir_begin := (clip.start_frame + skip_count) % SIZE_MOD
  let dir_end := size_sub clip.end_frame skip_count
  classify_loop env newcomer skip_count dir_end (env.frames.length + 1) dir_begin
    { t with pos := dir_begin } []

/-- Clip of frames 10 to 21 of the example, a span of 11 frames, with the tray `[B]`. -/
def example_clip_span11 : ClipInfo :=
  { example_clip2 with start_frame := 10, end_frame := 21 }

/-- Recognizers of a roster example in which no frame shows a roster. -/
def example_no_roster_env (n : Nat) : Env :=
  { example_env with frames := List.range n }

/-- Recognizers of the name example: the best match of an avatar is the first template. -/
def example_match_env : Env :=
  { example_env with best_match := fun _ cands => cands.head?.map (·.1) }

/-- Task of the name example: two known avatars, `A` of role 0 and `C` of role 5. -/
def example_match_task : Task :=
  { example_task [] with m_all_avatars := [("A", 7), ("C", 8)] }

/-- Clip of the name example: a named entry, an unnamed entry of role 0 and an unnamed entry
of role 3. -/
def example_clip_unnamed : ClipInfo :=
  { example_clip1 with
    deployment := [example_oper "B" 0,
      { name := "", avatar := 1, role := 0, index := 1, cooling := false },
      { name := "", avatar := 2, role := 3, index := 2, cooling := true }] }

/-- What the analysis never changes in a clip: its span, its cooling count and its tray
entries without their names. -/
def clip_skeleton (c : ClipInfo) : Nat × Nat × Nat × List (Mat × Role × Nat × Bool) :=
  (c.start_frame, c.end_frame, c.cooling,
    c.deployment.map (fun o => (o.avatar, o.role, o.index, o.cooling)))

/-- Roles of the tray of a clip, by index. -/
def tray_roles (c : ClipInfo) : List Role :=
  c.deployment.map (·.role)

/-- Two clips have the same composition: trays of the same size with the same role at every
index. -/
def same_composition (a b : ClipInfo) : Prop :=
  a.deployment.length = b.deployment.length ∧
  ∀ i : Nat, i < a.deployment.length →
    (a.deployment[i]?).map (·.role) = (b.deployment[i]?).map (·.role)

/-- Decision of `same_composition`. -/
def same_composition_bool (a b : ClipInfo) : Bool :=
  decide (a.deployment.length = b.deployment.length) &&
    (List.range a.deployment.length).all
      (fun i => decide ((a.deployment[i]?).map (·.role) = (b.deployment[i]?).map (·.role)))

/-- A clip has a surviving predecessor with the same composition; `pre` is the last clip kept
so far, if any. -/
def repeats_composition (clip : ClipInfo) : Option ClipInfo → Bool
  | some p => same_composition_bool clip p
  | none => false

/-- Clips that the clean-up is expected to keep, in order, `pre` being the last clip kept so
far: a clip is dropped when its span is degenerate or when it has the same composition as the
last clip kept; otherwise it is kept. -/
def expected_survivors : Option ClipInfo → List ClipInfo → List ClipInfo
  | _, [] => []
  | pre, clip :: rest =>
    if decide (clip.start_frame ≥ clip.end_frame) || repeats_composition clip pre then
      expected_survivors pre rest
    else clip :: expected_survivors (some clip) rest

/-- Clip of frames 11 to 20 with the tray `[B]`, the unit `B` having another role. -/
def example_clip2_role : ClipInfo :=
  { example_clip2 with
    deployment := [{ name := "B", avatar := 0, role := 2, index := 0, cooling := false }] }

/-! ## Stage phase -/

/-- Loop of `analyze_stage` from index `i`; the flag is `false` when the function returned
false inside the loop, on an empty frame or on a started battle. -/
def analyze_stage_loop (env : Env) (skip_count : Nat) : Nat → Nat → Task → Bool × Task
  | 0, i, t => (decide (¬ i < t.m_video_frame_count), t)
  | fuel + 1, i, t =>
    if i < t.m_video_frame_count then
      match read_frame env t with
      | (none, t1) => (false, t1)
      | (some frame, t1) =>
        match env.stage_analyze frame with
        | none =>
          if env.battle_analyze frame then
            (false, { t1 with m_stage_ocr_end_frame := i })
          else
            let step := skip_frames env t1 skip_count
            analyze_stage_loop env skip_count fuel ((i + step.1) % SIZE_MOD) step.2
        | some text =>
          if text = "" ∨ ¬ env.tile_contains text = true then
            let step := skip_frames env t1 skip_count
            analyze_stage_loop env skip_count fuel ((i + step.1) % SIZE_MOD) step.2
          else
            (true, { t1 with m_stage_name := text, m_stage_ocr_end_frame := i })
    else (true, t)

/-- Function `analyze_stage`; `skip_count` is the sampling step computed from the two frame
rates.  Of the artifact only the key `stage_name` is modelled. -/
def analyze_stage (env : Env) (skip_count : Nat) (t : Task) : Bool × Task :=
  let r :=
    if t.m_stage_name = "" then
      analyze_stage_loop env skip_count (env.frames.length + 1) t.m_formation_end_frame t
    else (true, t)
  match r with
  | (false, t1) => (false, t1)
  | (true, t1) =>
    if t1.m_stage_name = "" ∨ ¬ env.tile_contains t1.m_stage_name = true then (false, t1)
    else
      (true, { t1 with
        m_normal_tile_info := env.tile_calc t1.m_stage_name
        json_stage_name := some t1.m_stage_name })

/-- Recognizers of a stage example of 6 frames: frame 1 reads an empty text, frame 2 reads
the unknown text `x`, frame 3 reads the known stage `1-7`. -/
def example_stage_env : Env :=
  { example_env with
    frames := List.range 6
    stage_analyze := fun f =>
      if f = 1 then some "" else if f = 2 then some "x" else if f = 3 then some "1-7" else none
    tile_contains := fun s => decide (s = "1-7" ∨ s = "2-3") }

/-- Task of the stage example with the given supplied stage name. -/
def example_stage_task (name : String) : Task :=
  { example_task [] with m_video_frame_count := 6, m_stage_name := name }

/-! ## Slicing of the battle into clips -/

/-- Members and locals that the loop of `slice_video` updates. -/
structure SliceState where
  m_clips : List ClipInfo
  m_battle_end_frame : Nat
  not_in_battle_count : Nat
  in_segment : Bool
deriving DecidableEq, Repr

/-- Update of `m_clips.back()`; on an empty list, where `back()` is undefined, nothing is
done. -/
def modify_back (clips : List ClipInfo) (f : ClipInfo → ClipInfo) : List ClipInfo :=
  match clips.getLast? with
  | none => clips
  | some last => clips.dropLast ++ [f last]

/-- Number of tray entries on cooldown, the `count_if` of `slice_video`. -/
def count_cooling (opers : List DeploymentOper) : Nat :=
  opers.countP (fun oper => oper.cooling)

/-- Body of the loop of `slice_video` for the sample of index `i`, after the frame was read:
`obs` is `none` when the frame is not analysed (not in battle) and otherwise holds the tray and
whether the detail page is shown.  The flag is `true` when the loop is left by `break`. -/
def slice_step (skip_count i : Nat) (obs : Option (List DeploymentOper × Bool))
    (s : SliceState) : Bool × SliceState :=
  match obs with
  | none =>
    let clips :=
      if s.in_segment && !s.m_clips.isEmpty then
        modify_back s.m_clips (fun c => { c with end_frame := i })
      else s.m_clips
    let battle_end := if s.m_battle_end_frame = 0 then i else s.m_battle_end_frame
    (decide (s.not_in_battle_count + 1 > 10),
      { m_clips := clips, m_battle_end_frame := battle_end,
        not_in_battle_count := s.not_in_battle_count + 1, in_segment := false })
  | some (cur_opers, in_detail_page) =>
    let cooling := count_cooling cur_opers
    if in_detail_page then
      if !s.in_segment || s.m_clips.isEmpty then
        (false, { s with m_battle_end_frame := 0, not_in_battle_count := 0 })
      else
        (false,
          { m_clips := modify_back s.m_clips (fun c => { c with end_frame := size_sub i skip_count })
            m_battle_end_frame := 0, not_in_battle_count := 0, in_segment := false })
    else if !s.in_segment then
      (false,
        { m_clips := s.m_clips ++
            [{ start_frame := i, end_frame := i, deployment := cur_opers, cooling := cooling,
               battlefield := [] }]
          m_battle_end_frame := 0, not_in_battle_count := 0, in_segment := true })
    else
      match s.m_clips.getLast? with
      | none => (false, { s with m_battle_end_frame := 0, not_in_battle_count := 0 })
      | some back =>
        if back.deployment.length ≠ cur_opers.length then
          (false,
            { m_clips := modify_back s.m_clips (fun c => { c with end_frame := i })
              m_battle_end_frame := 0, not_in_battle_count := 0, in_segment := false })
        else if cooling < back.cooling then
          (false,
            { m_clips := modify_back s.m_clips
                (fun c => { c with deployment := cur_opers, cooling := cooling })
              m_battle_end_frame := 0, not_in_battle_count := 0, in_segment := true })
        else (false, { s with m_battle_end_frame := 0, not_in_battle_count := 0 })

/-- Loop of `slice_video` from index `i`; the first flag is `false` when an empty frame made
the function return false. -/
def slice_video_loop (env : Env) (skip_count : Nat) :
    Nat → Nat → Task → SliceState → Bool × Task × SliceState
  | 0, i, t, s => (decide (¬ i < t.m_video_frame_count), t, s)
  | fuel + 1, i, t, s =>
    if i < t.m_video_frame_count then
      match read_frame env t with
      | (none, t1) => (false, t1, s)
      | (some frame, t1) =>
        let r := slice_step skip_count i (env.slice_analyze frame) s
        if r.1 then (true, t1, r.2)
        else
          let step := skip_frames env t1 skip_count
          slice_video_loop env skip_count fuel ((i + step.1) % SIZE_MOD) step.2 r.2
    else (true, t, s)

/-- State of the loop of `slice_video` when it starts. -/
def slice_init (t : Task) : SliceState :=
  { m_clips := t.m_clips, m_battle_end_frame := t.m_battle_end_frame,
    not_in_battle_count := 0, in_segment := false }

/-- Function `slice_video`; `skip_count` is the sampling step computed from the two frame
rates. -/
def slice_video (env : Env) (skip_count : Nat) (t : Task) : Bool × Task :=
  let r := slice_video_loop env skip_count (env.frames.length + 1) t.m_battle_start_frame t
    (slice_init t)
  (r.1, { r.2.1 with m_clips := r.2.2.m_clips, m_battle_end_frame := r.2.2.m_battle_end_frame })

/-- Samples that the loop of `slice_video` processes from index `i`, in order: the index and
what the frame shows. -/
def slice_samples_loop (env : Env) (skip_count : Nat) :
    Nat → Nat → Task → SliceState → List (Nat × Option (List DeploymentOper × Bool))
  | 0, _, _, _ => []
  | fuel + 1, i, t, s =>
    if i < t.m_video_frame_count then
      match read_frame env t with
      | (none, _) => []
      | (some frame, t1) =>
        let r := slice_step skip_count i (env.slice_analyze frame) s
        if r.1 then [(i, env.slice_analyze frame)]
        else
          let step := skip_frames env t1 skip_count
          (i, env.slice_analyze frame) ::
            slice_samples_loop env skip_count fuel ((i + step.1) % SIZE_MOD) step.2 r.2
    else []

/-- Samples that `slice_video` processes. -/
def slice_samples (env : Env) (skip_count : Nat) (t : Task) :
    List (Nat × Option (List DeploymentOper × Bool)) :=
  slice_samples_loop env skip_count (env.frames.length + 1) t.m_battle_start_frame t
    (slice_init t)

/-- Iteration of the body of the loop of `slice_video` over a list of samples, up to the
`break`; the flag tells whether the loop was left by `break`. -/
def slice_run (skip_count : Nat) :
    List (Nat × Option (List DeploymentOper × Bool)) → SliceState → Bool × SliceState
  | [], s => (false, s)
  | (i, obs) :: rest, s =>
    if (slice_step skip_count i obs s).1 then (true, (slice_step skip_count i obs s).2)
    else slice_run skip_count rest (slice_step skip_count i obs s).2

/-- Tray of the given size whose first `cooling` entries are on cooldown. -/
def example_tray (size cooling : Nat) : List DeploymentOper :=
  (List.range size).map
    (fun k => { name := "", avatar := k, role := 0, index := k, cooling := decide (k < cooling) })

/-- Recognizers of a slicing example of `n` frames: the tray has 2 entries up to frame 4 and
1 entry from frame 5 on, and frame `k` has `cooling k` entries on cooldown. -/
def example_slice_env (n : Nat) (cooling : Nat → Nat) : Env :=
  { example_env with
    frames := List.range n
    slice_analyze := fun f => some (example_tray (if f ≤ 4 then 2 else 1) (cooling f), false) }

/-- Task of the slicing example before `slice_video`, for a video of `n` frames. -/
def example_slice_task (n : Nat) : Task :=
  { example_task [] with m_video_frame_count := n }

/-- Clip opened at frame `start` with the given tray, as the loop of `slice_video` makes it. -/
def example_open_clip (start : Nat) (tray : List DeploymentOper) : ClipInfo :=
  { start_frame := start, end_frame := start, deployment := tray, cooling := count_cooling tray,
    battlefield := [] }

/-- State of the loop of `slice_video` with the given clips, the last of which is open. -/
def example_open_state (clips : List ClipInfo) : SliceState :=
  { m_clips := clips, m_battle_end_frame := 0, not_in_battle_count := 0, in_segment := true }

/-- Least cooling count of a list of samples, each a tray with its cooling count. -/
def min_cooling : List (List DeploymentOper × Nat) → Nat
  | [] => 0
  | x :: rest => rest.foldl (fun m y => min m y.2) x.2

/-- Earliest sample of a list whose cooling count is the least of the list. -/
def earliest_min (h : List (List DeploymentOper × Nat)) : Option (List DeploymentOper × Nat) :=
  h.find? (fun x => decide (x.2 = min_cooling h))

/-- Sample of `slice_video` in battle and without overlay, with the given tray. -/
def plain_sample (x : Nat × List DeploymentOper) :
    Nat × Option (List DeploymentOper × Bool) :=
  (x.1, some (x.2, false))

/-- Tray of a sample with its cooling count. -/
def tray_sample (opers : List DeploymentOper) : List DeploymentOper × Nat :=
  (opers, count_cooling opers)

/-- State of the loop of `slice_video` right after an in-battle sample, with the clips `base`
followed by the open clip `clip`. -/
def open_with (base : List ClipInfo) (clip : ClipInfo) : SliceState :=
  { m_clips := base ++ [clip], m_battle_end_frame := 0, not_in_battle_count := 0,
    in_segment := true }

/-- Clip with the span `[start, start]`, the given tray and cooling count and an empty
battlefield. -/
def new_clip (start : Nat) (tray : List DeploymentOper) (cooling : Nat) : ClipInfo :=
  { start_frame := start, end_frame := start, deployment := tray, cooling := cooling,
    battlefield := [] }

/-- Order of a clip list: every clip has `start_frame ≤ end_frame`, and every clip ends
strictly before the next one starts. -/
def clips_ordered (clips : List ClipInfo) : Prop :=
  (∀ c ∈ clips, c.start_frame ≤ c.end_frame) ∧
  List.Chain' (fun a b => a.end_frame < b.start_frame) clips

/-! ## Deployment phase -/

/-- Loop of `analyze_deployment` from index `i`; `opers` is the tray held by `oper_analyzer`,
which is declared before the loop.  The flag is `false` when an empty frame made the function
return false.  The matching of the roster avatars that follows the loop reads no frame and
uses no frame index. -/
def analyze_deployment_loop (env : Env) (skip_count : Nat) :
    Nat → Nat → Task → List DeploymentOper → Bool × Task × List DeploymentOper
  | 0, i, t, opers => (decide (¬ i < t.m_video_frame_count), t, opers)
  | fuel + 1, i, t, opers =>
    if i < t.m_video_frame_count then
      match read_frame env t with
      | (none, t1) => (false, t1, opers)
      | (some frame, t1) =>
        if (env.deployment_analyze frame).1 then
          (true, { t1 with m_battle_start_frame := i }, (env.deployment_analyze frame).2)
        else
          let step := skip_frames env t1 skip_count
          analyze_deployment_loop env skip_count fuel ((i + step.1) % SIZE_MOD) step.2
            (env.deployment_analyze frame).2
    else (true, t, opers)

/-- First part of `analyze_deployment`, up to the end of its loop, which starts at
`m_stage_ocr_end_frame`; `skip_count` is the sampling step computed from the two frame
rates. -/
def analyze_deployment_sampling (env : Env) (skip_count : Nat) (t : Task) :
    Bool × Task × List DeploymentOper :=
  analyze_deployment_loop env skip_count (env.frames.length + 1) t.m_stage_ocr_end_frame t []

/-- Recognizers of a whole recording of 35 frames in which frame `k` is the image `k`: every
frame shows a roster of one unit, frame 8 alone shows the stage name `1-7`, the battle is on
from frame 10 to frame 19, with a tray of two units up to frame 14 and of one unit from
frame 15. -/
def example_record_env : Env :=
  { example_env with
    frames := List.range 35
    formation_analyze := fun _ => some (example_roster 1)
    stage_analyze := fun f => if f = 8 then some "1-7" else none
    tile_contains := fun s => decide (s = "1-7")
    deployment_analyze := fun f =>
      if 10 ≤ f ∧ f ≤ 19 then (true, example_tray (if f ≤ 14 then 2 else 1) 0) else (false, [])
    slice_analyze := fun f =>
      if 10 ≤ f ∧ f ≤ 19 then some (example_tray (if f ≤ 14 then 2 else 1) 0, false) else none }

/-- Task of the recording example when `_run` starts its phases. -/
def example_record_task : Task :=
  { example_task [] with m_video_frame_count := 35 }

/-- Task of the recording example after `analyze_formation`, sampled with step 1. -/
def example_after_formation : Task :=
  (analyze_formation example_record_env 1 example_record_task).2

/-- Task of the recording example after `analyze_stage`, sampled with step 1. -/
def example_after_stage : Task :=
  (analyze_stage example_record_env 1 example_after_formation).2

/-- Task of the recording example after the loop of `analyze_deployment`, sampled with
step 1. -/
def example_after_deployment : Task :=
  (analyze_deployment_sampling example_record_env 1 example_after_stage).2.1

/-- Task of the recording example after `slice_video`, sampled with step 1. -/
def example_after_slice : Task :=
  (slice_video example_record_env 1 example_after_deployment).2

/-! ## The samples of the direction vote -/

/-- Locations of the battlefield of `clip` that the battlefield of the predecessor `p` does
not contain: the vector `newcomer` of `classify_direction`. -/
def newcomers (clip p : ClipInfo) : List Point :=
  (clip.battlefield.map (·.1)).filter (fun loc => !battlefield_contains p.battlefield loc)

/-- Frames that the sampling loop of a vote reads from index `i`, in order. -/
def sampled_frames_loop (env : Env) (skip_count vote_end : Nat) : Nat → Nat → Task → List Mat
  | 0, _, _ => []
  | fuel + 1, i, t =>
    if i < vote_end then
      match read_frame env t with
      | (none, _) => []
      | (some frame, t1) =>
        let step := skip_frames env t1 skip_count
        frame :: sampled_frames_loop env skip_count vote_end fuel ((i + step.1) % SIZE_MOD)
          step.2
    else []

/-- Frames that the loop of `classify_direction` samples for a clip with newcomers. -/
def direction_frames (env : Env) (t : Task) (clip : ClipInfo) : List Mat :=
  let frame_count := size_sub clip.end_frame clip.start_frame
  let skip_count := vote_skip_count frame_count
  let dir_begin := (clip.start_frame + skip_count) % SIZE_MOD
  let dir_end := size_sub clip.end_frame skip_count
  sampled_frames_loop env skip_count dir_end (env.frames.length + 1) dir_begin
    { t with pos := dir_begin }

/-- Facings read at the tile position `pos` in the given frames, in order. -/
def facings_at (env : Env) (frames : List Mat) (pos : Point) : List DeployDirection :=
  frames.map (fun f => env.direction_analyze f pos)

/-- Facings read for the location `loc` in the given frames; none when the location is on no
tile. -/
def facings_of (env : Env) (t : Task) (frames : List Mat) (loc : Point) :
    List DeployDirection :=
  match tile_at t loc with
  | none => []
  | some tile => facings_at env frames tile.pos

/-- Samples of the direction vote of a clip for the location `loc`. -/
def direction_samples (env : Env) (t : Task) (clip : ClipInfo) (loc : Point) :
    List DeployDirection :=
  facings_of env t (direction_frames env t clip) loc

/-- Tally of the location `loc` in the nested tally `dir_cls_sampling`, empty when the
location has no entry. -/
def tally_of (sampling : List (Point × List (DeployDirection × Nat))) (loc : Point) :
    List (DeployDirection × Nat) :=
  match sampling.find? (fun kv => kv.1 = loc) with
  | some kv => kv.2
  | none => []

/-- Second clip of the example after its analysis: the unit on `(2,3)` is flagged and faces
direction 3. -/
def example_clip2_voted : ClipInfo :=
  { example_clip2 with battlefield := [(⟨2, 3⟩, ⟨3, true⟩)] }

/-- Third clip of the example after `detect_operators`. -/
def example_clip3_detected : ClipInfo :=
  (detect_operators example_env (example_task []) example_clip3 (some example_clip2_voted)).2.2

/-- Correctness of the nested tally `sampling` of the direction vote for the newcomers `locs`
after the frames `frames`: its keys are distinct newcomers, the tally of every newcomer
counts the facings read for it in these frames, and once a frame is tallied every newcomer is
on a tile. -/
def dir_inv (env : Env) (t : Task) (locs : List Point) (frames : List Mat)
    (sampling : List (Point × List (DeployDirection × Nat))) : Prop :=
  (sampling.map (·.1)).Nodup ∧ (∀ k ∈ sampling.map (·.1), k ∈ locs) ∧
  (∀ loc ∈ locs,
    tally_inv (fun a b => decide (a = b)) (tally_of sampling loc)
      (facings_of env t frames loc)) ∧
  (frames ≠ [] → ∀ loc ∈ locs, ∃ tile, tile_at t loc = some tile)

/-! # Theorems -/

/-! ## Name resolution -/

theorem resolve_name_of_named (env : Env) (t : Task) (oper : DeploymentOper)
    (h : oper.name ≠ "") : resolve_name env t oper = oper := by
  unfold resolve_name
  simp [h]

theorem ananlyze_deployment_names_of_named (env : Env) (t : Task) (clip : ClipInfo)
    (h : ∀ o ∈ clip.deployment, o.name ≠ "") : ananlyze_deployment_names env t clip = clip := by
  unfold ananlyze_deployment_names
  have hmap : clip.deployment.map (resolve_name env t) = clip.deployment := by
    conv_rhs => rw [← List.map_id clip.deployment]
    exact List.map_congr_left (fun o ho => by simpa using resolve_name_of_named env t o (h o ho))
  rw [hmap]

/-! ## The loop that pairs names with flagged locations -/

theorem deploy_events_getElem? (names : List String) (bf : List (Point × BattlefiledOper))
    (k : Nat) :
    (deploy_events names bf)[k]? =
      ((bf.filter (fun e => e.2.new_here))[k]?).map
        (fun e => Action.Deploy (names.getD k UnkownDeployed) e.1 e.2.direction) := by
  induction bf generalizing names k with
  | nil => simp [deploy_events]
  | cons e rest ih =>
    obtain ⟨loc, oper⟩ := e
    by_cases hn : oper.new_here = true
    · cases names with
      | nil =>
        cases k with
        | zero => simp [deploy_events, hn]
        | succ k => simp [deploy_events, hn, ih]
      | cons n ns =>
        cases k with
        | zero => simp [deploy_events, hn]
        | succ k => simp [deploy_events, hn, ih]
    · simp [deploy_events, hn, ih]

theorem deploy_events_length (names : List String) (bf : List (Point × BattlefiledOper)) :
    (deploy_events names bf).length = (bf.filter (fun e => e.2.new_here)).length := by
  induction bf generalizing names with
  | nil => simp [deploy_events]
  | cons e rest ih =>
    obtain ⟨loc, oper⟩ := e
    by_cases hn : oper.new_here = true
    · cases names <;> simp [deploy_events, hn, ih]
    · simp [deploy_events, hn, ih]

theorem deploy_events_is_deploy (names : List String) (bf : List (Point × BattlefiledOper)) :
    ∀ a ∈ deploy_events names bf, ∃ n loc dir, a = Action.Deploy n loc dir := by
  induction bf generalizing names with
  | nil => simp [deploy_events]
  | cons e rest ih =>
    obtain ⟨loc, oper⟩ := e
    by_cases hn : oper.new_here = true
    · cases names with
      | nil =>
        intro a ha
        simp only [deploy_events, hn, Bool.not_true, Bool.false_eq_true, if_false,
          List.mem_cons] at ha
        rcases ha with rfl | ha
        · exact ⟨_, _, _, rfl⟩
        · exact ih _ a ha
      | cons n ns =>
        intro a ha
        simp only [deploy_events, hn, Bool.not_true, Bool.false_eq_true, if_false,
          List.mem_cons] at ha
        rcases ha with rfl | ha
        · exact ⟨_, _, _, rfl⟩
        · exact ih _ a ha
    · intro a ha
      simp only [deploy_events, hn, Bool.not_false, if_true] at ha
      exact ih _ a ha

theorem deploy_events_single (names : List String) (name : String)
    (bf : List (Point × BattlefiledOper)) (loc : Point) (oper : BattlefiledOper)
    (hflag : bf.filter (fun e => e.2.new_here) = [(loc, oper)]) :
    deploy_events (name :: names) bf = [Action.Deploy name loc oper.direction] := by
  apply List.ext_getElem?
  intro k
  rw [deploy_events_getElem?, hflag]
  cases k with
  | zero => simp
  | succ k => simp

/-! ## The deployed names -/

theorem filter_eq_singleton {α : Type} [DecidableEq α] (l : List α) (a : α) (hnd : l.Nodup)
    (hm : a ∈ l) : l.filter (fun b => decide (b = a)) = [a] := by
  induction l with
  | nil => simp at hm
  | cons b rest ih =>
    rw [List.nodup_cons] at hnd
    by_cases hb : b = a
    · subst hb
      have : rest.filter (fun c => decide (c = b)) = [] := by
        rw [List.filter_eq_nil_iff]
        intro c hc
        simp only [decide_eq_true_eq]
        rintro rfl
        exact hnd.1 hc
      simp [this]
    · have hm' : a ∈ rest := by
        rcases List.mem_cons.1 hm with h | h
        · exact absurd h.symm hb
        · exact h
      simp [hb, ih hnd.2 hm']

theorem deployed_names_single (clip pre : ClipInfo) (name : String)
    (hnodup : (pre.deployment.map (·.name)).Nodup)
    (hmem : name ∈ pre.deployment.map (·.name))
    (hroster : (clip.deployment.map (·.name)).Perm ((pre.deployment.map (·.name)).erase name)) :
    deployed_names clip pre = [name] := by
  unfold deployed_names
  have hfilter : pre.deployment.filter (fun pre_oper =>
      (clip.deployment.find? (fun oper => oper.name = pre_oper.name)).isNone) =
      pre.deployment.filter (fun pre_oper => decide (pre_oper.name = name)) := by
    apply List.filter_congr
    intro po hpo
    have hpo' : po.name ∈ pre.deployment.map (·.name) := List.mem_map_of_mem _ hpo
    have hiff : po.name ∈ clip.deployment.map (·.name) ↔ po.name ≠ name := by
      rw [hroster.mem_iff, hnodup.mem_erase_iff]
      exact ⟨fun h => h.1, fun h => ⟨h, hpo'⟩⟩
    by_cases hn : po.name = name
    · have hnot : po.name ∉ clip.deployment.map (·.name) := fun h => (hiff.1 h) hn
      have : clip.deployment.find? (fun oper => decide (oper.name = po.name)) = none := by
        rw [List.find?_eq_none]
        intro o ho
        simp only [decide_eq_true_eq]
        intro h
        exact hnot (h ▸ List.mem_map_of_mem _ ho)
      rw [this]
      simp [hn]
    · have hin : po.name ∈ clip.deployment.map (·.name) := hiff.2 hn
      obtain ⟨o, ho, hoe⟩ := List.mem_map.1 hin
      have : (clip.deployment.find? (fun oper => decide (oper.name = po.name))).isSome = true := by
        rw [List.find?_isSome]
        exact ⟨o, ho, by simpa using hoe⟩
      cases hf : clip.deployment.find? (fun oper => decide (oper.name = po.name)) with
      | none => rw [hf] at this; simp at this
      | some v => simp [hn]
  rw [hfilter]
  have := filter_eq_singleton _ name hnodup hmem
  rw [List.filter_map] at this
  exact this

/-! ## The retreats -/

theorem battlefield_contains_iff (bf : List (Point × BattlefiledOper)) (loc : Point) :
    battlefield_contains bf loc = true ↔ loc ∈ bf.map (·.1) := by
  unfold battlefield_contains
  simp only [List.any_eq_true, decide_eq_true_eq, List.mem_map]

theorem retreat_events_eq (clip pre : ClipInfo) :
    retreat_events clip pre =
      ((pre.battlefield.map (·.1)).filter
        (fun loc => !battlefield_contains clip.battlefield loc)).map Action.Retreat := by
  unfold retreat_events
  rw [List.filter_map, List.map_map]
  rfl

theorem retreat_events_single (clip pre : ClipInfo) (loc : Point)
    (hkeys : (pre.battlefield.map (·.1)).Nodup)
    (hocc : (pre.battlefield.map (·.1)).Perm (loc :: clip.battlefield.map (·.1))) :
    retreat_events clip pre = [Action.Retreat loc] := by
  rw [retreat_events_eq]
  have hmem : loc ∈ pre.battlefield.map (·.1) := hocc.mem_iff.2 (List.mem_cons_self _ _)
  have hnd : (loc :: clip.battlefield.map (·.1)).Nodup := hocc.nodup_iff.1 hkeys
  have hnot : loc ∉ clip.battlefield.map (·.1) := (List.nodup_cons.1 hnd).1
  have hfilter : (pre.battlefield.map (·.1)).filter
      (fun l => !battlefield_contains clip.battlefield l) =
      (pre.battlefield.map (·.1)).filter (fun l => decide (l = loc)) := by
    apply List.filter_congr
    intro l hl
    have hl' : l = loc ∨ l ∈ clip.battlefield.map (·.1) := List.mem_cons.1 (hocc.mem_iff.1 hl)
    by_cases h : l = loc
    · subst h
      have : battlefield_contains clip.battlefield l = false := by
        rw [← Bool.not_eq_true, battlefield_contains_iff]
        exact hnot
      simp [this]
    · have hin : l ∈ clip.battlefield.map (·.1) := hl'.resolve_left h
      have : battlefield_contains clip.battlefield l = true :=
        (battlefield_contains_iff _ _).2 hin
      simp [this, h]
  rw [hfilter, filter_eq_singleton _ loc hkeys hmem]
  rfl

theorem retreat_events_count (clip pre : ClipInfo) (loc : Point)
    (hkeys : (pre.battlefield.map (·.1)).Nodup) :
    (retreat_events clip pre).count (Action.Retreat loc) =
      if battlefield_contains pre.battlefield loc = true ∧
        battlefield_contains clip.battlefield loc = false then 1 else 0 := by
  rw [retreat_events_eq]
  have hinj : Function.Injective Action.Retreat := fun a b h => by injection h
  rw [List.count_map_of_injective _ _ hinj]
  by_cases hc : battlefield_contains clip.battlefield loc = true
  · have : loc ∉ (pre.battlefield.map (·.1)).filter
        (fun l => !battlefield_contains clip.battlefield l) := by
      intro h
      have := (List.mem_filter.1 h).2
      simp [hc] at this
    rw [List.count_eq_zero_of_not_mem this]
    simp [hc]
  · have hc' : battlefield_contains clip.battlefield loc = false := by simpa using hc
    rw [List.count_filter (by simp [hc'])]
    by_cases hp : battlefield_contains pre.battlefield loc = true
    · rw [List.count_eq_one_of_mem hkeys ((battlefield_contains_iff _ _).1 hp)]
      simp [hp, hc']
    · have : loc ∉ pre.battlefield.map (·.1) := fun h => hp ((battlefield_contains_iff _ _).2 h)
      rw [List.count_eq_zero_of_not_mem this]
      simp [hp]

theorem retreat_events_is_retreat (clip pre : ClipInfo) :
    ∀ a ∈ retreat_events clip pre, ∃ loc, a = Action.Retreat loc := by
  intro a ha
  rw [retreat_events_eq] at ha
  obtain ⟨loc, _, rfl⟩ := List.mem_map.1 ha
  exact ⟨loc, rfl⟩


/-! ## Claims on `process_changes` -/

/-- C1: when every tray name of two consecutive clips is resolved, the names of the
predecessor's tray are pairwise distinct, the current tray is the predecessor's tray with the
one unit `name` removed, and exactly one location `loc` of the current battlefield is flagged
newly occupied, `process_changes` succeeds, leaves both clips as they are and appends exactly
one event: the Deploy of `name` at `loc` with the direction voted for `loc`. -/
theorem process_changes_single_deploy (env : Env) (t : Task) (clip pre : ClipInfo)
    (name : String) (loc : Point) (oper : BattlefiledOper)
    (hclip : ∀ o ∈ clip.deployment, o.name ≠ "")
    (hpre : ∀ o ∈ pre.deployment, o.name ≠ "")
    (hnodup : (pre.deployment.map (·.name)).Nodup)
    (hmem : name ∈ pre.deployment.map (·.name))
    (hroster : (clip.deployment.map (·.name)).Perm ((pre.deployment.map (·.name)).erase name))
    (hflag : clip.battlefield.filter (fun e => e.2.new_here) = [(loc, oper)]) :
    process_changes env t clip (some pre) =
      (true, { t with actions := t.actions ++ [Action.Deploy name loc oper.direction] },
        clip, some pre) := by
  have hlen : clip.deployment.length + 1 = pre.deployment.length := by
    have h1 := hroster.length_eq
    rw [List.length_erase_of_mem hmem] at h1
    simp only [List.length_map] at h1
    have h2 : 0 < pre.deployment.length := by
      have := List.length_pos_of_mem hmem
      simpa using this
    omega
  have hne : clip.deployment.length ≠ pre.deployment.length := by omega
  have hlt : clip.deployment.length < pre.deployment.length := by omega
  unfold process_changes
  simp only [hne, if_false, hlt, if_true]
  rw [ananlyze_deployment_names_of_named env t clip hclip,
    ananlyze_deployment_names_of_named env t pre hpre,
    deployed_names_single clip pre name hnodup hmem hroster,
    deploy_events_single [] name clip.battlefield loc oper hflag]
  simp

/-- Witness of C1 on the three-clip battle: the hypotheses hold for the second clip against the
first, and the whole reconstruction of the three clips yields the two Deploy events in order. -/
theorem process_changes_single_deploy_witness :
    process_changes example_env (example_task [])
        { example_clip2 with battlefield := [(⟨2, 3⟩, ⟨3, true⟩)] } (some example_clip1) =
      (true, { example_task [] with actions := [Action.Deploy "A" ⟨2, 3⟩ 3] },
        { example_clip2 with battlefield := [(⟨2, 3⟩, ⟨3, true⟩)] }, some example_clip1) ∧
    (analyze_all_clips example_env
        (example_task [example_clip1, example_clip2, example_clip3])).2.1.actions =
      [Action.Deploy "A" ⟨2, 3⟩ 3, Action.Deploy "B" ⟨4, 1⟩ 0] :=
  ⟨process_changes_single_deploy example_env (example_task [])
      { example_clip2 with battlefield := [(⟨2, 3⟩, ⟨3, true⟩)] } example_clip1 "A" ⟨2, 3⟩
      ⟨3, true⟩ (by decide) (by decide) (by decide) (by decide) (by decide) (by decide),
    by decide⟩

/-- C2, as the code behaves: with trays of equal size `process_changes` emits nothing, whatever
the two battlefields hold; the single Retreat for the vacated location is emitted when the
current tray is strictly larger than the predecessor's and the predecessor's occupancy is the
current occupancy plus the one location `loc`. -/
theorem process_changes_single_retreat (env : Env) (t : Task) (clip pre : ClipInfo) :
    (clip.deployment.length = pre.deployment.length →
      process_changes env t clip (some pre) = (true, t, clip, some pre)) ∧
    (∀ loc : Point, pre.deployment.length < clip.deployment.length →
      (pre.battlefield.map (·.1)).Nodup →
      (pre.battlefield.map (·.1)).Perm (loc :: clip.battlefield.map (·.1)) →
      process_changes env t clip (some pre) =
        (true, { t with actions := t.actions ++ [Action.Retreat loc] }, clip, some pre)) := by
  constructor
  · intro h
    simp [process_changes, h]
  · intro loc hlt hkeys hocc
    have hne : clip.deployment.length ≠ pre.deployment.length := by omega
    have hnlt : ¬ clip.deployment.length < pre.deployment.length := by omega
    simp only [process_changes, hne, hnlt, if_false]
    rw [retreat_events_single clip pre loc hkeys hocc]

/-- Witness of C2 as amended: trays `[B]` and `[B]` give no event, and the tray growing from
empty to `[B]` while `(2,3)` is vacated gives the single Retreat; the reconstruction of these
two clips yields that Retreat. -/
theorem process_changes_single_retreat_witness :
    process_changes example_retreat_env (example_task []) example_clip3_same
        (some { example_clip2 with battlefield := [(⟨2, 3⟩, ⟨4, false⟩)] }) =
      (true, example_task [], example_clip3_same,
        some { example_clip2 with battlefield := [(⟨2, 3⟩, ⟨4, false⟩)] }) ∧
    process_changes example_retreat_env (example_task []) example_clip3_same
        (some { example_clip2_empty with battlefield := [(⟨2, 3⟩, ⟨4, false⟩)] }) =
      (true, { example_task [] with actions := [Action.Retreat ⟨2, 3⟩] }, example_clip3_same,
        some { example_clip2_empty with battlefield := [(⟨2, 3⟩, ⟨4, false⟩)] }) ∧
    (analyze_all_clips example_retreat_env
        (example_task [example_clip2_empty, example_clip3_same])).2.1.actions =
      [Action.Retreat ⟨2, 3⟩] :=
  ⟨(process_changes_single_retreat example_retreat_env (example_task []) example_clip3_same
      { example_clip2 with battlefield := [(⟨2, 3⟩, ⟨4, false⟩)] }).1 (by decide),
    (process_changes_single_retreat example_retreat_env (example_task []) example_clip3_same
      { example_clip2_empty with battlefield := [(⟨2, 3⟩, ⟨4, false⟩)] }).2 ⟨2, 3⟩
      (by decide) (by decide) (by decide),
    by decide⟩

/-- Counterexample to C2 as stated: for the clip with tray `[B]` and occupancy `(2,3)` followed
by the clip with tray `[B]` and an empty field, neither `process_changes` nor
`analyze_all_clips` yields the list made of the Retreat of `(2,3)`; both yield no event. -/
theorem same_size_trays_emit_no_retreat :
    (process_changes example_retreat_env (example_task []) example_clip3_same
        (some { example_clip2 with battlefield := [(⟨2, 3⟩, ⟨4, false⟩)] })).2.1.actions ≠
      [Action.Retreat ⟨2, 3⟩] ∧
    (analyze_all_clips example_retreat_env
        (example_task [example_clip2, example_clip3_same])).2.1.actions ≠
      [Action.Retreat ⟨2, 3⟩] ∧
    (process_changes example_retreat_env (example_task []) example_clip3_same
        (some { example_clip2 with battlefield := [(⟨2, 3⟩, ⟨4, false⟩)] })).2.1.actions = [] ∧
    (analyze_all_clips example_retreat_env
        (example_task [example_clip2, example_clip3_same])).2.1.actions = [] := by
  decide

/-- C8: when the current tray is strictly larger than the predecessor's, `process_changes`
succeeds, changes neither clip, and appends a list of events that holds only Retreat events
(which carry a location and nothing else) and holds the Retreat of a location exactly once when
the location is in the predecessor's battlefield and not in the current one, and not at all
otherwise. -/
theorem process_changes_roster_grew (env : Env) (t : Task) (clip pre : ClipInfo)
    (hgrow : pre.deployment.length < clip.deployment.length)
    (hkeys : (pre.battlefield.map (·.1)).Nodup) :
    ∃ evs : List Action,
      process_changes env t clip (some pre) =
        (true, { t with actions := t.actions ++ evs }, clip, some pre) ∧
      (∀ a ∈ evs, ∃ loc, a = Action.Retreat loc) ∧
      (∀ loc : Point, evs.count (Action.Retreat loc) =
        if battlefield_contains pre.battlefield loc = true ∧
          battlefield_contains clip.battlefield loc = false then 1 else 0) := by
  refine ⟨retreat_events clip pre, ?_, retreat_events_is_retreat clip pre,
    fun loc => retreat_events_count clip pre loc hkeys⟩
  have hne : clip.deployment.length ≠ pre.deployment.length := by omega
  have hnlt : ¬ clip.deployment.length < pre.deployment.length := by omega
  simp only [process_changes, hne, hnlt, if_false]

/-- Witness of C8: the tray grows from empty to `[B]` while `(2,3)` of the two occupied
locations is vacated. -/
theorem process_changes_roster_grew_witness :
    ∃ evs : List Action,
      process_changes example_env (example_task []) { example_clip3_same with
          battlefield := [(⟨4, 1⟩, ⟨0, false⟩)] }
        (some { example_clip2_empty with
          battlefield := [(⟨2, 3⟩, ⟨3, false⟩), (⟨4, 1⟩, ⟨0, true⟩)] }) =
        (true, { example_task [] with actions := [] ++ evs },
          { example_clip3_same with battlefield := [(⟨4, 1⟩, ⟨0, false⟩)] },
          some { example_clip2_empty with
            battlefield := [(⟨2, 3⟩, ⟨3, false⟩), (⟨4, 1⟩, ⟨0, true⟩)] }) ∧
      (∀ a ∈ evs, ∃ loc, a = Action.Retreat loc) ∧
      (∀ loc : Point, evs.count (Action.Retreat loc) =
        if battlefield_contains [(⟨2, 3⟩, ⟨3, false⟩), (⟨4, 1⟩, ⟨0, true⟩)] loc = true ∧
          battlefield_contains [(⟨4, 1⟩, ⟨0, false⟩)] loc = false then 1 else 0) :=
  process_changes_roster_grew example_env (example_task [])
    { example_clip3_same with battlefield := [(⟨4, 1⟩, ⟨0, false⟩)] }
    { example_clip2_empty with battlefield := [(⟨2, 3⟩, ⟨3, false⟩), (⟨4, 1⟩, ⟨0, true⟩)] }
    (by decide) (by decide)

theorem deployed_names_eq (clip pre : ClipInfo) :
    deployed_names clip pre =
      (tray_names pre).filter (fun n => decide (n ∉ tray_names clip)) := by
  unfold deployed_names tray_names
  rw [List.filter_map]
  congr 1
  apply List.filter_congr
  intro po _
  simp only [Function.comp, List.mem_map, not_exists, not_and]
  cases hf : clip.deployment.find? (fun oper => decide (oper.name = po.name)) with
  | none =>
    rw [List.find?_eq_none] at hf
    simp only [Option.isNone_none, true_eq_decide_iff]
    intro o ho h
    exact hf o ho (by simpa using h)
  | some v =>
    have hv := List.find?_some hf
    have hm := List.mem_of_find?_eq_some hf
    simp only [Option.isNone_some, false_eq_decide_iff, not_forall, not_not]
    exact ⟨v, hm, by simpa using hv⟩

theorem process_changes_shrank_eq (env : Env) (t : Task) (clip pre : ClipInfo)
    (hshrink : clip.deployment.length < pre.deployment.length) :
    process_changes env t clip (some pre) =
      if resolved_deployed env t clip pre = [] then
        (false, t, ananlyze_deployment_names env t clip,
          some (ananlyze_deployment_names env t pre))
      else
        (true, { t with actions := t.actions ++
            deploy_events (resolved_deployed env t clip pre) clip.battlefield },
          ananlyze_deployment_names env t clip, some (ananlyze_deployment_names env t pre)) := by
  have hne : clip.deployment.length ≠ pre.deployment.length := by omega
  unfold process_changes
  simp only [hne, if_false, hshrink, if_true, deployed_names_eq, List.isEmpty_iff]
  rfl

/-- C9, as the code behaves: when the current tray is strictly smaller than the predecessor's,
`process_changes` appends only Deploy events; it appends one per location flagged newly
occupied and succeeds when a deployed name is found, and it appends nothing and fails when none
is found.  So a Deploy event is appended exactly when a deployed name is found and some
location is flagged. -/
theorem process_changes_roster_shrank (env : Env) (t : Task) (clip pre : ClipInfo)
    (hshrink : clip.deployment.length < pre.deployment.length) :
    ∃ evs : List Action,
      (process_changes env t clip (some pre)).2.1.actions = t.actions ++ evs ∧
      (∀ a ∈ evs, ∃ n loc dir, a = Action.Deploy n loc dir) ∧
      evs.length =
        (if resolved_deployed env t clip pre = [] then 0 else (flagged_locations clip).length) ∧
      ((process_changes env t clip (some pre)).1 = true ↔
        resolved_deployed env t clip pre ≠ []) ∧
      (evs ≠ [] ↔ resolved_deployed env t clip pre ≠ [] ∧ flagged_locations clip ≠ []) := by
  rw [process_changes_shrank_eq env t clip pre hshrink]
  by_cases hd : resolved_deployed env t clip pre = []
  · refine ⟨[], ?_, ?_, ?_, ?_, ?_⟩ <;> simp [hd]
  · refine ⟨deploy_events (resolved_deployed env t clip pre) clip.battlefield, ?_,
      deploy_events_is_deploy _ _, ?_, ?_, ?_⟩
    · simp [hd]
    · simp [hd, deploy_events_length, flagged_locations]
    · simp [hd]
    · rw [← List.length_pos, deploy_events_length, List.length_pos]
      simp [hd, flagged_locations]

/-- Witness of C9 as amended: the tray shrinks from `[A, B]` to `[B]` with one flagged
location. -/
theorem process_changes_roster_shrank_witness :
    ∃ evs : List Action,
      (process_changes example_env (example_task [])
        { example_clip2 with battlefield := [(⟨2, 3⟩, ⟨3, true⟩)] }
        (some example_clip1)).2.1.actions = (example_task []).actions ++ evs ∧
      (∀ a ∈ evs, ∃ n loc dir, a = Action.Deploy n loc dir) ∧
      evs.length =
        (if resolved_deployed example_env (example_task [])
            { example_clip2 with battlefield := [(⟨2, 3⟩, ⟨3, true⟩)] } example_clip1 = []
          then 0
          else (flagged_locations
            { example_clip2 with battlefield := [(⟨2, 3⟩, ⟨3, true⟩)] }).length) ∧
      ((process_changes example_env (example_task [])
        { example_clip2 with battlefield := [(⟨2, 3⟩, ⟨3, true⟩)] }
        (some example_clip1)).1 = true ↔
        resolved_deployed example_env (example_task [])
          { example_clip2 with battlefield := [(⟨2, 3⟩, ⟨3, true⟩)] } example_clip1 ≠ []) ∧
      (evs ≠ [] ↔
        resolved_deployed example_env (example_task [])
          { example_clip2 with battlefield := [(⟨2, 3⟩, ⟨3, true⟩)] } example_clip1 ≠ [] ∧
        flagged_locations { example_clip2 with battlefield := [(⟨2, 3⟩, ⟨3, true⟩)] } ≠ []) :=
  process_changes_roster_shrank example_env (example_task [])
    { example_clip2 with battlefield := [(⟨2, 3⟩, ⟨3, true⟩)] } example_clip1 (by decide)

/-- Counterexample to C9 as stated: the tray shrinks from `[A, B]` to `[B]` while no location
is flagged, and `process_changes` succeeds without appending any event; the tray shrinks from
`[B, B]` to `[B]`, no deployed name is found, and `process_changes` fails without appending any
event. -/
theorem roster_shrank_without_deploy :
    example_clip2.deployment.length < example_clip1.deployment.length ∧
    process_changes example_env (example_task []) example_clip2 (some example_clip1) =
      (true, example_task [], example_clip2, some example_clip1) ∧
    example_clip2.deployment.length <
      ({ example_clip1 with deployment := [example_oper "B" 0, example_oper "B" 1] } :
        ClipInfo).deployment.length ∧
    process_changes example_env (example_task [])
        { example_clip2 with battlefield := [(⟨2, 3⟩, ⟨3, true⟩)] }
        (some { example_clip1 with deployment := [example_oper "B" 0, example_oper "B" 1] }) =
      (false, example_task [], { example_clip2 with battlefield := [(⟨2, 3⟩, ⟨3, true⟩)] },
        some { example_clip1 with deployment := [example_oper "B" 0, example_oper "B" 1] }) := by
  decide

/-- C10: when the current tray is strictly smaller than the predecessor's and at least one
deployed name is found, `process_changes` succeeds and appends one event per location flagged
newly occupied, in the iteration order of the battlefield and nothing else: the event of index
`k` is the Deploy at the flagged location of index `k`, with its direction, and its name is
the deployed name of index `k`, the deployed names being taken in the order of the
predecessor's tray, or `UnkownDeployed` when `k` is not below the number of deployed names. -/
theorem process_changes_deploy_pairing (env : Env) (t : Task) (clip pre : ClipInfo)
    (hshrink : clip.deployment.length < pre.deployment.length)
    (hfound : resolved_deployed env t clip pre ≠ []) :
    ∃ evs : List Action,
      process_changes env t clip (some pre) =
        (true, { t with actions := t.actions ++ evs }, ananlyze_deployment_names env t clip,
          some (ananlyze_deployment_names env t pre)) ∧
      evs.length = (flagged_locations clip).length ∧
      (∀ a ∈ evs, ∃ n loc dir, a = Action.Deploy n loc dir) ∧
      (∀ (k : Nat) (e : Point × BattlefiledOper), (flagged_locations clip)[k]? = some e →
        (∀ n : String, (resolved_deployed env t clip pre)[k]? = some n →
          evs[k]? = some (Action.Deploy n e.1 e.2.direction)) ∧
        ((resolved_deployed env t clip pre)[k]? = none →
          evs[k]? = some (Action.Deploy UnkownDeployed e.1 e.2.direction))) := by
  refine ⟨deploy_events (resolved_deployed env t clip pre) clip.battlefield, ?_, ?_,
    deploy_events_is_deploy _ _, ?_⟩
  · rw [process_changes_shrank_eq env t clip pre hshrink]
    simp [hfound]
  · simp [deploy_events_length, flagged_locations]
  · intro k e he
    have hk := deploy_events_getElem? (resolved_deployed env t clip pre) clip.battlefield k
    unfold flagged_locations at he
    rw [he] at hk
    constructor
    · intro n hn
      rw [hk]
      simp [List.getD_eq_getElem?_getD, hn]
    · intro hnone
      rw [hk]
      simp [List.getD_eq_getElem?_getD, hnone]

/-- Witness of C10: the tray shrinks from `[A, B]` to empty while three locations are flagged;
the events are the Deploy of `A`, the Deploy of `B` and a Deploy of `UnkownDeployed`. -/
theorem process_changes_deploy_pairing_witness :
    (∃ evs : List Action,
      process_changes example_env (example_task []) example_clip3_flagged (some example_clip1) =
        (true, { example_task [] with actions := (example_task []).actions ++ evs },
          ananlyze_deployment_names example_env (example_task []) example_clip3_flagged,
          some (ananlyze_deployment_names example_env (example_task []) example_clip1)) ∧
      evs.length = (flagged_locations example_clip3_flagged).length ∧
      (∀ a ∈ evs, ∃ n loc dir, a = Action.Deploy n loc dir) ∧
      (∀ (k : Nat) (e : Point × BattlefiledOper),
        (flagged_locations example_clip3_flagged)[k]? = some e →
        (∀ n : String,
          (resolved_deployed example_env (example_task []) example_clip3_flagged
            example_clip1)[k]? = some n →
          evs[k]? = some (Action.Deploy n e.1 e.2.direction)) ∧
        ((resolved_deployed example_env (example_task []) example_clip3_flagged
            example_clip1)[k]? = none →
          evs[k]? = some (Action.Deploy UnkownDeployed e.1 e.2.direction)))) ∧
    (process_changes example_env (example_task []) example_clip3_flagged
        (some example_clip1)).2.1.actions =
      [Action.Deploy "A" ⟨2, 3⟩ 3, Action.Deploy "B" ⟨4, 1⟩ 0,
        Action.Deploy "UnkownDeployed" ⟨5, 5⟩ 1] :=
  ⟨process_changes_deploy_pairing example_env (example_task []) example_clip3_flagged
    example_clip1 (by decide) (by decide), by decide⟩

/-! ## Frame spans are kept by the analysis of a clip -/

theorem detect_operators_span (env : Env) (t : Task) (clip : ClipInfo) (pre : Option ClipInfo) :
    (detect_operators env t clip pre).2.2.start_frame = clip.start_frame ∧
    (detect_operators env t clip pre).2.2.end_frame = clip.end_frame ∧
    (detect_operators env t clip pre).2.2.deployment = clip.deployment := by
  unfold detect_operators
  split
  · exact ⟨rfl, rfl, rfl⟩
  · split
    · exact ⟨rfl, rfl, rfl⟩
    · exact ⟨rfl, rfl, rfl⟩

theorem classify_direction_span (env : Env) (t : Task) (clip : ClipInfo)
    (pre : Option ClipInfo) :
    (classify_direction env t clip pre).2.2.start_frame = clip.start_frame ∧
    (classify_direction env t clip pre).2.2.end_frame = clip.end_frame ∧
    (classify_direction env t clip pre).2.2.deployment = clip.deployment := by
  unfold classify_direction
  cases pre with
  | none => exact ⟨rfl, rfl, rfl⟩
  | some p =>
    simp only
    split
    · exact ⟨rfl, rfl, rfl⟩
    · split
      · exact ⟨rfl, rfl, rfl⟩
      · exact ⟨rfl, rfl, rfl⟩
      · exact ⟨rfl, rfl, rfl⟩

theorem process_changes_span (env : Env) (t : Task) (clip : ClipInfo) (pre : Option ClipInfo) :
    (process_changes env t clip pre).2.2.1.start_frame = clip.start_frame ∧
    (process_changes env t clip pre).2.2.1.end_frame = clip.end_frame := by
  unfold process_changes
  cases pre with
  | none => exact ⟨rfl, rfl⟩
  | some p =>
    simp only
    split
    · exact ⟨rfl, rfl⟩
    · split
      · split
        · exact ⟨rfl, rfl⟩
        · exact ⟨rfl, rfl⟩
      · exact ⟨rfl, rfl⟩

theorem process_changes_pre_span (env : Env) (t : Task) (clip : ClipInfo)
    (pre : Option ClipInfo) (p1 : ClipInfo)
    (h : (process_changes env t clip pre).2.2.2 = some p1) :
    ∃ p, pre = some p ∧ p1.start_frame = p.start_frame ∧ p1.end_frame = p.end_frame := by
  unfold process_changes at h
  cases pre with
  | none => simp at h
  | some p =>
    refine ⟨p, rfl, ?_⟩
    simp only at h
    split at h
    · simp only [Option.some.injEq] at h
      subst h
      exact ⟨rfl, rfl⟩
    · split at h
      · split at h
        · simp only [Option.some.injEq] at h
          subst h
          exact ⟨rfl, rfl⟩
        · simp only [Option.some.injEq] at h
          subst h
          exact ⟨rfl, rfl⟩
      · simp only [Option.some.injEq] at h
        subst h
        exact ⟨rfl, rfl⟩

theorem analyze_clip_span (env : Env) (t : Task) (clip : ClipInfo) (pre : Option ClipInfo) :
    (analyze_clip env t clip pre).2.2.1.start_frame = clip.start_frame ∧
    (analyze_clip env t clip pre).2.2.1.end_frame = clip.end_frame := by
  unfold analyze_clip
  have hd := detect_operators_span env t clip pre
  rcases hdet : detect_operators env t clip pre with ⟨b, t1, clip1⟩
  rw [hdet] at hd
  cases b with
  | false => exact ⟨hd.1, hd.2.1⟩
  | true =>
    simp only
    have hc := classify_direction_span env t1 clip1 pre
    rcases hcls : classify_direction env t1 clip1 pre with ⟨o, t2, clip2⟩
    rw [hcls] at hc
    cases o with
    | thrown => exact ⟨hc.1.trans hd.1, hc.2.1.trans hd.2.1⟩
    | ret ok =>
      cases ok with
      | false => exact ⟨hc.1.trans hd.1, hc.2.1.trans hd.2.1⟩
      | true =>
        simp only
        have hp := process_changes_span env t2 clip2 pre
        rcases hpc : process_changes env t2 clip2 pre with ⟨b3, t3, clip3, pre3⟩
        rw [hpc] at hp
        cases b3 with
        | false => exact ⟨hp.1.trans (hc.1.trans hd.1), hp.2.trans (hc.2.1.trans hd.2.1)⟩
        | true => exact ⟨hp.1.trans (hc.1.trans hd.1), hp.2.trans (hc.2.1.trans hd.2.1)⟩

theorem analyze_clip_pre_span (env : Env) (t : Task) (clip : ClipInfo) (pre : Option ClipInfo)
    (p1 : ClipInfo) (h : (analyze_clip env t clip pre).2.2.2 = some p1) :
    ∃ p, pre = some p ∧ p1.start_frame = p.start_frame ∧ p1.end_frame = p.end_frame := by
  unfold analyze_clip at h
  rcases hdet : detect_operators env t clip pre with ⟨b, t1, clip1⟩
  rw [hdet] at h
  cases b with
  | false => exact ⟨p1, h, rfl, rfl⟩
  | true =>
    simp only at h
    rcases hcls : classify_direction env t1 clip1 pre with ⟨o, t2, clip2⟩
    rw [hcls] at h
    cases o with
    | thrown => exact ⟨p1, h, rfl, rfl⟩
    | ret ok =>
      cases ok with
      | false => exact ⟨p1, h, rfl, rfl⟩
      | true =>
        simp only at h
        have hp := process_changes_pre_span env t2 clip2 pre p1
        rcases hpc : process_changes env t2 clip2 pre with ⟨b3, t3, clip3, pre3⟩
        rw [hpc] at h hp
        cases b3 with
        | false => exact hp h
        | true => exact hp h

theorem keep_clip_span (kept : List ClipInfo) (clip : ClipInfo) (pre : Option ClipInfo)
    (hkept : ∀ c ∈ kept, c.start_frame < c.end_frame)
    (hclip : clip.start_frame < clip.end_frame)
    (hpre : ∀ p, pre = some p → p.start_frame < p.end_frame) :
    ∀ c ∈ keep_clip kept clip pre, c.start_frame < c.end_frame := by
  intro c hc
  unfold keep_clip at hc
  cases pre with
  | none =>
    simp only [List.mem_append, List.mem_singleton] at hc
    rcases hc with h | rfl
    · exact hkept c h
    · exact hclip
  | some p =>
    simp only [List.mem_append, List.mem_cons, List.mem_singleton, List.not_mem_nil,
      or_false] at hc
    rcases hc with h | rfl | rfl
    · exact hkept c (List.mem_of_mem_dropLast h)
    · exact hpre _ rfl
    · exact hclip

theorem analyze_all_clips_loop_span (env : Env) (rest kept : List ClipInfo) (t : Task)
    (calls : List (ClipInfo × Option ClipInfo))
    (hkept : ∀ c ∈ kept, c.start_frame < c.end_frame)
    (hcalls : ∀ c ∈ calls, c.1.start_frame < c.1.end_frame) :
    (∀ c ∈ (analyze_all_clips_loop env rest kept t calls).kept, c.start_frame < c.end_frame) ∧
    (∀ c ∈ (analyze_all_clips_loop env rest kept t calls).calls,
      c.1.start_frame < c.1.end_frame) ∧
    ((analyze_all_clips_loop env rest kept t calls).outcome ≠ Outcome.thrown →
      (analyze_all_clips_loop env rest kept t calls).rest = []) := by
  induction rest generalizing kept t calls with
  | nil => exact ⟨hkept, hcalls, fun _ => rfl⟩
  | cons clip rest ih =>
    unfold analyze_all_clips_loop
    simp only
    split
    · exact ih kept t calls hkept hcalls
    · rename_i hcond
      simp only [Bool.or_eq_true, Bool.not_eq_true', decide_eq_true_eq, not_or, not_le] at hcond
      have hspan : clip.start_frame < clip.end_frame := by omega
      have hs := analyze_clip_span env t clip kept.getLast?
      have hp := analyze_clip_pre_span env t clip kept.getLast?
      have hcalls' : ∀ c ∈ calls ++ [(clip, kept.getLast?)],
          c.1.start_frame < c.1.end_frame := by
        intro c hc
        rcases List.mem_append.1 hc with h | h
        · exact hcalls c h
        · rw [List.mem_singleton] at h
          subst h
          exact hspan
      rcases hac : analyze_clip env t clip kept.getLast? with ⟨o, t1, clip1, pre1⟩
      rw [hac] at hs hp
      have hkept' : ∀ c ∈ keep_clip kept clip1 pre1, c.start_frame < c.end_frame := by
        apply keep_clip_span kept clip1 pre1 hkept
        · rw [hs.1, hs.2]
          exact hspan
        · intro p1 hp1
          obtain ⟨p, hpm, h1, h2⟩ := hp p1 hp1
          rw [h1, h2]
          exact hkept p (List.mem_of_getLast?_eq_some hpm)
      cases o with
      | thrown => exact ⟨hkept', hcalls', fun h => absurd rfl h⟩
      | ret ok => exact ih (keep_clip kept clip1 pre1) t1 _ hkept' hcalls'

/-! ## The analysis of a clip does not depend on the action list it starts from -/

theorem read_frame_actions (env : Env) (t : Task) (a : List Action) :
    read_frame env { t with actions := a } =
      ((read_frame env t).1, { (read_frame env t).2 with actions := a }) := by
  unfold read_frame
  simp only
  cases env.frames.get? t.pos <;> rfl

theorem skip_fold_actions (env : Env) (l : List Nat) (t : Task) (a : List Action) :
    l.foldl (fun s _ => (read_frame env s).2) { t with actions := a } =
      { l.foldl (fun s _ => (read_frame env s).2) t with actions := a } := by
  induction l generalizing t with
  | nil => rfl
  | cons x rest ih =>
    simp only [List.foldl_cons]
    rw [read_frame_actions]
    exact ih _

theorem skip_frames_actions (env : Env) (t : Task) (count : Nat) (a : List Action) :
    skip_frames env { t with actions := a } count =
      ((skip_frames env t count).1, { (skip_frames env t count).2 with actions := a }) := by
  unfold skip_frames
  rw [skip_fold_actions]

theorem detect_loop_actions (env : Env) (skip_count det_end fuel i : Nat) (t : Task)
    (tally : List (List Point × Nat)) (a : List Action) :
    detect_loop env skip_count det_end fuel i { t with actions := a } tally =
      ((detect_loop env skip_count det_end fuel i t tally).1,
        { (detect_loop env skip_count det_end fuel i t tally).2.1 with actions := a },
        (detect_loop env skip_count det_end fuel i t tally).2.2) := by
  induction fuel generalizing i t tally with
  | zero => rfl
  | succ fuel ih =>
    unfold detect_loop
    by_cases hi : i < det_end
    · simp only [hi, if_true]
      rw [read_frame_actions]
      rcases hr : read_frame env t with ⟨f, t1⟩
      cases f with
      | none => rfl
      | some frame =>
        simp only
        rw [skip_frames_actions]
        exact ih _ _ _
    · simp only [hi, if_false]

theorem detect_operators_actions (env : Env) (t : Task) (clip : ClipInfo)
    (pre : Option ClipInfo) (a : List Action) (q : Nat) :
    detect_operators env { t with pos := q, actions := a } clip pre =
      ((detect_operators env t clip pre).1,
        { (detect_operators env t clip pre).2.1 with actions := a },
        (detect_operators env t clip pre).2.2) := by
  unfold detect_operators detect_sampling
  simp only
  have h := detect_loop_actions env (vote_skip_count (size_sub clip.end_frame clip.start_frame))
    (size_sub clip.end_frame (vote_skip_count (size_sub clip.end_frame clip.start_frame)))
    (env.frames.length + 1)
    ((clip.start_frame + vote_skip_count (size_sub clip.end_frame clip.start_frame)) % SIZE_MOD)
    { t with pos := (clip.start_frame +
      vote_skip_count (size_sub clip.end_frame clip.start_frame)) % SIZE_MOD } [] a
  rw [h]
  rcases detect_loop env _ _ _ _ _ _ with ⟨b, t1, tally⟩
  cases b with
  | false => rfl
  | true =>
    simp only
    cases max_element (env.tally_order tally) with
    | none => rfl
    | some e => rfl

theorem classify_frame_actions (env : Env) (t : Task) (frame : Mat) (a : List Action)
    (newcomer : List Point) (sampling : List (Point × List (DeployDirection × Nat))) :
    classify_frame env { t with actions := a } frame newcomer sampling =
      classify_frame env t frame newcomer sampling := by
  induction newcomer generalizing sampling with
  | nil => rfl
  | cons loc rest ih =>
    unfold classify_frame
    have : tile_at { t with actions := a } loc = tile_at t loc := rfl
    rw [this]
    cases tile_at t loc with
    | none => rfl
    | some tile => exact ih _

theorem classify_loop_actions (env : Env) (newcomer : List Point)
    (skip_count dir_end fuel i : Nat) (t : Task)
    (sampling : List (Point × List (DeployDirection × Nat))) (a : List Action) :
    classify_loop env newcomer skip_count dir_end fuel i { t with actions := a } sampling =
      ((classify_loop env newcomer skip_count dir_end fuel i t sampling).1,
        { (classify_loop env newcomer skip_count dir_end fuel i t sampling).2.1 with
          actions := a },
        (classify_loop env newcomer skip_count dir_end fuel i t sampling).2.2) := by
  induction fuel generalizing i t sampling with
  | zero => rfl
  | succ fuel ih =>
    unfold classify_loop
    by_cases hi : i < dir_end
    · simp only [hi, if_true]
      rw [read_frame_actions]
      rcases hr : read_frame env t with ⟨f, t1⟩
      cases f with
      | none => rfl
      | some frame =>
        simp only
        rw [classify_frame_actions]
        cases classify_frame env t1 frame newcomer sampling with
        | none => rfl
        | some sampling1 =>
          simp only
          rw [skip_frames_actions]
          exact ih _ _ _
    · simp only [hi, if_false]

theorem classify_direction_actions (env : Env) (t : Task) (clip : ClipInfo)
    (pre : Option ClipInfo) (a : List Action) :
    classify_direction env { t with actions := a } clip pre =
      ((classify_direction env t clip pre).1,
        { (classify_direction env t clip pre).2.1 with actions := a },
        (classify_direction env t clip pre).2.2) := by
  unfold classify_direction
  cases pre with
  | none => rfl
  | some p =>
    simp only
    split
    · rfl
    · have h := classify_loop_actions env
        ((clip.battlefield.map (·.1)).filter (fun loc => !battlefield_contains p.battlefield loc))
        (vote_skip_count (size_sub clip.end_frame clip.start_frame))
        (size_sub clip.end_frame (vote_skip_count (size_sub clip.end_frame clip.start_frame)))
        (env.frames.length + 1)
        ((clip.start_frame + vote_skip_count (size_sub clip.end_frame clip.start_frame)) %
          SIZE_MOD)
        { t with pos := (clip.start_frame +
          vote_skip_count (size_sub clip.end_frame clip.start_frame)) % SIZE_MOD } [] a
      rw [h]
      rcases classify_loop env _ _ _ _ _ _ _ with ⟨o, t1, sampling⟩
      cases o with
      | thrown => rfl
      | ret ok => cases ok <;> rfl

theorem process_changes_actions (env : Env) (t : Task) (clip : ClipInfo)
    (pre : Option ClipInfo) (a : List Action) :
    process_changes env { t with actions := a } clip pre =
      ((process_changes env { t with actions := [] } clip pre).1,
        { (process_changes env { t with actions := [] } clip pre).2.1 with
          actions := a ++ (process_changes env { t with actions := [] } clip pre).2.1.actions },
        (process_changes env { t with actions := [] } clip pre).2.2.1,
        (process_changes env { t with actions := [] } clip pre).2.2.2) := by
  unfold process_changes
  cases pre with
  | none => simp
  | some p =>
    simp only
    split
    · simp
    · split
      · have h1 : ananlyze_deployment_names env { t with actions := a } clip =
            ananlyze_deployment_names env t clip := rfl
        have h2 : ananlyze_deployment_names env { t with actions := a } p =
            ananlyze_deployment_names env t p := rfl
        have h3 : ananlyze_deployment_names env { t with actions := [] } clip =
            ananlyze_deployment_names env t clip := rfl
        have h4 : ananlyze_deployment_names env { t with actions := [] } p =
            ananlyze_deployment_names env t p := rfl
        rw [h1, h2, h3, h4]
        split
        · simp
        · simp
      · simp

theorem analyze_clip_actions (env : Env) (t : Task) (clip : ClipInfo) (pre : Option ClipInfo)
    (a : List Action) (q : Nat) :
    analyze_clip env { t with pos := q, actions := a } clip pre =
      ((analyze_clip env { t with actions := [] } clip pre).1,
        { (analyze_clip env { t with actions := [] } clip pre).2.1 with
          actions := a ++ (analyze_clip env { t with actions := [] } clip pre).2.1.actions },
        (analyze_clip env { t with actions := [] } clip pre).2.2.1,
        (analyze_clip env { t with actions := [] } clip pre).2.2.2) := by
  unfold analyze_clip
  have hd1 := detect_operators_actions env t clip pre a q
  have hd2 := detect_operators_actions env t clip pre [] t.pos
  have heq : ({ t with pos := t.pos, actions := [] } : Task) = { t with actions := [] } := rfl
  rw [heq] at hd2
  rw [hd1, hd2]
  rcases detect_operators env t clip pre with ⟨b, t1, clip1⟩
  cases b with
  | false => simp
  | true =>
    simp only
    rw [classify_direction_actions env t1 clip1 pre a,
      classify_direction_actions env t1 clip1 pre []]
    rcases classify_direction env t1 clip1 pre with ⟨o, t2, clip2⟩
    cases o with
    | thrown => simp
    | ret ok =>
      cases ok with
      | false => simp
      | true =>
        simp only
        rw [process_changes_actions env t2 clip2 pre a]
        rcases process_changes env { t2 with actions := [] } clip2 pre with ⟨b3, t3, c3, p3⟩
        cases b3 <;> rfl

theorem read_frame_fixed (env : Env) (t : Task) :
    fixed_part (read_frame env t).2 = fixed_part t := by
  unfold read_frame
  cases env.frames.get? t.pos <;> rfl

theorem skip_fold_fixed (env : Env) (l : List Nat) (t : Task) :
    fixed_part (l.foldl (fun s _ => (read_frame env s).2) t) = fixed_part t := by
  induction l generalizing t with
  | nil => rfl
  | cons x rest ih =>
    simp only [List.foldl_cons]
    rw [ih, read_frame_fixed]

theorem skip_frames_fixed (env : Env) (t : Task) (count : Nat) :
    fixed_part (skip_frames env t count).2 = fixed_part t := by
  unfold skip_frames
  exact skip_fold_fixed env _ t

theorem detect_loop_fixed (env : Env) (skip_count det_end fuel i : Nat) (t : Task)
    (tally : List (List Point × Nat)) :
    fixed_part (detect_loop env skip_count det_end fuel i t tally).2.1 = fixed_part t := by
  induction fuel generalizing i t tally with
  | zero => rfl
  | succ fuel ih =>
    unfold detect_loop
    by_cases hi : i < det_end
    · simp only [hi, if_true]
      have hr := read_frame_fixed env t
      rcases hrf : read_frame env t with ⟨f, t1⟩
      rw [hrf] at hr
      cases f with
      | none => exact hr
      | some frame =>
        simp only
        rw [ih, skip_frames_fixed]
        exact hr
    · simp only [hi, if_false]

theorem detect_operators_fixed (env : Env) (t : Task) (clip : ClipInfo)
    (pre : Option ClipInfo) :
    fixed_part (detect_operators env t clip pre).2.1 = fixed_part t := by
  unfold detect_operators detect_sampling
  simp only
  have h := detect_loop_fixed env (vote_skip_count (size_sub clip.end_frame clip.start_frame))
    (size_sub clip.end_frame (vote_skip_count (size_sub clip.end_frame clip.start_frame)))
    (env.frames.length + 1)
    ((clip.start_frame + vote_skip_count (size_sub clip.end_frame clip.start_frame)) % SIZE_MOD)
    { t with pos := (clip.start_frame +
      vote_skip_count (size_sub clip.end_frame clip.start_frame)) % SIZE_MOD } []
  rcases hdl : detect_loop env _ _ _ _ _ _ with ⟨b, t1, tally⟩
  rw [hdl] at h
  cases b with
  | false => exact h
  | true =>
    simp only
    cases max_element (env.tally_order tally) with
    | none => exact h
    | some e => exact h

theorem classify_loop_fixed (env : Env) (newcomer : List Point)
    (skip_count dir_end fuel i : Nat) (t : Task)
    (sampling : List (Point × List (DeployDirection × Nat))) :
    fixed_part (classify_loop env newcomer skip_count dir_end fuel i t sampling).2.1 =
      fixed_part t := by
  induction fuel generalizing i t sampling with
  | zero => rfl
  | succ fuel ih =>
    unfold classify_loop
    by_cases hi : i < dir_end
    · simp only [hi, if_true]
      have hr := read_frame_fixed env t
      rcases hrf : read_frame env t with ⟨f, t1⟩
      rw [hrf] at hr
      cases f with
      | none => exact hr
      | some frame =>
        simp only
        cases classify_frame env t1 frame newcomer sampling with
        | none => exact hr
        | some sampling1 =>
          simp only
          rw [ih, skip_frames_fixed]
          exact hr
    · simp only [hi, if_false]

theorem classify_direction_fixed (env : Env) (t : Task) (clip : ClipInfo)
    (pre : Option ClipInfo) :
    fixed_part (classify_direction env t clip pre).2.1 = fixed_part t := by
  unfold classify_direction
  cases pre with
  | none => rfl
  | some p =>
    simp only
    split
    · rfl
    · have h := classify_loop_fixed env
        ((clip.battlefield.map (·.1)).filter (fun loc => !battlefield_contains p.battlefield loc))
        (vote_skip_count (size_sub clip.end_frame clip.start_frame))
        (size_sub clip.end_frame (vote_skip_count (size_sub clip.end_frame clip.start_frame)))
        (env.frames.length + 1)
        ((clip.start_frame + vote_skip_count (size_sub clip.end_frame clip.start_frame)) %
          SIZE_MOD)
        { t with pos := (clip.start_frame +
          vote_skip_count (size_sub clip.end_frame clip.start_frame)) % SIZE_MOD } []
      rcases hcl : classify_loop env _ _ _ _ _ _ _ with ⟨o, t1, sampling⟩
      rw [hcl] at h
      cases o with
      | thrown => exact h
      | ret ok => cases ok <;> exact h

theorem process_changes_fixed (env : Env) (t : Task) (clip : ClipInfo)
    (pre : Option ClipInfo) :
    fixed_part (process_changes env t clip pre).2.1 = fixed_part t := by
  unfold process_changes
  cases pre with
  | none => rfl
  | some p =>
    simp only
    split
    · rfl
    · split
      · split <;> rfl
      · rfl

theorem analyze_clip_fixed (env : Env) (t : Task) (clip : ClipInfo) (pre : Option ClipInfo) :
    fixed_part (analyze_clip env t clip pre).2.1 = fixed_part t := by
  unfold analyze_clip
  have hd := detect_operators_fixed env t clip pre
  rcases hdo : detect_operators env t clip pre with ⟨b, t1, clip1⟩
  rw [hdo] at hd
  cases b with
  | false => exact hd
  | true =>
    simp only
    have hc := classify_direction_fixed env t1 clip1 pre
    rcases hcd : classify_direction env t1 clip1 pre with ⟨o, t2, clip2⟩
    rw [hcd] at hc
    cases o with
    | thrown => exact hc.trans hd
    | ret ok =>
      cases ok with
      | false => exact hc.trans hd
      | true =>
        simp only
        have hp := process_changes_fixed env t2 clip2 pre
        rcases hpc : process_changes env t2 clip2 pre with ⟨b3, t3, c3, p3⟩
        rw [hpc] at hp
        cases b3 <;> exact hp.trans (hc.trans hd)

theorem analyze_clip_of_fixed (env : Env) (t : Task) (clip : ClipInfo)
    (pre : Option ClipInfo) :
    analyze_clip env t clip pre =
      ((analyze_clip env (fixed_part t) clip pre).1,
        { (analyze_clip env (fixed_part t) clip pre).2.1 with
          actions := t.actions ++ (analyze_clip env (fixed_part t) clip pre).2.1.actions },
        (analyze_clip env (fixed_part t) clip pre).2.2.1,
        (analyze_clip env (fixed_part t) clip pre).2.2.2) :=
  analyze_clip_actions env (fixed_part t) clip pre t.actions t.pos

theorem clip_events_of_fixed (env : Env) (t : Task) (clip : ClipInfo) (pre : Option ClipInfo) :
    clip_events env t clip pre = (analyze_clip env (fixed_part t) clip pre).2.1.actions := by
  unfold clip_events
  rw [analyze_clip_of_fixed]
  simp only [List.nil_append]
  rfl

theorem clip_events_congr (env : Env) (t s : Task) (h : fixed_part s = fixed_part t)
    (clip : ClipInfo) (pre : Option ClipInfo) :
    clip_events env s clip pre = clip_events env t clip pre := by
  rw [clip_events_of_fixed, clip_events_of_fixed, h]

theorem analyze_clip_appends (env : Env) (t : Task) (clip : ClipInfo) (pre : Option ClipInfo) :
    (analyze_clip env t clip pre).2.1.actions = t.actions ++ clip_events env t clip pre := by
  rw [clip_events_of_fixed]
  conv_lhs => rw [analyze_clip_of_fixed]

theorem analyze_all_clips_loop_actions (env : Env) (rest kept : List ClipInfo) (t : Task)
    (calls : List (ClipInfo × Option ClipInfo)) :
    ∃ new : List (ClipInfo × Option ClipInfo),
      (analyze_all_clips_loop env rest kept t calls).calls = calls ++ new ∧
      (analyze_all_clips_loop env rest kept t calls).task.actions =
        t.actions ++ (new.map (fun c => clip_events env t c.1 c.2)).flatten ∧
      (new.map (·.1)).Sublist rest ∧
      fixed_part (analyze_all_clips_loop env rest kept t calls).task = fixed_part t := by
  induction rest generalizing kept t calls with
  | nil => exact ⟨[], by simp [analyze_all_clips_loop], by simp [analyze_all_clips_loop],
      by simp, rfl⟩
  | cons clip rest ih =>
    unfold analyze_all_clips_loop
    simp only
    split
    · obtain ⟨new, h1, h2, h3, h4⟩ := ih kept t calls
      exact ⟨new, h1, h2, h3.cons _, h4⟩
    · have ha := analyze_clip_appends env t clip kept.getLast?
      have hf := analyze_clip_fixed env t clip kept.getLast?
      rcases hac : analyze_clip env t clip kept.getLast? with ⟨o, t1, clip1, pre1⟩
      rw [hac] at ha hf
      simp only at ha hf
      cases o with
      | thrown =>
        refine ⟨[(clip, kept.getLast?)], rfl, ?_, ?_, hf⟩
        · simp [ha]
        · simp
      | ret ok =>
        simp only
        obtain ⟨new, h1, h2, h3, h4⟩ :=
          ih (keep_clip kept clip1 pre1) t1 (calls ++ [(clip, kept.getLast?)])
        refine ⟨(clip, kept.getLast?) :: new, ?_, ?_, ?_, h4.trans hf⟩
        · rw [h1]
          simp
        · rw [h2, ha]
          have hcongr : (fun c : ClipInfo × Option ClipInfo => clip_events env t1 c.1 c.2) =
              (fun c => clip_events env t c.1 c.2) := by
            funext c
            exact clip_events_congr env t t1 hf c.1 c.2
          rw [hcongr]
          simp
        · simpa using h3.cons₂ clip

/-! ## Claims on `analyze_all_clips` -/

/-- C3: the action list after `analyze_all_clips` is the action list before it followed by the
concatenation, in the order of the calls of `analyze_clip`, of the events of each analysed clip
(the events that its analysis appends to an empty list); the analysed clips are taken from the
clip list in its order; and every call of `process_changes` keeps the list it finds as a prefix
of the list it leaves. -/
theorem analyze_all_clips_appends_in_clip_order (env : Env) (t : Task) :
    (analyze_all_clips env t).2.1.actions =
      t.actions ++
        ((analyze_all_clips env t).2.2.map (fun c => clip_events env t c.1 c.2)).flatten ∧
    ((analyze_all_clips env t).2.2.map (·.1)).Sublist t.m_clips ∧
    (∀ (s : Task) (clip : ClipInfo) (pre : Option ClipInfo),
      ∃ evs : List Action, (process_changes env s clip pre).2.1.actions = s.actions ++ evs) := by
  obtain ⟨new, h1, h2, h3, _⟩ := analyze_all_clips_loop_actions env t.m_clips [] t []
  simp only [List.nil_append] at h1
  refine ⟨?_, ?_, ?_⟩
  · unfold analyze_all_clips
    simp only
    rw [h1]
    exact h2
  · unfold analyze_all_clips
    simp only
    rw [h1]
    exact h3
  · intro s clip pre
    refine ⟨(process_changes env { s with actions := [] } clip pre).2.1.actions, ?_⟩
    have h := process_changes_actions env s clip pre s.actions
    have hs : ({ s with actions := s.actions } : Task) = s := rfl
    rw [hs] at h
    rw [h]

/-- C4: every clip handed to `analyze_clip` by `analyze_all_clips` has
`start_frame < end_frame`, and when `analyze_all_clips` returns, every clip left in the clip
list has `start_frame < end_frame`; so a clip with `start_frame >= end_frame` is neither
analysed nor kept. -/
theorem analyze_all_clips_spans (env : Env) (t : Task) :
    (∀ c ∈ (analyze_all_clips env t).2.2, c.1.start_frame < c.1.end_frame) ∧
    ((analyze_all_clips env t).1 ≠ Outcome.thrown →
      ∀ c ∈ (analyze_all_clips env t).2.1.m_clips, c.start_frame < c.end_frame) := by
  obtain ⟨h1, h2, h3⟩ := analyze_all_clips_loop_span env t.m_clips [] t []
    (by simp) (by simp)
  refine ⟨h2, ?_⟩
  intro hne c hc
  unfold analyze_all_clips at hne hc
  simp only at hne hc
  rw [h3 hne, List.append_nil] at hc
  exact h1 c hc

/-- Witness of C4: a clip of zero width between the first and the second clip of the example
is dropped; the three other clips are analysed and kept. -/
theorem analyze_all_clips_spans_witness :
    (analyze_all_clips example_env (example_task
        [example_clip1, example_clip_degenerate, example_clip2, example_clip3])).1 ≠
      Outcome.thrown ∧
    (∀ c ∈ (analyze_all_clips example_env (example_task
        [example_clip1, example_clip_degenerate, example_clip2, example_clip3])).2.1.m_clips,
      c.start_frame < c.end_frame) ∧
    ((analyze_all_clips example_env (example_task
        [example_clip1, example_clip_degenerate, example_clip2, example_clip3])).2.2.map
      (·.1)) = [example_clip1, example_clip2, example_clip3] :=
  ⟨by decide,
    (analyze_all_clips_spans example_env (example_task
      [example_clip1, example_clip_degenerate, example_clip2, example_clip3])).2 (by decide),
    by decide⟩

/-- C7, the behaviour of the code: the occupancy vote of the clip of frames 11 to 12 takes no
sample, so `detect_operators` and `analyze_clip` return false for it; `analyze_all_clips`
none the less goes on with the next clip, which is diffed against the failed clip, and returns
true with two events in the action list. -/
theorem analyze_all_clips_ignores_clip_failure :
    (detect_operators example_env (example_task []) example_clip_short
      (some example_clip1)).1 = false ∧
    (analyze_clip example_env (example_task []) example_clip_short (some example_clip1)).1 =
      Outcome.ret false ∧
    (analyze_all_clips example_env
      (example_task [example_clip1, example_clip_short, example_clip3])).1 = Outcome.ret true ∧
    (analyze_all_clips example_env
      (example_task [example_clip1, example_clip_short, example_clip3])).2.1.actions =
      [Action.Deploy "B" ⟨2, 3⟩ 3, Action.Deploy "UnkownDeployed" ⟨4, 1⟩ 0] := by
  decide

/-! ## The fuel of the sampling loops is enough

Every iteration of a sampling loop reads a frame, so a loop runs at most once more than there
are frames left; with more fuel than that, the result does not depend on the fuel. -/

theorem read_frame_none (env : Env) (t : Task) (h : env.frames.length ≤ t.pos) :
    read_frame env t = (none, t) := by
  unfold read_frame
  rw [List.get?_eq_none.2 h]

theorem read_frame_some_pos (env : Env) (t t1 : Task) (f : Mat)
    (h : read_frame env t = (some f, t1)) : t1.pos = t.pos + 1 := by
  unfold read_frame at h
  cases hg : env.frames.get? t.pos with
  | none => rw [hg] at h; simp at h
  | some g =>
    rw [hg] at h
    simp only [Prod.mk.injEq] at h
    rw [← h.2]

theorem skip_fold_pos_le (env : Env) (l : List Nat) (t : Task) :
    t.pos ≤ (l.foldl (fun s _ => (read_frame env s).2) t).pos := by
  induction l generalizing t with
  | nil => exact le_refl _
  | cons x rest ih =>
    simp only [List.foldl_cons]
    refine le_trans ?_ (ih _)
    unfold read_frame
    cases env.frames.get? t.pos with
    | none => exact le_refl _
    | some f => exact Nat.le_succ _

theorem skip_frames_pos_le (env : Env) (t : Task) (count : Nat) :
    t.pos ≤ (skip_frames env t count).2.pos := by
  unfold skip_frames
  exact skip_fold_pos_le env _ t

theorem detect_loop_fuel (env : Env) (skip_count det_end : Nat) :
    ∀ (fuel1 fuel2 i : Nat) (t : Task) (tally : List (List Point × Nat)),
      env.frames.length < fuel1 + t.pos → env.frames.length < fuel2 + t.pos →
      detect_loop env skip_count det_end fuel1 i t tally =
        detect_loop env skip_count det_end fuel2 i t tally := by
  intro fuel1
  induction fuel1 with
  | zero =>
    intro fuel2 i t tally h1 _
    cases fuel2 with
    | zero => rfl
    | succ f2 =>
      unfold detect_loop
      by_cases hi : i < det_end
      · simp only [hi, if_true]
        rw [read_frame_none env t (by omega)]
        simp
      · simp [hi]
  | succ f1 ih =>
    intro fuel2 i t tally h1 h2
    cases fuel2 with
    | zero =>
      unfold detect_loop
      by_cases hi : i < det_end
      · simp only [hi, if_true]
        rw [read_frame_none env t (by omega)]
        simp
      · simp [hi]
    | succ f2 =>
      unfold detect_loop
      by_cases hi : i < det_end
      · simp only [hi, if_true]
        rcases hr : read_frame env t with ⟨f, t1⟩
        cases f with
        | none => rfl
        | some frame =>
          simp only
          have hp := read_frame_some_pos env t t1 frame hr
          have hs := skip_frames_pos_le env t1 skip_count
          exact ih f2 _ _ _ (by omega) (by omega)
      · simp [hi]

theorem classify_loop_fuel (env : Env) (newcomer : List Point) (skip_count dir_end : Nat) :
    ∀ (fuel1 fuel2 i : Nat) (t : Task) (sampling : List (Point × List (DeployDirection × Nat))),
      env.frames.length < fuel1 + t.pos → env.frames.length < fuel2 + t.pos →
      classify_loop env newcomer skip_count dir_end fuel1 i t sampling =
        classify_loop env newcomer skip_count dir_end fuel2 i t sampling := by
  intro fuel1
  induction fuel1 with
  | zero =>
    intro fuel2 i t sampling h1 _
    cases fuel2 with
    | zero => rfl
    | succ f2 =>
      unfold classify_loop
      by_cases hi : i < dir_end
      · simp only [hi, if_true]
        rw [read_frame_none env t (by omega)]
        simp
      · simp [hi]
  | succ f1 ih =>
    intro fuel2 i t sampling h1 h2
    cases fuel2 with
    | zero =>
      unfold classify_loop
      by_cases hi : i < dir_end
      · simp only [hi, if_true]
        rw [read_frame_none env t (by omega)]
        simp
      · simp [hi]
    | succ f2 =>
      unfold classify_loop
      by_cases hi : i < dir_end
      · simp only [hi, if_true]
        rcases hr : read_frame env t with ⟨f, t1⟩
        cases f with
        | none => rfl
        | some frame =>
          simp only
          cases classify_frame env t1 frame newcomer sampling with
          | none => rfl
          | some sampling1 =>
            simp only
            have hp := read_frame_some_pos env t t1 frame hr
            have hs := skip_frames_pos_le env t1 skip_count
            exact ih f2 _ _ _ (by omega) (by omega)
      · simp [hi]

theorem analyze_formation_loop_fuel (env : Env) (skip_count : Nat) :
    ∀ (fuel1 fuel2 i no_changes_count : Nat) (t : Task),
      env.frames.length < fuel1 + t.pos → env.frames.length < fuel2 + t.pos →
      analyze_formation_loop env skip_count fuel1 i no_changes_count t =
        analyze_formation_loop env skip_count fuel2 i no_changes_count t := by
  intro fuel1
  induction fuel1 with
  | zero =>
    intro fuel2 i nc t h1 _
    cases fuel2 with
    | zero => rfl
    | succ f2 =>
      unfold analyze_formation_loop
      by_cases hi : i < t.m_video_frame_count
      · simp only [hi, if_true]
        rw [read_frame_none env t (by omega)]
        simp
      · simp [hi]
  | succ f1 ih =>
    intro fuel2 i nc t h1 h2
    cases fuel2 with
    | zero =>
      unfold analyze_formation_loop
      by_cases hi : i < t.m_video_frame_count
      · simp only [hi, if_true]
        rw [read_frame_none env t (by omega)]
        simp
      · simp [hi]
    | succ f2 =>
      unfold analyze_formation_loop
      by_cases hi : i < t.m_video_frame_count
      · simp only [hi, if_true]
        rcases hr : read_frame env t with ⟨f, t1⟩
        cases f with
        | none => rfl
        | some frame =>
          simp only
          have hp := read_frame_some_pos env t t1 frame hr
          cases env.formation_analyze frame with
          | some cur =>
            simp only
            split
            · have hs := skip_frames_pos_le env { t1 with m_formation := cur } skip_count
              exact ih f2 _ _ _ (by simp only at hs; omega) (by simp only at hs; omega)
            · split
              · rfl
              · have hs := skip_frames_pos_le env t1 skip_count
                exact ih f2 _ _ _ (by omega) (by omega)
          | none =>
            simp only
            split
            · rfl
            · have hs := skip_frames_pos_le env t1 skip_count
              exact ih f2 _ _ _ (by omega) (by omega)
      · simp [hi]

/-! ## The sampling loop of the roster phase -/

theorem read_frame_of_get (env : Env) (t : Task) (f : Mat)
    (hf : env.frames.get? t.pos = some f) :
    read_frame env t = (some f, { t with pos := t.pos + 1 }) := by
  unfold read_frame
  rw [hf]

theorem skip_fold_pos (env : Env) (l : List Nat) (t : Task)
    (h : t.pos + l.length ≤ env.frames.length) :
    l.foldl (fun s _ => (read_frame env s).2) t = { t with pos := t.pos + l.length } := by
  induction l generalizing t with
  | nil => rfl
  | cons x rest ih =>
    simp only [List.length_cons] at h
    have hlt : t.pos < env.frames.length := by omega
    have hget : env.frames.get? t.pos = some (env.frames.get ⟨t.pos, hlt⟩) :=
      List.get?_eq_get hlt
    simp only [List.foldl_cons, List.length_cons]
    rw [read_frame_of_get env t _ hget]
    simp only
    rw [ih]
    · simp only
      congr 1
      omega
    · simp only
      omega

theorem skip_frames_pos (env : Env) (t : Task) (count : Nat)
    (h : t.pos + (count - 1) ≤ env.frames.length) :
    skip_frames env t count = (count, { t with pos := t.pos + (count - 1) }) := by
  unfold skip_frames
  rw [skip_fold_pos env _ t (by simpa using h)]
  simp

theorem analyze_formation_loop_flat (env : Env) (skip_count : Nat) (hskip : 0 < skip_count)
    (last : Nat) (d : Nat) :
    ∀ (fuel i no_changes_count : Nat) (t : Task),
      no_changes_count + d = 5 → d < fuel → i + d * skip_count = last → t.pos = i →
      last < t.m_video_frame_count → t.m_video_frame_count ≤ SIZE_MOD →
      last < env.frames.length →
      (∀ j, j ≤ d → ∃ fr cur, env.frames.get? (i + j * skip_count) = some fr ∧
        env.formation_analyze fr = some cur ∧ cur.length ≤ t.m_formation.length) →
      ∃ t1, analyze_formation_loop env skip_count fuel i no_changes_count t = (true, t1) ∧
        t1.m_formation_end_frame = last ∧ t1.pos = last + 1 ∧
        t1.m_formation = t.m_formation := by
  induction d with
  | zero =>
    intro fuel i nc t hnc hfuel hi hpos hcount hsize hlen hs
    obtain ⟨fr, cur, hfr, hcur, hle⟩ := hs 0 (le_refl 0)
    simp only [Nat.zero_mul, Nat.add_zero] at hfr hi
    obtain ⟨fuel, rfl⟩ : ∃ f, fuel = f + 1 := ⟨fuel - 1, by omega⟩
    have hilt : i < t.m_video_frame_count := by omega
    rw [← hpos] at hfr
    unfold analyze_formation_loop
    simp only [hilt, if_true]
    rw [read_frame_of_get env t fr hfr]
    simp only [hcur]
    have h1 : ¬ cur.length > t.m_formation.length := by omega
    have h2 : nc + 1 > 5 := by omega
    simp only [h1, if_false, h2, if_true]
    exact ⟨_, rfl, by simpa using hi, by simp only; omega, rfl⟩
  | succ d ih =>
    intro fuel i nc t hnc hfuel hi hpos hcount hsize hlen hs
    obtain ⟨fr, cur, hfr, hcur, hle⟩ := hs 0 (Nat.zero_le _)
    simp only [Nat.zero_mul, Nat.add_zero] at hfr
    obtain ⟨fuel, rfl⟩ : ∃ f, fuel = f + 1 := ⟨fuel - 1, by omega⟩
    have hmul : i + skip_count + d * skip_count = last := by
      rw [← hi, Nat.succ_mul]
      omega
    have hilt : i < t.m_video_frame_count := by omega
    rw [← hpos] at hfr
    unfold analyze_formation_loop
    simp only [hilt, if_true]
    rw [read_frame_of_get env t fr hfr]
    simp only [hcur]
    have h1 : ¬ cur.length > t.m_formation.length := by omega
    have h2 : ¬ nc + 1 > 5 := by omega
    simp only [h1, if_false, h2]
    have hskipf : skip_frames env { t with pos := t.pos + 1 } skip_count =
        (skip_count, { t with pos := t.pos + 1 + (skip_count - 1) }) := by
      apply skip_frames_pos
      simp only
      omega
    rw [hskipf]
    simp only
    have hmod : (i + skip_count) % SIZE_MOD = i + skip_count := by
      apply Nat.mod_eq_of_lt
      omega
    rw [hmod]
    obtain ⟨t1, hrun, he, hp, hf⟩ := ih fuel (i + skip_count) (nc + 1)
      { t with pos := t.pos + 1 + (skip_count - 1) } (by omega) (by omega) hmul
      (by simp only; omega) hcount hsize hlen
      (by
        intro j hj
        obtain ⟨fr2, cur2, hfr2, hcur2, hle2⟩ := hs (j + 1) (by omega)
        refine ⟨fr2, cur2, ?_, hcur2, hle2⟩
        rw [← hfr2, Nat.succ_mul]
        congr 1
        omega)
    exact ⟨t1, hrun, he, hp, hf⟩

theorem analyze_formation_loop_grow (env : Env) (skip_count : Nat) (hskip : 0 < skip_count)
    (g : Nat) (sz : Nat → Nat)
    (hsamples : ∀ j, j < g + 6 → ∃ fr cur, env.frames.get? (j * skip_count) = some fr ∧
      env.formation_analyze fr = some cur ∧ cur.length = sz j)
    (hgrow0 : 0 < g → 0 < sz 0)
    (hgrow : ∀ j, j + 1 < g → sz j < sz (j + 1))
    (hflat : ∀ j, g ≤ j → j < g + 6 → sz j ≤ if g = 0 then 0 else sz (g - 1))
    (m : Nat) :
    ∀ (fuel k : Nat) (t : Task),
      k + m = g → m + 5 < fuel → t.pos = k * skip_count →
      (g + 5) * skip_count < t.m_video_frame_count → t.m_video_frame_count ≤ SIZE_MOD →
      (g + 5) * skip_count < env.frames.length →
      t.m_formation.length = (if k = 0 then 0 else sz (k - 1)) →
      ∃ t1, analyze_formation_loop env skip_count fuel (k * skip_count) 0 t = (true, t1) ∧
        t1.m_formation_end_frame = (g + 5) * skip_count ∧
        t1.pos = (g + 5) * skip_count + 1 ∧
        t1.m_formation.length = (if g = 0 then 0 else sz (g - 1)) := by
  induction m with
  | zero =>
    intro fuel k t hk hfuel hpos hcount hsize hlen hform
    have hkg : k = g := by omega
    subst hkg
    obtain ⟨t1, hrun, he, hp, hf⟩ := analyze_formation_loop_flat env skip_count hskip
      ((k + 5) * skip_count) 5 fuel (k * skip_count) 0 t (by omega) (by omega)
      (by rw [Nat.add_mul]) hpos hcount hsize hlen
      (by
        intro j hj
        obtain ⟨fr, cur, hfr, hcur, hl⟩ := hsamples (k + j) (by omega)
        refine ⟨fr, cur, ?_, hcur, ?_⟩
        · rw [← hfr, Nat.add_mul]
        · rw [hl, hform]
          exact hflat (k + j) (by omega) (by omega))
    exact ⟨t1, hrun, he, hp, by rw [hf, hform]⟩
  | succ m ih =>
    intro fuel k t hk hfuel hpos hcount hsize hlen hform
    have hkg : k < g := by omega
    obtain ⟨fr, cur, hfr, hcur, hl⟩ := hsamples k (by omega)
    obtain ⟨fuel, rfl⟩ : ∃ f, fuel = f + 1 := ⟨fuel - 1, by omega⟩
    have hle : k * skip_count + skip_count ≤ (g + 5) * skip_count := by
      rw [← Nat.succ_mul]
      exact Nat.mul_le_mul_right _ (by omega)
    have hilt : k * skip_count < t.m_video_frame_count := by omega
    rw [← hpos] at hfr
    unfold analyze_formation_loop
    simp only [hilt, if_true]
    rw [read_frame_of_get env t fr hfr]
    simp only [hcur]
    have h1 : cur.length > t.m_formation.length := by
      rw [hl, hform]
      by_cases hk0 : k = 0
      · subst hk0
        simpa using hgrow0 (by omega)
      · simp only [hk0, if_false]
        have := hgrow (k - 1) (by omega)
        rwa [Nat.sub_add_cancel (by omega)] at this
    simp only [h1, if_true]
    have hskipf : skip_frames env { t with pos := t.pos + 1, m_formation := cur } skip_count =
        (skip_count,
          { t with pos := t.pos + 1 + (skip_count - 1), m_formation := cur }) := by
      apply skip_frames_pos
      simp only
      omega
    rw [hskipf]
    simp only
    have hmod : (k * skip_count + skip_count) % SIZE_MOD = (k + 1) * skip_count := by
      rw [Nat.succ_mul]
      apply Nat.mod_eq_of_lt
      omega
    rw [hmod]
    exact ih fuel (k + 1) { t with pos := t.pos + 1 + (skip_count - 1), m_formation := cur }
      (by omega) (by omega) (by simp only; rw [Nat.succ_mul]; omega) hcount hsize hlen
      (by simpa using hl)

/-! ## Claims on `analyze_formation` -/

/-- C5, as the code behaves: started on a fresh video with an empty roster, when the first `g`
samples are analysed with strictly growing roster sizes and the next six samples are analysed
without growing the roster, `analyze_formation` stops exactly at the sixth of these samples:
it succeeds, `m_formation_end_frame` is the index of sample number `g + 5` (counted from 0),
and that sample is the last frame read. -/
theorem analyze_formation_stops_at_sixth (env : Env) (skip_count : Nat) (t : Task)
    (g : Nat) (sz : Nat → Nat)
    (hskip : 0 < skip_count) (hpos : t.pos = 0) (hform : t.m_formation = [])
    (hcount : (g + 5) * skip_count < t.m_video_frame_count)
    (hsize : t.m_video_frame_count ≤ SIZE_MOD)
    (hsamples : ∀ j, j < g + 6 → ∃ fr cur, env.frames.get? (j * skip_count) = some fr ∧
      env.formation_analyze fr = some cur ∧ cur.length = sz j)
    (hgrow0 : 0 < g → 0 < sz 0)
    (hgrow : ∀ j, j + 1 < g → sz j < sz (j + 1))
    (hflat : ∀ j, g ≤ j → j < g + 6 → sz j ≤ if g = 0 then 0 else sz (g - 1)) :
    (analyze_formation env skip_count t).1 = true ∧
    (analyze_formation env skip_count t).2.m_formation_end_frame = (g + 5) * skip_count ∧
    (analyze_formation env skip_count t).2.pos = (g + 5) * skip_count + 1 := by
  have hlen : (g + 5) * skip_count < env.frames.length := by
    obtain ⟨fr, cur, hfr, _, _⟩ := hsamples (g + 5) (by omega)
    rw [List.get?_eq_some] at hfr
    exact hfr.1
  have hge : g + 5 ≤ (g + 5) * skip_count := Nat.le_mul_of_pos_right _ hskip
  obtain ⟨t1, hrun, he, hp, _⟩ := analyze_formation_loop_grow env skip_count hskip g sz
    hsamples hgrow0 hgrow hflat g (env.frames.length + 1) 0 t (by omega) (by omega)
    (by simpa using hpos) hcount hsize hlen (by simp [hform])
  simp only [Nat.zero_mul] at hrun
  unfold analyze_formation
  rw [hrun]
  exact ⟨rfl, he, hp⟩

/-- Witness of C5 as amended: the roster size grows over 3 samples and then repeats; the phase
stops at the 9th sample (index 8), the 6th that does not grow the roster. -/
theorem analyze_formation_stops_at_sixth_witness :
    (analyze_formation (example_formation_env 12 (fun k => min (k + 1) 3)) 1
      (example_formation_task 12)).1 = true ∧
    (analyze_formation (example_formation_env 12 (fun k => min (k + 1) 3)) 1
      (example_formation_task 12)).2.m_formation_end_frame = (3 + 5) * 1 ∧
    (analyze_formation (example_formation_env 12 (fun k => min (k + 1) 3)) 1
      (example_formation_task 12)).2.pos = (3 + 5) * 1 + 1 :=
  analyze_formation_stops_at_sixth (example_formation_env 12 (fun k => min (k + 1) 3)) 1
    (example_formation_task 12) 3 (fun k => min (k + 1) 3) (by decide) (by decide) (by decide)
    (by decide) (by decide)
    (by
      intro j hj
      refine ⟨j, example_roster (min (j + 1) 3), ?_, rfl, ?_⟩
      · simp only [example_formation_env, Nat.mul_one]
        rw [List.get?_eq_some]
        exact ⟨by simp; omega, by simp⟩
      · simp [example_roster])
    (by decide) (by intro j hj; simp; omega) (by intro j _ _; simp)

/-- Counterexample to C5 as stated: with 3 growing samples followed by unchanged samples, the
phase reads 9 frames and stops at index 8, so the 6th unchanged sample is read; and when the
video ends after the 5th unchanged sample (8 frames), the loop is not stopped by the counter
and `m_formation_end_frame` is never set. -/
theorem analyze_formation_reads_sixth_unchanged :
    (analyze_formation (example_formation_env 12 (fun k => min (k + 1) 3)) 1
      (example_formation_task 12)).2.pos = 9 ∧
    (analyze_formation (example_formation_env 12 (fun k => min (k + 1) 3)) 1
      (example_formation_task 12)).2.m_formation_end_frame = 8 ∧
    (analyze_formation (example_formation_env 8 (fun k => min (k + 1) 3)) 1
      (example_formation_task 8)).2.pos = 8 ∧
    (analyze_formation (example_formation_env 8 (fun k => min (k + 1) 3)) 1
      (example_formation_task 8)).2.m_formation_end_frame = 0 := by
  decide

/-! ## The tally of the occupancy vote -/

theorem max_element_loop_spec {α : Type} (l : List (α × Nat)) (largest : α × Nat) :
    max_element_loop largest l ∈ largest :: l ∧
      ∀ e ∈ largest :: l, e.2 ≤ (max_element_loop largest l).2 := by
  induction l generalizing largest with
  | nil => simp [max_element_loop]
  | cons e rest ih =>
    unfold max_element_loop
    by_cases h : largest.2 < e.2
    · simp only [h, if_true]
      obtain ⟨hm, hb⟩ := ih e
      refine ⟨List.mem_cons_of_mem _ hm, ?_⟩
      intro x hx
      rcases List.mem_cons.1 hx with rfl | hx
      · have := hb e (List.mem_cons_self _ _)
        omega
      · exact hb x hx
    · simp only [h, if_false]
      obtain ⟨hm, hb⟩ := ih largest
      refine ⟨?_, ?_⟩
      · rcases List.mem_cons.1 hm with h1 | h1
        · rw [h1]
          exact List.mem_cons_self _ _
        · exact List.mem_cons_of_mem _ (List.mem_cons_of_mem _ h1)
      · intro x hx
        rcases List.mem_cons.1 hx with rfl | hx
        · exact hb _ (List.mem_cons_self _ _)
        · rcases List.mem_cons.1 hx with rfl | hx
          · have := hb largest (List.mem_cons_self _ _)
            omega
          · exact hb x (List.mem_cons_of_mem _ hx)

theorem max_element_spec {α : Type} (l : List (α × Nat)) (e : α × Nat)
    (h : max_element l = some e) : e ∈ l ∧ ∀ x ∈ l, x.2 ≤ e.2 := by
  cases l with
  | nil => simp [max_element] at h
  | cons a rest =>
    simp only [max_element, Option.some.injEq] at h
    subst h
    exact max_element_loop_spec rest a

theorem max_element_isSome {α : Type} (l : List (α × Nat)) (h : l ≠ []) :
    ∃ e, max_element l = some e := by
  cases l with
  | nil => exact absurd rfl h
  | cons a rest => exact ⟨_, rfl⟩

theorem set_emplace_nodup (cur : List Point) (loc : Point) (h : cur.Nodup) :
    (set_emplace cur loc).Nodup := by
  unfold set_emplace
  by_cases hc : cur.contains loc = true
  · rw [if_pos hc]
    exact h
  · rw [if_neg hc]
    have hnot : loc ∉ cur := by simpa using hc
    rw [List.nodup_append]
    refine ⟨h, List.nodup_singleton _, ?_⟩
    intro a ha hb
    rw [List.mem_singleton] at hb
    subst hb
    exact hnot ha

theorem locate_boxes_fold_nodup (env : Env) (t : Task) (boxes : List Rect) (cur : List Point)
    (h : cur.Nodup) :
    (boxes.foldl (fun cur box =>
      match (t.m_normal_tile_info.map (·.2)).find?
        (fun ti => env.rect_include (env.rect_move box env.det_box_move) ti.pos) with
      | none => cur
      | some ti => set_emplace cur ti.loc) cur).Nodup := by
  induction boxes generalizing cur with
  | nil => exact h
  | cons box rest ih =>
    simp only [List.foldl_cons]
    apply ih
    split
    · exact h
    · exact set_emplace_nodup _ _ h

theorem locate_boxes_nodup (env : Env) (t : Task) (boxes : List Rect) :
    (locate_boxes env t boxes).Nodup :=
  locate_boxes_fold_nodup env t boxes [] List.nodup_nil

theorem emplace_fold_nodup (env : Env) (locs : List Point) (bf : List (Point × BattlefiledOper))
    (hnd : locs.Nodup) (hdisj : ∀ l ∈ locs, l ∉ bf.map (·.1)) :
    locs.foldl (battlefield_emplace env) bf =
      bf ++ locs.map (fun l => (l, { direction := env.default_direction, new_here := false })) := by
  induction locs generalizing bf with
  | nil => simp
  | cons l rest ih =>
    rw [List.nodup_cons] at hnd
    simp only [List.foldl_cons, List.map_cons]
    have hnot : battlefield_contains bf l = false := by
      rw [← Bool.not_eq_true, battlefield_contains_iff]
      exact hdisj l (List.mem_cons_self _ _)
    have hstep : battlefield_emplace env bf l =
        bf ++ [(l, { direction := env.default_direction, new_here := false })] := by
      unfold battlefield_emplace
      simp [hnot]
    rw [hstep, ih _ hnd.2]
    · simp
    · intro x hx hmem
      simp only [List.map_append, List.map_cons, List.map_nil, List.mem_append,
        List.mem_singleton] at hmem
      rcases hmem with h | h
      · exact hdisj x (List.mem_cons_of_mem _ hx) h
      · subst h
        exact hnd.1 hx

theorem same_set_iff (a b : List Point) :
    same_set a b = true ↔ ∀ p, p ∈ a ↔ p ∈ b := by
  unfold same_set
  simp only [Bool.and_eq_true, List.all_eq_true, List.contains_eq_any_beq, List.any_eq_true,
    beq_iff_eq]
  constructor
  · rintro ⟨h1, h2⟩ p
    constructor
    · intro hp
      obtain ⟨x, hx, rfl⟩ := h1 p hp
      exact hx
    · intro hp
      obtain ⟨x, hx, rfl⟩ := h2 p hp
      exact hx
  · intro h
    exact ⟨fun p hp => ⟨p, (h p).1 hp, rfl⟩, fun p hp => ⟨p, (h p).2 hp, rfl⟩⟩

theorem detect_loop_tally (env : Env) (skip_count det_end fuel i : Nat) (t : Task)
    (tally : List (List Point × Nat)) :
    (detect_loop env skip_count det_end fuel i t tally).2.2 =
      (detect_samples_loop env skip_count det_end fuel i t).foldl (tally_add same_set) tally := by
  induction fuel generalizing i t tally with
  | zero => rfl
  | succ fuel ih =>
    unfold detect_loop detect_samples_loop
    by_cases hi : i < det_end
    · simp only [hi, if_true]
      rcases read_frame env t with ⟨f, t1⟩
      cases f with
      | none => rfl
      | some frame =>
        simp only [List.foldl_cons]
        exact ih _ _ _
    · simp only [hi, if_false]
      rfl

theorem detect_sampling_tally (env : Env) (t : Task) (clip : ClipInfo) :
    (detect_sampling env t clip).2.2 =
      (detect_samples env t clip).foldl (tally_add same_set) [] := by
  unfold detect_sampling detect_samples
  exact detect_loop_tally _ _ _ _ _ _ _

theorem detect_samples_loop_nodup (env : Env) (skip_count det_end fuel i : Nat) (t : Task) :
    ∀ s ∈ detect_samples_loop env skip_count det_end fuel i t, s.Nodup := by
  induction fuel generalizing i t with
  | zero => simp [detect_samples_loop]
  | succ fuel ih =>
    unfold detect_samples_loop
    by_cases hi : i < det_end
    · simp only [hi, if_true]
      rcases read_frame env t with ⟨f, t1⟩
      cases f with
      | none => simp
      | some frame =>
        intro s hs
        simp only [List.mem_cons] at hs
        rcases hs with rfl | hs
        · exact locate_boxes_nodup _ _ _
        · exact ih _ _ s hs
    · simp only [hi, if_false]
      simp

/-- Shape of a tally after an increment: either no key equals the new one and the new key is
appended with count 1, or the first equal key has its count incremented. -/
theorem tally_add_cases {α : Type} (same : α → α → Bool) (tally : List (α × Nat)) (key : α) :
    ((∀ e ∈ tally, same e.1 key = false) ∧ tally_add same tally key = tally ++ [(key, 1)]) ∨
    ∃ pre k n post, tally = pre ++ (k, n) :: post ∧ same k key = true ∧
      (∀ e ∈ pre, same e.1 key = false) ∧
      tally_add same tally key = pre ++ (k, n + 1) :: post := by
  induction tally with
  | nil => exact Or.inl ⟨by simp, rfl⟩
  | cons a rest ih =>
    obtain ⟨k, n⟩ := a
    by_cases hs : same k key = true
    · refine Or.inr ⟨[], k, n, rest, rfl, hs, by simp, ?_⟩
      unfold tally_add
      rw [if_pos hs]
      rfl
    · have hstep : tally_add same ((k, n) :: rest) key = (k, n) :: tally_add same rest key := by
        conv_lhs => unfold tally_add
        rw [if_neg hs]
      have hs' : same k key = false := by simpa using hs
      rcases ih with ⟨hno, heq⟩ | ⟨pre, k2, n2, post, hT, hk2, hpre, heq⟩
      · refine Or.inl ⟨?_, ?_⟩
        · intro e he
          rcases List.mem_cons.1 he with rfl | he
          · exact hs'
          · exact hno e he
        · rw [hstep, heq]
          rfl
      · refine Or.inr ⟨(k, n) :: pre, k2, n2, post, ?_, hk2, ?_, ?_⟩
        · rw [hT]
          rfl
        · intro e he
          rcases List.mem_cons.1 he with rfl | he
          · exact hs'
          · exact hpre e he
        · rw [hstep, heq]
          rfl

theorem tally_add_inv {α : Type} (same : α → α → Bool)
    (hrefl : ∀ a, same a a = true)
    (hsymm : ∀ a b, same a b = true → same b a = true)
    (htrans : ∀ a b c, same a b = true → same b c = true → same a c = true)
    (tally : List (α × Nat)) (samples : List α) (s : α)
    (h : tally_inv same tally samples) :
    tally_inv same (tally_add same tally s) (samples ++ [s]) := by
  obtain ⟨h1, h2, h3⟩ := h
  rcases tally_add_cases same tally s with ⟨hno, heq⟩ | ⟨pre, k, n, post, hT, hk, hpre, heq⟩
  · rw [heq]
    refine ⟨?_, ?_, ?_⟩
    · intro e he
      rcases List.mem_append.1 he with he | he
      · obtain ⟨hm, hc⟩ := h1 e he
        refine ⟨List.mem_append_left _ hm, ?_⟩
        rw [List.countP_append, ← hc]
        simp [hno e he]
      · rw [List.mem_singleton] at he
        subst he
        refine ⟨by simp, ?_⟩
        have hzero : samples.countP (fun x => same s x) = 0 := by
          rw [List.countP_eq_zero]
          intro l hl hsl
          obtain ⟨e, he, hel⟩ := h2 l hl
          have := htrans _ _ _ hel (hsymm _ _ hsl)
          rw [hno e he] at this
          exact Bool.false_ne_true this
        rw [List.countP_append, hzero]
        simp [hrefl]
    · intro l hl
      rcases List.mem_append.1 hl with hl | hl
      · obtain ⟨e, he, hel⟩ := h2 l hl
        exact ⟨e, List.mem_append_left _ he, hel⟩
      · rw [List.mem_singleton] at hl
        subst hl
        exact ⟨(l, 1), by simp, hrefl l⟩
    · rw [List.map_append, List.pairwise_append]
      refine ⟨h3, by simp, ?_⟩
      intro a ha b hb
      simp only [List.map_cons, List.map_nil, List.mem_singleton] at hb
      subst hb
      obtain ⟨e, he, rfl⟩ := List.mem_map.1 ha
      exact hno e he
  · rw [heq]
    have hkeys : (pre ++ (k, n + 1) :: post).map (·.1) = tally.map (·.1) := by
      rw [hT]
      simp
    have hkmem : (k, n) ∈ tally := by
      rw [hT]
      simp
    have hother : ∀ e ∈ pre ++ post, e ∈ tally ∧ same e.1 s = false := by
      intro e he
      rcases List.mem_append.1 he with he | he
      · exact ⟨by rw [hT]; simp [he], hpre e he⟩
      · refine ⟨by rw [hT]; simp [he], ?_⟩
        rw [hT] at h3
        simp only [List.map_append, List.map_cons, List.pairwise_append,
          List.pairwise_cons] at h3
        have hke : same k e.1 = false := h3.2.1.1 e.1 (List.mem_map_of_mem _ he)
        by_contra hne
        have hes : same e.1 s = true := by simpa using hne
        have := htrans _ _ _ hk (hsymm _ _ hes)
        rw [hke] at this
        exact Bool.false_ne_true this
    refine ⟨?_, ?_, ?_⟩
    · intro e he
      simp only [List.mem_append, List.mem_cons] at he
      have hcases : e ∈ pre ++ post ∨ e = (k, n + 1) := by
        rcases he with he | he | he
        · exact Or.inl (List.mem_append_left _ he)
        · exact Or.inr he
        · exact Or.inl (List.mem_append_right _ he)
      rcases hcases with he | he
      · obtain ⟨hm, hf⟩ := hother e he
        obtain ⟨hms, hc⟩ := h1 e hm
        refine ⟨List.mem_append_left _ hms, ?_⟩
        rw [List.countP_append, ← hc]
        simp [hf]
      · subst he
        obtain ⟨hms, hc⟩ := h1 (k, n) hkmem
        refine ⟨List.mem_append_left _ hms, ?_⟩
        simp only at hc
        rw [List.countP_append, ← hc]
        simp [hk]
    · intro l hl
      have hkey : ∀ e ∈ tally, ∃ e2 ∈ pre ++ (k, n + 1) :: post, e2.1 = e.1 := by
        intro e he
        have : e.1 ∈ (pre ++ (k, n + 1) :: post).map (·.1) := by
          rw [hkeys]
          exact List.mem_map_of_mem _ he
        obtain ⟨e2, he2, h12⟩ := List.mem_map.1 this
        exact ⟨e2, he2, h12⟩
      rcases List.mem_append.1 hl with hl | hl
      · obtain ⟨e, he, hel⟩ := h2 l hl
        obtain ⟨e2, he2, h12⟩ := hkey e he
        exact ⟨e2, he2, by rw [h12]; exact hel⟩
      · rw [List.mem_singleton] at hl
        subst hl
        exact ⟨(k, n + 1), by simp, hk⟩
    · rw [hkeys]
      exact h3

theorem tally_fold_inv {α : Type} (same : α → α → Bool)
    (hrefl : ∀ a, same a a = true)
    (hsymm : ∀ a b, same a b = true → same b a = true)
    (htrans : ∀ a b c, same a b = true → same b c = true → same a c = true)
    (more : List α) (tally : List (α × Nat)) (samples : List α)
    (h : tally_inv same tally samples) :
    tally_inv same (more.foldl (tally_add same) tally) (samples ++ more) := by
  induction more generalizing tally samples with
  | nil => simpa using h
  | cons s rest ih =>
    simp only [List.foldl_cons]
    have := ih _ _ (tally_add_inv same hrefl hsymm htrans tally samples s h)
    simpa using this

theorem tally_inv_mode {α : Type} (same : α → α → Bool)
    (hsymm : ∀ a b, same a b = true → same b a = true)
    (htrans : ∀ a b c, same a b = true → same b c = true → same a c = true)
    (tally : List (α × Nat)) (samples : List α) (h : tally_inv same tally samples)
    (best : α × Nat) (hbest : best ∈ tally) (hmax : ∀ e ∈ tally, e.2 ≤ best.2) :
    best.1 ∈ samples ∧
    ∀ s ∈ samples, samples.countP (fun x => same s x) ≤
      samples.countP (fun x => same best.1 x) := by
  obtain ⟨h1, h2, _⟩ := h
  refine ⟨(h1 best hbest).1, ?_⟩
  intro s hs
  obtain ⟨e, he, hes⟩ := h2 s hs
  have hcongr : samples.countP (fun x => same s x) = samples.countP (fun x => same e.1 x) := by
    apply List.countP_congr
    intro x _
    constructor
    · intro hsx
      exact htrans _ _ _ hes hsx
    · intro hex
      exact htrans _ _ _ (hsymm _ _ hes) hex
  rw [hcongr, ← (h1 e he).2, ← (h1 best hbest).2]
  exact hmax e he

theorem same_set_refl (a : List Point) : same_set a a = true :=
  (same_set_iff a a).2 (fun _ => Iff.rfl)

theorem same_set_symm (a b : List Point) (h : same_set a b = true) : same_set b a = true :=
  (same_set_iff b a).2 (fun p => ((same_set_iff a b).1 h p).symm)

theorem same_set_trans (a b c : List Point) (h1 : same_set a b = true)
    (h2 : same_set b c = true) : same_set a c = true :=
  (same_set_iff a c).2 (fun p => ((same_set_iff a b).1 h1 p).trans ((same_set_iff b c).1 h2 p))

/-! ## Claims on `detect_operators` -/

/-- C6: for a clip with an empty battlefield whose sampling loop is not cut short by an empty
frame and takes at least one sample, whatever the iteration order of the tally,
`detect_operators` succeeds and records as battlefield, with fresh unflagged entries, the
locations of a sampled set `locs` such that no sampled set occurs more often among the samples
than `locs` does (location sets being compared as sets); hence, when all samples agree with a
set `S`, the recorded locations are exactly those of `S`. -/
theorem detect_operators_modal (env : Env) (t : Task) (clip : ClipInfo) (pre : Option ClipInfo)
    (horder : ∀ l, (env.tally_order l).Perm l)
    (hempty : clip.battlefield = [])
    (hok : (detect_sampling env t clip).1 = true)
    (hsample : detect_samples env t clip ≠ []) :
    ∃ locs : List Point,
      locs ∈ detect_samples env t clip ∧
      (∀ s ∈ detect_samples env t clip,
        (detect_samples env t clip).countP (fun x => same_set s x) ≤
          (detect_samples env t clip).countP (fun x => same_set locs x)) ∧
      detect_operators env t clip pre =
        (true, (detect_sampling env t clip).2.1,
          { clip with
            battlefield := locs.map
              (fun l => (l, { direction := env.default_direction, new_here := false })) }) ∧
      (∀ S : List Point, (∀ s ∈ detect_samples env t clip, same_set s S = true) →
        ∀ p, p ∈ locs ↔ p ∈ S) := by
  have hinv : tally_inv same_set (detect_sampling env t clip).2.2 (detect_samples env t clip) := by
    rw [detect_sampling_tally]
    have := tally_fold_inv same_set same_set_refl same_set_symm same_set_trans
      (detect_samples env t clip) [] [] ⟨by simp, by simp, by simp⟩
    simpa using this
  have hne : (detect_sampling env t clip).2.2 ≠ [] := by
    obtain ⟨s, hs⟩ := List.exists_mem_of_ne_nil _ hsample
    obtain ⟨e, he, _⟩ := hinv.2.1 s hs
    exact List.ne_nil_of_mem he
  have hne2 : env.tally_order (detect_sampling env t clip).2.2 ≠ [] := by
    intro h
    have := (horder (detect_sampling env t clip).2.2).length_eq
    rw [h] at this
    exact hne (List.length_eq_zero.1 this.symm)
  obtain ⟨best, hbest⟩ := max_element_isSome _ hne2
  obtain ⟨hmem, hmax⟩ := max_element_spec _ _ hbest
  have hmem2 : best ∈ (detect_sampling env t clip).2.2 := (horder _).mem_iff.1 hmem
  have hmax2 : ∀ e ∈ (detect_sampling env t clip).2.2, e.2 ≤ best.2 :=
    fun e he => hmax e ((horder _).mem_iff.2 he)
  obtain ⟨hin, hmode⟩ := tally_inv_mode same_set same_set_symm same_set_trans _ _ hinv best
    hmem2 hmax2
  have hnd : best.1.Nodup := by
    unfold detect_samples at hin
    exact detect_samples_loop_nodup _ _ _ _ _ _ _ hin
  refine ⟨best.1, hin, hmode, ?_, ?_⟩
  · unfold detect_operators
    rcases hds : detect_sampling env t clip with ⟨b, t1, tally⟩
    rw [hds] at hok hbest
    simp only at hok hbest
    subst hok
    simp only [hbest]
    rw [emplace_fold_nodup env best.1 clip.battlefield hnd (by simp [hempty]), hempty]
    simp
  · intro S hS p
    exact (same_set_iff best.1 S).1 (hS best.1 hin) p

/-- Witness of C6: the clip of frames 14 to 24 of the example takes eight samples, six that
show `(2,3)` alone and two that show `(2,3)` and `(4,1)`; the recorded battlefield is `(2,3)`
alone. -/
theorem detect_operators_modal_witness :
    (∃ locs : List Point,
      locs ∈ detect_samples example_env (example_task []) example_clip_mixed ∧
      (∀ s ∈ detect_samples example_env (example_task []) example_clip_mixed,
        (detect_samples example_env (example_task []) example_clip_mixed).countP
            (fun x => same_set s x) ≤
          (detect_samples example_env (example_task []) example_clip_mixed).countP
            (fun x => same_set locs x)) ∧
      detect_operators example_env (example_task []) example_clip_mixed none =
        (true, (detect_sampling example_env (example_task []) example_clip_mixed).2.1,
          { example_clip_mixed with
            battlefield := locs.map
              (fun l =>
                (l, { direction := example_env.default_direction, new_here := false })) }) ∧
      (∀ S : List Point,
        (∀ s ∈ detect_samples example_env (example_task []) example_clip_mixed,
          same_set s S = true) →
        ∀ p, p ∈ locs ↔ p ∈ S)) ∧
    detect_samples example_env (example_task []) example_clip_mixed =
      [[⟨2, 3⟩], [⟨2, 3⟩], [⟨2, 3⟩], [⟨2, 3⟩], [⟨2, 3⟩], [⟨2, 3⟩],
        [⟨2, 3⟩, ⟨4, 1⟩], [⟨2, 3⟩, ⟨4, 1⟩]] ∧
    (detect_operators example_env (example_task []) example_clip_mixed none).2.2.battlefield =
      [(⟨2, 3⟩, ⟨4, false⟩)] :=
  ⟨detect_operators_modal example_env (example_task []) example_clip_mixed none
    (fun l => List.Perm.refl l) (by decide) (by decide) (by decide), by decide, by decide⟩

/-! ## Further claims on `process_changes` and on name resolution -/

/-- C11: `process_changes` succeeds and leaves the task, hence the action list, and both clips
unchanged when the clip has no predecessor, and when the tray of the clip has the same size as
the tray of its predecessor, whatever the two battlefields hold. -/
theorem process_changes_no_event (env : Env) (t : Task) (clip : ClipInfo) :
    process_changes env t clip none = (true, t, clip, none) ∧
    (∀ pre : ClipInfo, clip.deployment.length = pre.deployment.length →
      process_changes env t clip (some pre) = (true, t, clip, some pre) ∧
      (process_changes env t clip (some pre)).2.1.actions = t.actions) := by
  refine ⟨rfl, ?_⟩
  intro pre hlen
  have h : process_changes env t clip (some pre) = (true, t, clip, some pre) := by
    unfold process_changes
    simp only [hlen, if_true]
  exact ⟨h, by rw [h]⟩

/-- Witness of C11: the first clip of the example, and two clips with the tray `[B]` whose
battlefields differ. -/
theorem process_changes_no_event_witness :
    process_changes example_env (example_task []) example_clip1 none =
      (true, example_task [], example_clip1, none) ∧
    process_changes example_env (example_task [])
        { example_clip3_same with battlefield := [(⟨4, 1⟩, ⟨0, true⟩)] }
        (some { example_clip2 with battlefield := [(⟨2, 3⟩, ⟨3, true⟩)] }) =
      (true, example_task [], { example_clip3_same with battlefield := [(⟨4, 1⟩, ⟨0, true⟩)] },
        some { example_clip2 with battlefield := [(⟨2, 3⟩, ⟨3, true⟩)] }) :=
  ⟨(process_changes_no_event example_env (example_task []) example_clip1).1,
    ((process_changes_no_event example_env (example_task [])
      { example_clip3_same with battlefield := [(⟨4, 1⟩, ⟨0, true⟩)] }).2
      { example_clip2 with battlefield := [(⟨2, 3⟩, ⟨3, true⟩)] } (by decide)).1⟩

theorem resolve_name_idem (env : Env) (t : Task) (oper : DeploymentOper) :
    resolve_name env t (resolve_name env t oper) = resolve_name env t oper := by
  by_cases h : oper.name = ""
  · have hcand : ∀ n : String,
        avatar_candidates env t { oper with name := n } = avatar_candidates env t oper :=
      fun _ => rfl
    cases hm : env.best_match oper.avatar (avatar_candidates env t oper) with
    | none =>
      have h1 : resolve_name env t oper = { oper with name := UnknownDeployment } := by
        unfold resolve_name
        simp [h, hm]
      rw [h1]
      exact resolve_name_of_named env t _ (by simp [UnknownDeployment])
    | some n =>
      have h1 : resolve_name env t oper = { oper with name := n } := by
        unfold resolve_name
        simp [h, hm]
      rw [h1]
      by_cases hn : n = ""
      · unfold resolve_name
        simp [hn, hcand, hm]
      · exact resolve_name_of_named env t _ hn
  · rw [resolve_name_of_named env t oper h, resolve_name_of_named env t oper h]

theorem resolve_name_fields (env : Env) (t : Task) (oper : DeploymentOper) :
    (resolve_name env t oper).avatar = oper.avatar ∧
    (resolve_name env t oper).role = oper.role ∧
    (resolve_name env t oper).index = oper.index ∧
    (resolve_name env t oper).cooling = oper.cooling := by
  unfold resolve_name
  split
  · exact ⟨rfl, rfl, rfl, rfl⟩
  · split <;> exact ⟨rfl, rfl, rfl, rfl⟩

theorem resolve_name_unnamed (env : Env) (t : Task) (oper : DeploymentOper)
    (h : oper.name = "") :
    (resolve_name env t oper).name =
      (env.best_match oper.avatar (avatar_candidates env t oper)).getD UnknownDeployment := by
  unfold resolve_name
  simp only [h, ne_eq, not_true_eq_false, if_false]
  cases env.best_match oper.avatar (avatar_candidates env t oper) <;> rfl

/-- C15: `ananlyze_deployment_names` changes nothing of a clip but the names of its tray
entries, and it changes neither the number nor the order of the entries: the entry of index `k`
afterwards is the entry of index `k` before with, when its name was empty, the name of the best
match among the role-compatible known avatars or `UnknownDeployment` when there is no match,
and unchanged when its name was not empty.  The new name is not empty when the matcher answers
with the name of one of its templates and no known avatar has an empty name.  Running the
function a second time changes nothing. -/
theorem ananlyze_deployment_names_spec (env : Env) (t : Task) (clip : ClipInfo) :
    (ananlyze_deployment_names env t clip).deployment.length = clip.deployment.length ∧
    (ananlyze_deployment_names env t clip).start_frame = clip.start_frame ∧
    (ananlyze_deployment_names env t clip).end_frame = clip.end_frame ∧
    (ananlyze_deployment_names env t clip).cooling = clip.cooling ∧
    (ananlyze_deployment_names env t clip).battlefield = clip.battlefield ∧
    (∀ (k : Nat) (o : DeploymentOper), clip.deployment[k]? = some o →
      ∃ o1, (ananlyze_deployment_names env t clip).deployment[k]? = some o1 ∧
        (o.name ≠ "" → o1 = o) ∧
        (o.name = "" →
          o1 = { o with name :=
            (env.best_match o.avatar (avatar_candidates env t o)).getD UnknownDeployment } ∧
          ((∀ img cands n, env.best_match img cands = some n → n ∈ cands.map (·.1)) →
            (∀ na ∈ t.m_all_avatars, na.1 ≠ "") → o1.name ≠ ""))) ∧
    ananlyze_deployment_names env t (ananlyze_deployment_names env t clip) =
      ananlyze_deployment_names env t clip := by
  refine ⟨by simp [ananlyze_deployment_names], rfl, rfl, rfl, rfl, ?_, ?_⟩
  · intro k o hk
    refine ⟨resolve_name env t o, by simp [ananlyze_deployment_names, hk], ?_, ?_⟩
    · intro hne
      exact resolve_name_of_named env t o hne
    · intro hempty
      have hname := resolve_name_unnamed env t o hempty
      have hf := resolve_name_fields env t o
      refine ⟨?_, ?_⟩
      · cases hr : resolve_name env t o
        rw [hr] at hname hf
        simp only at hname hf
        simp [hname, hf.1, hf.2.1, hf.2.2.1, hf.2.2.2]
      · intro hmatch hnames
        rw [hname]
        cases hm : env.best_match o.avatar (avatar_candidates env t o) with
        | none => simp [UnknownDeployment]
        | some n =>
          simp only [Option.getD_some]
          have hin := hmatch _ _ _ hm
          obtain ⟨na, hna, rfl⟩ := List.mem_map.1 hin
          unfold avatar_candidates at hna
          exact hnames na (List.mem_filter.1 hna).1
  · unfold ananlyze_deployment_names
    simp only [List.map_map]
    congr 1
    apply List.map_congr_left
    intro o _
    exact resolve_name_idem env t o

/-- Witness of C15: a tray with a named entry, an unnamed entry that matches the known avatar
`A`, and an unnamed entry of a role without known avatar. -/
theorem ananlyze_deployment_names_spec_witness :
    (∃ o1, (ananlyze_deployment_names example_match_env example_match_task
          example_clip_unnamed).deployment[1]? = some o1 ∧
        (({ name := "", avatar := 1, role := 0, index := 1, cooling := false } :
            DeploymentOper).name ≠ "" →
          o1 = { name := "", avatar := 1, role := 0, index := 1, cooling := false }) ∧
        (({ name := "", avatar := 1, role := 0, index := 1, cooling := false } :
            DeploymentOper).name = "" →
          o1 = { ({ name := "", avatar := 1, role := 0, index := 1, cooling := false } :
              DeploymentOper) with
            name := (example_match_env.best_match 1
              (avatar_candidates example_match_env example_match_task
                { name := "", avatar := 1, role := 0, index := 1, cooling := false })).getD
                UnknownDeployment } ∧
          ((∀ img cands n, example_match_env.best_match img cands = some n →
              n ∈ cands.map (·.1)) →
            (∀ na ∈ example_match_task.m_all_avatars, na.1 ≠ "") → o1.name ≠ ""))) ∧
    (∀ img cands n, example_match_env.best_match img cands = some n → n ∈ cands.map (·.1)) ∧
    (∀ na ∈ example_match_task.m_all_avatars, na.1 ≠ "") ∧
    (ananlyze_deployment_names example_match_env example_match_task
        example_clip_unnamed).deployment.map (·.name) = ["B", "A", "UnknownDeployment"] :=
  ⟨(ananlyze_deployment_names_spec example_match_env example_match_task
      example_clip_unnamed).2.2.2.2.2.1 1
      { name := "", avatar := 1, role := 0, index := 1, cooling := false } (by decide),
    by
      intro img cands n h
      cases cands with
      | nil => simp [example_match_env] at h
      | cons c rest =>
        simp only [example_match_env, List.head?_cons, Option.map_some',
          Option.some.injEq] at h
        simp [← h],
    by decide, by decide⟩

/-! ## Further claims on the roster phase and on the votes -/

/-- C12, the behaviour of the code: on a video of 5 readable frames none of which shows a
roster, the sampling loop of `analyze_formation` ends with an empty roster and the function
returns true, with no entry written to the roster of the artifact. -/
theorem analyze_formation_succeeds_with_empty_roster :
    (analyze_formation (example_no_roster_env 5) 1 (example_formation_task 5)).1 = true ∧
    (analyze_formation (example_no_roster_env 5) 1 (example_formation_task 5)).2.m_formation =
      [] ∧
    (analyze_formation (example_no_roster_env 5) 1 (example_formation_task 5)).2.opers = [] ∧
    (analyze_formation (example_no_roster_env 5) 1 (example_formation_task 5)).2.pos = 5 := by
  decide

theorem classify_direction_eq_sampling (env : Env) (t : Task) (clip p : ClipInfo) :
    classify_direction env t clip (some p) =
      if ((clip.battlefield.map (·.1)).filter
          (fun loc => !battlefield_contains p.battlefield loc)).isEmpty then
        (Outcome.ret true, t, clip)
      else
        match classify_sampling env t clip ((clip.battlefield.map (·.1)).filter
          (fun loc => !battlefield_contains p.battlefield loc)) with
        | (Outcome.thrown, t1, _) => (Outcome.thrown, t1, clip)
        | (Outcome.ret false, t1, _) => (Outcome.ret false, t1, clip)
        | (Outcome.ret true, t1, dir_cls_sampling) =>
          (Outcome.ret (apply_directions env (env.loc_order dir_cls_sampling)
              clip.battlefield).1, t1,
            { clip with
              battlefield := (apply_directions env (env.loc_order dir_cls_sampling)
                clip.battlefield).2 }) :=
  rfl

/-- C16, the behaviour of the code: for the clip of frames 10 to 21, whose span of 11 frames
gives the sampling step 1, the occupancy vote of `detect_operators` takes 9 samples and the
direction vote of `classify_direction` tallies 9 samples for the newcomer, although the
sampling count of both votes is 5. -/
theorem votes_take_nine_samples :
    example_clip_span11.start_frame < example_clip_span11.end_frame ∧
    SamplingCount = 5 ∧
    vote_skip_count (size_sub example_clip_span11.end_frame example_clip_span11.start_frame) =
      1 ∧
    (detect_samples example_env (example_task []) example_clip_span11).length = 9 ∧
    (detect_sampling example_env (example_task []) example_clip_span11).2.2 =
      [([⟨2, 3⟩], 9)] ∧
    (classify_sampling example_env (example_task [])
      { example_clip_span11 with battlefield := [(⟨2, 3⟩, ⟨4, false⟩)] } [⟨2, 3⟩]).2.2 =
      [(⟨2, 3⟩, [(3, 9)])] ∧
    classify_direction example_env (example_task [])
        { example_clip_span11 with battlefield := [(⟨2, 3⟩, ⟨4, false⟩)] }
        (some example_clip1) =
      (Outcome.ret true, { example_task [] with pos := 20 },
        { example_clip_span11 with battlefield := [(⟨2, 3⟩, ⟨3, true⟩)] }) := by
  decide

/-! ## The clean-up of the clip list -/

theorem same_composition_bool_iff (a b : ClipInfo) :
    same_composition_bool a b = true ↔ same_composition a b := by
  unfold same_composition_bool same_composition
  simp only [Bool.and_eq_true, decide_eq_true_eq, List.all_eq_true, List.mem_range]

theorem same_composition_iff_roles (a b : ClipInfo) :
    same_composition a b ↔ tray_roles a = tray_roles b := by
  unfold same_composition tray_roles
  constructor
  · rintro ⟨hlen, hrole⟩
    apply List.ext_getElem?
    intro i
    simp only [List.getElem?_map]
    by_cases hi : i < a.deployment.length
    · exact hrole i hi
    · rw [List.getElem?_eq_none (by omega), List.getElem?_eq_none (by omega)]
  · intro h
    have hlen : a.deployment.length = b.deployment.length := by
      have := congrArg List.length h
      simpa using this
    refine ⟨hlen, ?_⟩
    intro i _
    have := congrArg (fun l => l[i]?) h
    simpa [List.getElem?_map] using this

theorem zip_fold_or_true (l : List (DeploymentOper × DeploymentOper)) :
    l.foldl (fun changed ab => changed || decide (ab.1.role ≠ ab.2.role)) true = true := by
  induction l with
  | nil => rfl
  | cons x rest ih => simpa using ih

theorem zip_fold_or_false (l : List (DeploymentOper × DeploymentOper)) :
    l.foldl (fun changed ab => changed || decide (ab.1.role ≠ ab.2.role)) false = false ↔
      l.map (fun ab => ab.1.role) = l.map (fun ab => ab.2.role) := by
  induction l with
  | nil => simp
  | cons x rest ih =>
    simp only [List.foldl_cons, Bool.false_or, List.map_cons, List.cons.injEq]
    by_cases h : x.1.role = x.2.role
    · simp only [h, ne_eq, not_true_eq_false, decide_False, true_and]
      exact ih
    · simp only [h, ne_eq, not_false_eq_true, decide_True, false_and, iff_false]
      rw [zip_fold_or_true]
      exact Bool.noConfusion

theorem deployment_changed_false_iff (clip : ClipInfo) (pre : Option ClipInfo) :
    deployment_changed clip pre = false ↔ ∃ p, pre = some p ∧ tray_roles clip = tray_roles p := by
  unfold deployment_changed
  cases pre with
  | none => simp
  | some p =>
    simp only [Option.some.injEq, exists_eq_left']
    by_cases hlen : clip.deployment.length = p.deployment.length
    · simp only [hlen, if_true]
      rw [zip_fold_or_false]
      unfold tray_roles
      have h1 : (clip.deployment.zip p.deployment).map (fun ab => ab.1.role) =
          clip.deployment.map (·.role) := by
        have hz : (clip.deployment.zip p.deployment).map Prod.fst = clip.deployment :=
          List.map_fst_zip _ _ (by omega)
        conv_rhs => rw [← hz]
        rw [List.map_map]
        rfl
      have h2 : (clip.deployment.zip p.deployment).map (fun ab => ab.2.role) =
          p.deployment.map (·.role) := by
        have hz : (clip.deployment.zip p.deployment).map Prod.snd = p.deployment :=
          List.map_snd_zip _ _ (by omega)
        conv_rhs => rw [← hz]
        rw [List.map_map]
        rfl
      rw [h1, h2]
    · simp only [hlen, if_false, Bool.true_eq_false, false_iff]
      intro h
      apply hlen
      have := congrArg List.length h
      simpa [tray_roles] using this

theorem tray_roles_of_skeleton (a b : ClipInfo) (h : clip_skeleton a = clip_skeleton b) :
    tray_roles a = tray_roles b := by
  unfold clip_skeleton at h
  simp only [Prod.mk.injEq] at h
  have h4 := congrArg (List.map (fun x : Mat × Role × Nat × Bool => x.2.1)) h.2.2.2
  simpa [tray_roles, List.map_map, Function.comp] using h4

theorem ananlyze_deployment_names_skeleton (env : Env) (t : Task) (clip : ClipInfo) :
    clip_skeleton (ananlyze_deployment_names env t clip) = clip_skeleton clip := by
  unfold clip_skeleton ananlyze_deployment_names
  simp only [List.map_map, Prod.mk.injEq, true_and]
  apply List.map_congr_left
  intro o _
  have hf := resolve_name_fields env t o
  simp [Function.comp, hf.1, hf.2.1, hf.2.2.1, hf.2.2.2]

theorem detect_operators_skeleton (env : Env) (t : Task) (clip : ClipInfo)
    (pre : Option ClipInfo) :
    clip_skeleton (detect_operators env t clip pre).2.2 = clip_skeleton clip := by
  unfold detect_operators
  split
  · rfl
  · split <;> rfl

theorem classify_direction_skeleton (env : Env) (t : Task) (clip : ClipInfo)
    (pre : Option ClipInfo) :
    clip_skeleton (classify_direction env t clip pre).2.2 = clip_skeleton clip := by
  unfold classify_direction
  cases pre with
  | none => rfl
  | some p =>
    simp only
    split
    · rfl
    · split <;> rfl

theorem process_changes_skeleton (env : Env) (t : Task) (clip : ClipInfo)
    (pre : Option ClipInfo) :
    clip_skeleton (process_changes env t clip pre).2.2.1 = clip_skeleton clip ∧
    (process_changes env t clip pre).2.2.2.map clip_skeleton = pre.map clip_skeleton := by
  unfold process_changes
  cases pre with
  | none => exact ⟨rfl, rfl⟩
  | some p =>
    simp only
    split
    · exact ⟨rfl, rfl⟩
    · split
      · split
        · exact ⟨ananlyze_deployment_names_skeleton env t clip,
            by simp [ananlyze_deployment_names_skeleton]⟩
        · exact ⟨ananlyze_deployment_names_skeleton env t clip,
            by simp [ananlyze_deployment_names_skeleton]⟩
      · exact ⟨rfl, rfl⟩

theorem analyze_clip_skeleton (env : Env) (t : Task) (clip : ClipInfo) (pre : Option ClipInfo) :
    clip_skeleton (analyze_clip env t clip pre).2.2.1 = clip_skeleton clip ∧
    (analyze_clip env t clip pre).2.2.2.map clip_skeleton = pre.map clip_skeleton := by
  unfold analyze_clip
  have hd := detect_operators_skeleton env t clip pre
  rcases hdet : detect_operators env t clip pre with ⟨b, t1, clip1⟩
  rw [hdet] at hd
  cases b with
  | false => exact ⟨hd, rfl⟩
  | true =>
    simp only
    have hc := classify_direction_skeleton env t1 clip1 pre
    rcases hcls : classify_direction env t1 clip1 pre with ⟨o, t2, clip2⟩
    rw [hcls] at hc
    cases o with
    | thrown => exact ⟨hc.trans hd, rfl⟩
    | ret ok =>
      cases ok with
      | false => exact ⟨hc.trans hd, rfl⟩
      | true =>
        simp only
        have hp := process_changes_skeleton env t2 clip2 pre
        rcases hpc : process_changes env t2 clip2 pre with ⟨b3, t3, clip3, pre3⟩
        rw [hpc] at hp
        cases b3 with
        | false => exact ⟨hp.1.trans (hc.trans hd), hp.2⟩
        | true => exact ⟨hp.1.trans (hc.trans hd), hp.2⟩

theorem keep_clip_skeleton (kept : List ClipInfo) (clip : ClipInfo) (pre : Option ClipInfo)
    (hpre : pre.map clip_skeleton = kept.getLast?.map clip_skeleton) :
    (keep_clip kept clip pre).map clip_skeleton =
      kept.map clip_skeleton ++ [clip_skeleton clip] := by
  unfold keep_clip
  cases pre with
  | none => simp
  | some p =>
    cases hl : kept.getLast? with
    | none => rw [hl] at hpre; simp at hpre
    | some q =>
      rw [hl] at hpre
      simp only [Option.map_some', Option.some.injEq] at hpre
      have hkept : kept = kept.dropLast ++ [q] := by
        have hne : kept ≠ [] := by
          intro h
          rw [h] at hl
          simp at hl
        have hq : kept.getLast hne = q := by
          rw [List.getLast?_eq_getLast _ hne] at hl
          exact Option.some.inj hl
        rw [← hq]
        exact (List.dropLast_append_getLast hne).symm
      conv_rhs => rw [hkept]
      simp [hpre]

theorem analyze_all_clips_loop_survivors (env : Env) (rest kept : List ClipInfo) (t : Task)
    (calls : List (ClipInfo × Option ClipInfo)) (pre : Option ClipInfo)
    (hpre : kept.getLast?.map clip_skeleton = pre.map clip_skeleton)
    (hret : (analyze_all_clips_loop env rest kept t calls).outcome ≠ Outcome.thrown) :
    (analyze_all_clips_loop env rest kept t calls).calls.map (·.1) =
      calls.map (·.1) ++ expected_survivors pre rest ∧
    (analyze_all_clips_loop env rest kept t calls).kept.map clip_skeleton =
      kept.map clip_skeleton ++ (expected_survivors pre rest).map clip_skeleton := by
  induction rest generalizing kept t calls pre with
  | nil => simp [analyze_all_clips_loop, expected_survivors]
  | cons clip rest ih =>
    have hroles : ∀ p q, kept.getLast? = some p → pre = some q → tray_roles p = tray_roles q := by
      intro p q hp hq
      rw [hp, hq] at hpre
      exact tray_roles_of_skeleton p q (by simpa using hpre)
    have hdc : deployment_changed clip kept.getLast? = !repeats_composition clip pre := by
      cases hk : kept.getLast? with
      | none =>
        rw [hk] at hpre
        cases pre with
        | none => rfl
        | some q => simp at hpre
      | some p =>
        rw [hk] at hpre
        cases pre with
        | none => simp at hpre
        | some q =>
          have hr := hroles p q hk rfl
          simp only [repeats_composition]
          cases hb : same_composition_bool clip q with
          | true =>
            rw [same_composition_bool_iff, same_composition_iff_roles] at hb
            simp only [Bool.not_true]
            rw [deployment_changed_false_iff]
            exact ⟨p, rfl, hb.trans hr.symm⟩
          | false =>
            simp only [Bool.not_false]
            by_contra hne
            have hf : deployment_changed clip (some p) = false := by simpa using hne
            rw [deployment_changed_false_iff] at hf
            obtain ⟨p2, hp2, hr2⟩ := hf
            simp only [Option.some.injEq] at hp2
            subst hp2
            have : same_composition_bool clip q = true := by
              rw [same_composition_bool_iff, same_composition_iff_roles]
              exact hr2.trans hr
            rw [hb] at this
            exact Bool.noConfusion this
    unfold analyze_all_clips_loop at hret ⊢
    unfold expected_survivors
    simp only at hret ⊢
    rw [hdc] at hret ⊢
    by_cases hdrop : (decide (clip.start_frame ≥ clip.end_frame) ||
        repeats_composition clip pre) = true
    · have hcond : (!!repeats_composition clip pre ||
          decide (clip.start_frame ≥ clip.end_frame)) = true := by
        rw [Bool.not_not, Bool.or_comm]
        exact hdrop
      rw [if_pos hcond] at hret ⊢
      rw [if_pos hdrop]
      exact ih kept t calls pre hpre hret
    · have hcond : ¬ (!!repeats_composition clip pre ||
          decide (clip.start_frame ≥ clip.end_frame)) = true := by
        rw [Bool.not_not, Bool.or_comm]
        exact hdrop
      rw [if_neg hcond] at hret ⊢
      rw [if_neg hdrop]
      have hs := analyze_clip_skeleton env t clip kept.getLast?
      rcases hac : analyze_clip env t clip kept.getLast? with ⟨o, t1, clip1, pre1⟩
      rw [hac] at hs hret
      simp only at hs hret ⊢
      have hk := keep_clip_skeleton kept clip1 pre1 hs.2
      cases o with
      | thrown => exact absurd rfl hret
      | ret ok =>
        simp only at hret ⊢
        have hlast : (keep_clip kept clip1 pre1).getLast?.map clip_skeleton =
            (some clip).map clip_skeleton := by
          have h : ((keep_clip kept clip1 pre1).map clip_skeleton).getLast? =
              some (clip_skeleton clip1) := by
            rw [hk]
            simp
          rw [List.getLast?_map] at h
          rw [h, hs.1]
          rfl
        obtain ⟨h1, h2⟩ := ih (keep_clip kept clip1 pre1) t1 (calls ++ [(clip, kept.getLast?)])
          (some clip) hlast hret
        refine ⟨?_, ?_⟩
        · rw [h1]
          simp
        · rw [h2, hk, hs.1]
          simp

theorem expected_survivors_chain (l : List ClipInfo) :
    ∀ pre : Option ClipInfo,
      List.Chain' (fun a b => tray_roles b ≠ tray_roles a) (expected_survivors pre l) ∧
      ∀ c p, (expected_survivors pre l).head? = some c → pre = some p →
        tray_roles c ≠ tray_roles p := by
  induction l with
  | nil =>
    intro pre
    simp [expected_survivors]
  | cons clip rest ih =>
    intro pre
    unfold expected_survivors
    by_cases hdrop : (decide (clip.start_frame ≥ clip.end_frame) ||
        repeats_composition clip pre) = true
    · rw [if_pos hdrop]
      exact ih pre
    · rw [if_neg hdrop]
      obtain ⟨hc, hh⟩ := ih (some clip)
      refine ⟨?_, ?_⟩
      · rw [List.chain'_cons']
        refine ⟨?_, hc⟩
        intro b hb
        exact hh b clip hb rfl
      · intro c p hhead hp
        simp only [List.head?_cons, Option.some.injEq] at hhead
        subst hhead
        subst hp
        intro heq
        apply hdrop
        have : same_composition_bool clip p = true := by
          rw [same_composition_bool_iff, same_composition_iff_roles]
          exact heq
        simp [repeats_composition, this]

theorem chain_roles_of_skeleton (l1 l2 : List ClipInfo)
    (h : l1.map clip_skeleton = l2.map clip_skeleton)
    (hc : List.Chain' (fun a b => tray_roles b ≠ tray_roles a) l2) :
    List.Chain' (fun a b => tray_roles b ≠ tray_roles a) l1 := by
  have hroles : l1.map tray_roles = l2.map tray_roles := by
    have := congrArg (List.map (fun s : Nat × Nat × Nat × List (Mat × Role × Nat × Bool) =>
      s.2.2.2.map (fun x => x.2.1))) h
    simp only [List.map_map] at this
    have hfun : ((fun s : Nat × Nat × Nat × List (Mat × Role × Nat × Bool) =>
        s.2.2.2.map (fun x => x.2.1)) ∘ clip_skeleton) = tray_roles := by
      funext c
      simp [Function.comp, clip_skeleton, tray_roles]
    rw [hfun] at this
    exact this
  have h2 : List.Chain' (fun a b : List Role => b ≠ a) (l2.map tray_roles) :=
    (List.chain'_map tray_roles).2 hc
  rw [← hroles] at h2
  exact (List.chain'_map tray_roles).1 h2

/-- C13: when `analyze_all_clips` returns, the clips it handed to `analyze_clip` are exactly
the clips expected to survive: those of the clip list, in order, that neither have a
degenerate span nor have the same composition (same tray size and same role at every index) as
the last clip kept before them; the clip list left is made of these clips, with the same span,
cooling count and tray entries up to their names; in it every clip differs in composition from
the clip just before it; and a first clip with a proper span is kept first. -/
theorem analyze_all_clips_survivors (env : Env) (t : Task)
    (hret : (analyze_all_clips env t).1 ≠ Outcome.thrown) :
    (analyze_all_clips env t).2.2.map (·.1) = expected_survivors none t.m_clips ∧
    (analyze_all_clips env t).2.1.m_clips.map clip_skeleton =
      (expected_survivors none t.m_clips).map clip_skeleton ∧
    List.Chain' (fun a b => ¬ same_composition b a) (analyze_all_clips env t).2.1.m_clips ∧
    (∀ c rest, t.m_clips = c :: rest → c.start_frame < c.end_frame →
      ∃ c1 tail, (analyze_all_clips env t).2.1.m_clips = c1 :: tail ∧
        clip_skeleton c1 = clip_skeleton c) := by
  have hret2 : (analyze_all_clips_loop env t.m_clips [] t []).outcome ≠ Outcome.thrown := hret
  obtain ⟨h1, h2⟩ := analyze_all_clips_loop_survivors env t.m_clips [] t [] none rfl hret2
  obtain ⟨_, _, h3⟩ := analyze_all_clips_loop_span env t.m_clips [] t [] (by simp) (by simp)
  have hclips : (analyze_all_clips env t).2.1.m_clips =
      (analyze_all_clips_loop env t.m_clips [] t []).kept := by
    unfold analyze_all_clips
    simp only
    rw [h3 hret2, List.append_nil]
  simp only [List.map_nil, List.nil_append] at h1 h2
  refine ⟨h1, by rw [hclips]; exact h2, ?_, ?_⟩
  · rw [hclips]
    have hc := chain_roles_of_skeleton _ _ h2 (expected_survivors_chain t.m_clips none).1
    refine List.Chain'.imp ?_ hc
    intro a b hab hsame
    exact hab ((same_composition_iff_roles b a).1 hsame)
  · intro c rest hcl hspan
    rw [hclips]
    rw [hcl] at h2
    have hexp : expected_survivors none (c :: rest) =
        c :: expected_survivors (some c) rest := by
      conv_lhs => unfold expected_survivors
      have : ¬ (decide (c.start_frame ≥ c.end_frame) || repeats_composition c none) = true := by
        simp [repeats_composition]
        omega
      rw [if_neg this]
    rw [hexp, List.map_cons] at h2
    rw [hcl]
    cases hk : (analyze_all_clips_loop env (c :: rest) [] t []).kept with
    | nil => rw [hk] at h2; simp at h2
    | cons c1 tail =>
      rw [hk, List.map_cons, List.cons.injEq] at h2
      exact ⟨c1, tail, rfl, h2.1⟩

/-- Witness of C13: of the first two clips of the example followed by a clip with the same
tray `[B]` and by a clip whose unit has another role, the third is dropped and the others are
analysed and kept. -/
theorem analyze_all_clips_survivors_witness :
    (analyze_all_clips example_env (example_task
        [example_clip1, example_clip2, example_clip3_same,
          { example_clip2_role with start_frame := 21, end_frame := 30 }])).1 ≠
      Outcome.thrown ∧
    (analyze_all_clips example_env (example_task
        [example_clip1, example_clip2, example_clip3_same,
          { example_clip2_role with start_frame := 21, end_frame := 30 }])).2.2.map (·.1) =
      [example_clip1, example_clip2,
        { example_clip2_role with start_frame := 21, end_frame := 30 }] ∧
    expected_survivors none
        [example_clip1, example_clip2, example_clip3_same,
          { example_clip2_role with start_frame := 21, end_frame := 30 }] =
      [example_clip1, example_clip2,
        { example_clip2_role with start_frame := 21, end_frame := 30 }] :=
  ⟨by decide,
    ((analyze_all_clips_survivors example_env (example_task
      [example_clip1, example_clip2, example_clip3_same,
        { example_clip2_role with start_frame := 21, end_frame := 30 }]) (by decide)).1).trans
      (by decide),
    by decide⟩

/-! ## Claims on `analyze_stage` -/

theorem stage_name_of_fixed (t s : Task) (h : fixed_part s = fixed_part t) :
    s.m_stage_name = t.m_stage_name := by
  have := congrArg Task.m_stage_name h
  exact this

theorem analyze_stage_loop_name (env : Env) (skip_count : Nat) :
    ∀ (fuel i : Nat) (t : Task),
      (analyze_stage_loop env skip_count fuel i t).2.m_stage_name = t.m_stage_name ∨
      ((analyze_stage_loop env skip_count fuel i t).2.m_stage_name ≠ "" ∧
        env.tile_contains (analyze_stage_loop env skip_count fuel i t).2.m_stage_name = true ∧
        ∃ fr ∈ env.frames,
          env.stage_analyze fr =
            some (analyze_stage_loop env skip_count fuel i t).2.m_stage_name) := by
  intro fuel
  induction fuel with
  | zero =>
    intro i t
    exact Or.inl rfl
  | succ fuel ih =>
    intro i t
    unfold analyze_stage_loop
    by_cases hi : i < t.m_video_frame_count
    · simp only [hi, if_true]
      have hr := read_frame_fixed env t
      rcases hrf : read_frame env t with ⟨f, t1⟩
      rw [hrf] at hr
      simp only at hr
      have hname1 : t1.m_stage_name = t.m_stage_name := stage_name_of_fixed t t1 hr
      cases f with
      | none => exact Or.inl hname1
      | some frame =>
        have hmem : frame ∈ env.frames := by
          unfold read_frame at hrf
          cases hg : env.frames.get? t.pos with
          | none => rw [hg] at hrf; simp at hrf
          | some f =>
            rw [hg] at hrf
            simp only [Prod.mk.injEq, Option.some.injEq] at hrf
            rw [← hrf.1]
            exact List.get?_mem hg
        have hskip : (skip_frames env t1 skip_count).2.m_stage_name = t.m_stage_name :=
          (stage_name_of_fixed t1 _ (skip_frames_fixed env t1 skip_count)).trans hname1
        simp only
        cases hs : env.stage_analyze frame with
        | none =>
          simp only
          split
          · exact Or.inl hname1
          · rcases ih ((i + (skip_frames env t1 skip_count).1) % SIZE_MOD)
              (skip_frames env t1 skip_count).2 with h | h
            · exact Or.inl (h.trans hskip)
            · exact Or.inr h
        | some text =>
          simp only
          split
          · rcases ih ((i + (skip_frames env t1 skip_count).1) % SIZE_MOD)
              (skip_frames env t1 skip_count).2 with h | h
            · exact Or.inl (h.trans hskip)
            · exact Or.inr h
          · rename_i hcond
            simp only [not_or, not_not] at hcond
            exact Or.inr ⟨hcond.1, hcond.2, frame, hmem, hs⟩
    · simp only [hi, if_false]
      exact Or.inl trivial

/-- C14: `analyze_stage` returns true only with a stage name that is non-empty and known to the
tile provider; the stage name it leaves is the name it found or a text recognized on a frame
of the video that is non-empty and known to the provider; and when a non-empty stage name is
supplied, no frame is read, the name is kept, and the function returns true exactly when the
name is known to the provider. -/
theorem analyze_stage_spec (env : Env) (skip_count : Nat) (t : Task) :
    ((analyze_stage env skip_count t).1 = true →
      (analyze_stage env skip_count t).2.m_stage_name ≠ "" ∧
      env.tile_contains (analyze_stage env skip_count t).2.m_stage_name = true) ∧
    ((analyze_stage env skip_count t).2.m_stage_name = t.m_stage_name ∨
      ((analyze_stage env skip_count t).2.m_stage_name ≠ "" ∧
        env.tile_contains (analyze_stage env skip_count t).2.m_stage_name = true ∧
        ∃ fr ∈ env.frames,
          env.stage_analyze fr = some (analyze_stage env skip_count t).2.m_stage_name)) ∧
    (t.m_stage_name ≠ "" →
      (analyze_stage env skip_count t).2.pos = t.pos ∧
      (analyze_stage env skip_count t).2.m_stage_name = t.m_stage_name ∧
      ((analyze_stage env skip_count t).1 = true ↔ env.tile_contains t.m_stage_name = true)) := by
  refine ⟨?_, ?_, ?_⟩
  · unfold analyze_stage
    simp only
    split
    · intro h
      exact absurd h Bool.false_ne_true
    · split
      · intro h
        exact absurd h Bool.false_ne_true
      · rename_i hcond
        simp only [not_or, not_not] at hcond
        intro _
        exact hcond
  · have hloop := analyze_stage_loop_name env skip_count (env.frames.length + 1)
      t.m_formation_end_frame t
    unfold analyze_stage
    simp only
    by_cases hn : t.m_stage_name = ""
    · simp only [hn, if_true]
      rcases hl : analyze_stage_loop env skip_count (env.frames.length + 1)
        t.m_formation_end_frame t with ⟨b, t1⟩
      rw [hl] at hloop
      simp only [hn] at hloop
      cases b with
      | false => exact hloop
      | true =>
        simp only
        split
        · exact hloop
        · exact hloop
    · simp only [hn, if_false]
      split
      · exact Or.inl rfl
      · exact Or.inl rfl
  · intro hn
    unfold analyze_stage
    simp only [hn, if_false, false_or]
    by_cases hk : env.tile_contains t.m_stage_name = true
    · simp [hk]
    · simp [hk]

/-- Witness of C14: with the known stage `2-3` supplied, no frame is read and the phase
succeeds; with no stage supplied, the empty text and the unknown text are passed over and the
known text `1-7` of frame 3 is adopted. -/
theorem analyze_stage_spec_witness :
    ((analyze_stage example_stage_env 1 (example_stage_task "2-3")).2.pos =
        (example_stage_task "2-3").pos ∧
      (analyze_stage example_stage_env 1 (example_stage_task "2-3")).2.m_stage_name =
        (example_stage_task "2-3").m_stage_name ∧
      ((analyze_stage example_stage_env 1 (example_stage_task "2-3")).1 = true ↔
        example_stage_env.tile_contains (example_stage_task "2-3").m_stage_name = true)) ∧
    ((analyze_stage example_stage_env 1 (example_stage_task "")).2.m_stage_name ≠ "" ∧
      example_stage_env.tile_contains
        (analyze_stage example_stage_env 1 (example_stage_task "")).2.m_stage_name = true) ∧
    (analyze_stage example_stage_env 1 (example_stage_task "")).2.m_stage_name = "1-7" ∧
    (analyze_stage example_stage_env 1 (example_stage_task "")).2.m_stage_ocr_end_frame = 3 ∧
    (analyze_stage example_stage_env 1 (example_stage_task "x")).1 = false :=
  ⟨(analyze_stage_spec example_stage_env 1 (example_stage_task "2-3")).2.2 (by decide),
    (analyze_stage_spec example_stage_env 1 (example_stage_task "")).1 (by decide),
    by decide, by decide, by decide⟩

/-! ## The loop of `slice_video` as an iteration of its body -/

theorem slice_video_loop_run (env : Env) (skip_count : Nat) :
    ∀ (fuel i : Nat) (t : Task) (s : SliceState),
      (slice_video_loop env skip_count fuel i t s).2.2 =
        (slice_run skip_count (slice_samples_loop env skip_count fuel i t s) s).2 := by
  intro fuel
  induction fuel with
  | zero =>
    intro i t s
    rfl
  | succ fuel ih =>
    intro i t s
    unfold slice_video_loop slice_samples_loop
    by_cases hi : i < t.m_video_frame_count
    · simp only [hi, if_true]
      rcases read_frame env t with ⟨f, t1⟩
      cases f with
      | none => rfl
      | some frame =>
        simp only
        by_cases hstop : (slice_step skip_count i (env.slice_analyze frame) s).1 = true
        · simp [hstop, slice_run]
        · simp only [hstop, if_false, Bool.false_eq_true]
          rw [ih]
          simp [slice_run, hstop]
    · simp only [hi, if_false]
      rfl

theorem slice_video_clips (env : Env) (skip_count : Nat) (t : Task) :
    (slice_video env skip_count t).2.m_clips =
      (slice_run skip_count (slice_samples env skip_count t) (slice_init t)).2.m_clips := by
  unfold slice_video slice_samples
  simp only
  rw [slice_video_loop_run]

theorem frame_count_of_fixed (t s : Task) (h : fixed_part s = fixed_part t) :
    s.m_video_frame_count = t.m_video_frame_count := by
  have := congrArg Task.m_video_frame_count h
  exact this

theorem slice_samples_loop_chain (env : Env) (skip_count : Nat) :
    ∀ (fuel i : Nat) (t : Task) (s : SliceState),
      t.m_video_frame_count + skip_count ≤ SIZE_MOD →
      List.Chain' (fun a b => b.1 = a.1 + skip_count)
        (slice_samples_loop env skip_count fuel i t s) ∧
      ∀ x, (slice_samples_loop env skip_count fuel i t s).head? = some x → x.1 = i := by
  intro fuel
  induction fuel with
  | zero =>
    intro i t s _
    simp [slice_samples_loop]
  | succ fuel ih =>
    intro i t s hsize
    unfold slice_samples_loop
    by_cases hi : i < t.m_video_frame_count
    · simp only [hi, if_true]
      have hr := read_frame_fixed env t
      rcases hrf : read_frame env t with ⟨f, t1⟩
      rw [hrf] at hr
      simp only at hr
      cases f with
      | none => simp
      | some frame =>
        simp only
        by_cases hstop : (slice_step skip_count i (env.slice_analyze frame) s).1 = true
        · simp [hstop]
        · simp only [hstop, if_false, Bool.false_eq_true]
          have hcount : (skip_frames env t1 skip_count).2.m_video_frame_count =
              t.m_video_frame_count :=
            (frame_count_of_fixed t1 _ (skip_frames_fixed env t1 skip_count)).trans
              (frame_count_of_fixed t t1 hr)
          obtain ⟨hc, hh⟩ := ih ((i + (skip_frames env t1 skip_count).1) % SIZE_MOD)
            (skip_frames env t1 skip_count).2 (slice_step skip_count i (env.slice_analyze frame) s).2
            (by rw [hcount]; exact hsize)
          have hmod : (i + (skip_frames env t1 skip_count).1) % SIZE_MOD = i + skip_count := by
            have : (skip_frames env t1 skip_count).1 = skip_count := rfl
            rw [this]
            apply Nat.mod_eq_of_lt
            omega
          refine ⟨?_, ?_⟩
          · rw [List.chain'_cons']
            refine ⟨?_, hc⟩
            intro b hb
            rw [hh b hb, hmod]
          · intro x hx
            simp only [List.head?_cons, Option.some.injEq] at hx
            rw [← hx]
    · simp [hi]

/-! ## Claims on the body of the loop of `slice_video` -/

theorem modify_back_of_getLast (clips : List ClipInfo) (f : ClipInfo → ClipInfo)
    (last : ClipInfo) (h : clips.getLast? = some last) :
    modify_back clips f = clips.dropLast ++ [f last] := by
  unfold modify_back
  rw [h]

theorem modify_back_length (clips : List ClipInfo) (f : ClipInfo → ClipInfo) :
    (modify_back clips f).length = clips.length := by
  unfold modify_back
  cases h : clips.getLast? with
  | none => rfl
  | some last =>
    have hne : clips ≠ [] := by
      intro hn
      rw [hn] at h
      simp at h
    simp only [List.length_append, List.length_dropLast, List.length_singleton]
    have := List.length_pos.2 hne
    omega

theorem slice_run_misses (skip_count : Nat) (idx : List Nat) :
    ∀ s : SliceState, s.not_in_battle_count ≤ 10 →
      ((slice_run skip_count (idx.map (fun j => (j, none))) s).1 = true ↔
        11 ≤ s.not_in_battle_count + idx.length) ∧
      (slice_run skip_count (idx.map (fun j => (j, none))) s).2.not_in_battle_count =
        min (s.not_in_battle_count + idx.length) 11 := by
  induction idx with
  | nil =>
    intro s hs
    simp only [List.map_nil, slice_run, List.length_nil, Nat.add_zero]
    refine ⟨?_, ?_⟩
    · constructor
      · intro h
        exact absurd h Bool.false_ne_true
      · intro h
        omega
    · omega
  | cons j rest ih =>
    intro s hs
    simp only [List.map_cons, List.length_cons]
    unfold slice_run
    have hstep1 : (slice_step skip_count j none s).1 = decide (s.not_in_battle_count + 1 > 10) :=
      rfl
    have hstep2 : (slice_step skip_count j none s).2.not_in_battle_count =
        s.not_in_battle_count + 1 := rfl
    by_cases hc : s.not_in_battle_count + 1 > 10
    · have h1 : (slice_step skip_count j none s).1 = true := by
        rw [hstep1]
        exact decide_eq_true hc
      rw [if_pos h1]
      refine ⟨?_, ?_⟩
      · constructor
        · intro _
          omega
        · intro _
          rfl
      · simp only [hstep2]
        omega
    · have h1 : ¬ (slice_step skip_count j none s).1 = true := by
        rw [hstep1]
        simpa using hc
      rw [if_neg h1]
      obtain ⟨ha, hb⟩ := ih (slice_step skip_count j none s).2 (by rw [hstep2]; omega)
      rw [hstep2] at ha hb
      refine ⟨?_, ?_⟩
      · rw [ha]
        omega
      · rw [hb]
        omega

/-- C19: on a sample of index `i` that is not in battle, the body of the loop of `slice_video`
closes the open clip, if any, with `end_frame = i`, leaves no clip open, increments the miss
counter and leaves the loop exactly when the counter was already at 10 or more; on any sample
in battle it resets the counter to 0 and stays in the loop; so, from a counter at 0, a run of
not-in-battle samples leaves the loop exactly when it holds 11 samples or more, at the
11th. -/
theorem slice_step_miss_counter (skip_count i : Nat) (s : SliceState) :
    (∀ last, s.in_segment = true → s.m_clips.getLast? = some last →
      (slice_step skip_count i none s).2.m_clips =
        s.m_clips.dropLast ++ [{ last with end_frame := i }]) ∧
    (s.in_segment = false → (slice_step skip_count i none s).2.m_clips = s.m_clips) ∧
    (slice_step skip_count i none s).2.in_segment = false ∧
    (slice_step skip_count i none s).2.not_in_battle_count = s.not_in_battle_count + 1 ∧
    ((slice_step skip_count i none s).1 = true ↔ 10 ≤ s.not_in_battle_count) ∧
    (∀ o, (slice_step skip_count i (some o) s).1 = false ∧
      (slice_step skip_count i (some o) s).2.not_in_battle_count = 0) ∧
    (s.not_in_battle_count = 0 → ∀ idx : List Nat,
      ((slice_run skip_count (idx.map (fun j => (j, none))) s).1 = true ↔ 11 ≤ idx.length) ∧
      (slice_run skip_count (idx.map (fun j => (j, none))) s).2.not_in_battle_count =
        min idx.length 11) := by
  refine ⟨?_, ?_, rfl, rfl, ?_, ?_, ?_⟩
  · intro last hopen hlast
    have hne : s.m_clips.isEmpty = false := by
      cases hc : s.m_clips with
      | nil => rw [hc] at hlast; simp at hlast
      | cons a l => rfl
    simp only [slice_step, hopen, hne, Bool.not_false, Bool.and_self, if_true]
    exact modify_back_of_getLast _ _ _ hlast
  · intro hclosed
    simp [slice_step, hclosed]
  · simp only [slice_step, decide_eq_true_eq]
    omega
  · intro o
    obtain ⟨opers, detail⟩ := o
    unfold slice_step
    simp only
    split
    · split <;> exact ⟨rfl, rfl⟩
    · split
      · exact ⟨rfl, rfl⟩
      · split
        · exact ⟨rfl, rfl⟩
        · split
          · exact ⟨rfl, rfl⟩
          · split <;> exact ⟨rfl, rfl⟩
  · intro h0 idx
    have := slice_run_misses skip_count idx s (by omega)
    rw [h0] at this
    simpa using this

/-- Witness of C19: from the state in which `slice_video` starts, ten samples not in battle
leave the scan running and the eleventh ends it. -/
theorem slice_step_miss_counter_witness :
    ((slice_run 1 ((List.range 10).map (fun j => (j, none)))
        (slice_init (example_slice_task 20))).1 = true ↔ 11 ≤ (List.range 10).length) ∧
    ((slice_run 1 ((List.range 11).map (fun j => (j, none)))
        (slice_init (example_slice_task 20))).1 = true ↔ 11 ≤ (List.range 11).length) ∧
    (slice_run 1 ((List.range 10).map (fun j => (j, none)))
        (slice_init (example_slice_task 20))).1 = false ∧
    (slice_run 1 ((List.range 11).map (fun j => (j, none)))
        (slice_init (example_slice_task 20))).1 = true ∧
    (slice_video { example_env with frames := List.range 20 } 1
        (example_slice_task 20)).2.pos = 11 :=
  ⟨((slice_step_miss_counter 1 0 (slice_init (example_slice_task 20))).2.2.2.2.2.2 (by decide)
      (List.range 10)).1,
    ((slice_step_miss_counter 1 0 (slice_init (example_slice_task 20))).2.2.2.2.2.2 (by decide)
      (List.range 11)).1,
    by decide, by decide, by decide⟩

/-- C17, as the code behaves: on a sample of index `i` in battle and without overlay whose
tray size differs from that of the open clip, the body of the loop of `slice_video` closes the
open clip with `end_frame = i` and opens no clip, so the clip list keeps its length; the new
clip is opened by the next sample in battle and without overlay, of index `j`, with
`start_frame = j` and with the tray and the cooling count of that sample. -/
theorem slice_step_size_change (skip_count i : Nat) (s : SliceState) (last : ClipInfo)
    (cur_opers : List DeploymentOper)
    (hopen : s.in_segment = true) (hlast : s.m_clips.getLast? = some last)
    (hsize : last.deployment.length ≠ cur_opers.length) :
    slice_step skip_count i (some (cur_opers, false)) s =
      (false,
        { m_clips := s.m_clips.dropLast ++ [{ last with end_frame := i }]
          m_battle_end_frame := 0, not_in_battle_count := 0, in_segment := false }) ∧
    (slice_step skip_count i (some (cur_opers, false)) s).2.m_clips.length = s.m_clips.length ∧
    (∀ (j : Nat) (next_opers : List DeploymentOper),
      slice_step skip_count j (some (next_opers, false))
          (slice_step skip_count i (some (cur_opers, false)) s).2 =
        (false,
          { m_clips := s.m_clips.dropLast ++
              [{ last with end_frame := i },
                { start_frame := j, end_frame := j, deployment := next_opers,
                  cooling := count_cooling next_opers, battlefield := [] }]
            m_battle_end_frame := 0, not_in_battle_count := 0, in_segment := true })) := by
  have hstep : slice_step skip_count i (some (cur_opers, false)) s =
      (false,
        { m_clips := s.m_clips.dropLast ++ [{ last with end_frame := i }]
          m_battle_end_frame := 0, not_in_battle_count := 0, in_segment := false }) := by
    simp only [slice_step, hopen, hlast, Bool.false_eq_true, if_false, Bool.not_true, hsize,
      ne_eq, not_false_eq_true, if_true]
    rw [modify_back_of_getLast _ _ _ hlast]
  refine ⟨hstep, ?_, ?_⟩
  · rw [hstep]
    have hne : s.m_clips ≠ [] := by
      intro hn
      rw [hn] at hlast
      simp at hlast
    have := List.length_pos.2 hne
    simp only [List.length_append, List.length_dropLast, List.length_singleton]
    omega
  · intro j next_opers
    rw [hstep]
    simp [slice_step]

/-- Witness of C17 as amended: in the slicing example the tray shrinks from 2 to 1 entries at
frame 5. -/
theorem slice_step_size_change_witness :
    slice_step 1 5 (some (example_tray 1 0, false))
        (example_open_state [example_open_clip 0 (example_tray 2 0)]) =
      (false,
        { m_clips := [{ example_open_clip 0 (example_tray 2 0) with end_frame := 5 }]
          m_battle_end_frame := 0, not_in_battle_count := 0, in_segment := false }) :=
  (slice_step_size_change 1 5 (example_open_state [example_open_clip 0 (example_tray 2 0)])
    (example_open_clip 0 (example_tray 2 0)) (example_tray 1 0)
    (by decide) (by decide) (by decide)).1

/-- Counterexample to C17 as stated: in the slicing example the tray shrinks at frame 5; when
the video ends with that frame, the clip list holds the closed clip alone, and with two more
frames the second clip starts at frame 6, not at frame 5. -/
theorem size_change_opens_no_clip :
    (slice_video (example_slice_env 6 (fun _ => 0)) 1 (example_slice_task 6)).2.m_clips =
      [{ example_open_clip 0 (example_tray 2 0) with end_frame := 5 }] ∧
    (slice_video (example_slice_env 8 (fun _ => 0)) 1 (example_slice_task 8)).2.m_clips =
      [{ example_open_clip 0 (example_tray 2 0) with end_frame := 5 },
        example_open_clip 6 (example_tray 1 0)] := by
  decide

theorem slice_step_open_bound (skip_count i : Nat)
    (obs : Option (List DeploymentOper × Bool)) (s : SliceState) (m : Nat)
    (h : s.in_segment = true → ∃ last, s.m_clips.getLast? = some last ∧ last.start_frame ≤ m)
    (hi : i ≤ m) :
    (slice_step skip_count i obs s).2.in_segment = true →
      ∃ last, (slice_step skip_count i obs s).2.m_clips.getLast? = some last ∧
        last.start_frame ≤ m := by
  unfold slice_step
  cases obs with
  | none =>
    intro hopen
    exact absurd hopen Bool.false_ne_true
  | some o =>
    obtain ⟨opers, detail⟩ := o
    simp only
    split
    · split
      · exact h
      · intro hopen
        exact absurd hopen Bool.false_ne_true
    · split
      · intro _
        exact ⟨_, List.getLast?_concat _, hi⟩
      · rename_i hseg
        have hopen : s.in_segment = true := by simpa using hseg
        obtain ⟨last, hlast, hle⟩ := h hopen
        rw [hlast]
        simp only
        split
        · intro hopen2
          exact absurd hopen2 Bool.false_ne_true
        · split
          · intro _
            rw [modify_back_of_getLast _ _ _ hlast]
            exact ⟨_, List.getLast?_concat _, hle⟩
          · intro _
            exact ⟨last, hlast, hle⟩

theorem slice_run_open_bound (skip_count : Nat)
    (samples : List (Nat × Option (List DeploymentOper × Bool))) (m : Nat) :
    ∀ s : SliceState,
      (s.in_segment = true → ∃ last, s.m_clips.getLast? = some last ∧ last.start_frame ≤ m) →
      (∀ x ∈ samples, x.1 ≤ m) →
      (slice_run skip_count samples s).2.in_segment = true →
        ∃ last, (slice_run skip_count samples s).2.m_clips.getLast? = some last ∧
          last.start_frame ≤ m := by
  induction samples with
  | nil =>
    intro s h _
    exact h
  | cons x rest ih =>
    intro s h hm
    obtain ⟨i, obs⟩ := x
    have hstep := slice_step_open_bound skip_count i obs s m h (hm (i, obs) (by simp))
    unfold slice_run
    split
    · exact hstep
    · exact ih _ hstep (fun y hy => hm y (List.mem_cons_of_mem _ hy))

theorem chain_index_bound (skip_count : Nat)
    (pre : List (Nat × Option (List DeploymentOper × Bool)))
    (y : Nat × Option (List DeploymentOper × Bool))
    (h : List.Chain' (fun a b => b.1 = a.1 + skip_count) (pre ++ [y])) :
    ∀ x ∈ pre, x.1 + skip_count ≤ y.1 := by
  induction pre with
  | nil => simp
  | cons a rest ih =>
    intro x hx
    simp only [List.cons_append] at h
    rw [List.chain'_cons'] at h
    obtain ⟨hhead, htail⟩ := h
    have hnext : a.1 + skip_count ≤ y.1 := by
      cases rest with
      | nil =>
        have := hhead y (by simp)
        omega
      | cons b rest2 =>
        have h1 := hhead b (by simp)
        have h2 := ih htail b (by simp)
        omega
    rcases List.mem_cons.1 hx with rfl | hx
    · exact hnext
    · exact ih htail x hx

theorem size_sub_of_le (a b : Nat) (hle : b ≤ a) (ha : a < SIZE_MOD) : size_sub a b = a - b := by
  unfold size_sub
  have hb : b < SIZE_MOD := by omega
  rw [Nat.mod_eq_of_lt ha, Nat.mod_eq_of_lt hb]
  have : a + SIZE_MOD - b = (a - b) + SIZE_MOD := by omega
  rw [this, Nat.add_mod_right]
  exact Nat.mod_eq_of_lt (by omega)

theorem modify_back_map_of_fixed {β : Type} (clips : List ClipInfo) (f : ClipInfo → ClipInfo)
    (g : ClipInfo → β) (hf : ∀ c, g (f c) = g c) :
    (modify_back clips f).map g = clips.map g := by
  unfold modify_back
  cases h : clips.getLast? with
  | none => rfl
  | some last =>
    have hne : clips ≠ [] := by
      intro hn
      rw [hn] at h
      simp at h
    have hl : clips.getLast hne = last := by
      rw [List.getLast?_eq_getLast _ hne] at h
      exact Option.some.inj h
    conv_rhs => rw [← List.dropLast_append_getLast hne, hl]
    simp [hf]

/-- C20: let the loop of `slice_video` start with no clip open and process samples whose
indices advance by the sample step, the last of them, of index `i`, showing the detail page.
If a clip is open at that sample, its `start_frame` is at most `i` minus the sample step, the
subtraction does not wrap around, and the clip is closed with that value as `end_frame`; if no
clip is open, the clip list and the segment flag stay as they are.  In any state, a sample
that shows the detail page leaves the number of clips and the start, tray and cooling count of
every clip unchanged. -/
theorem slice_step_overlay (skip_count : Nat) (s0 : SliceState)
    (pre : List (Nat × Option (List DeploymentOper × Bool))) (i : Nat)
    (opers : List DeploymentOper)
    (hclosed : s0.in_segment = false)
    (hchain : List.Chain' (fun a b => b.1 = a.1 + skip_count) (pre ++ [(i, some (opers, true))]))
    (hi : i < SIZE_MOD) :
    (∀ last, (slice_run skip_count pre s0).2.in_segment = true →
      (slice_run skip_count pre s0).2.m_clips.getLast? = some last →
      last.start_frame + skip_count ≤ i ∧
      size_sub i skip_count = i - skip_count ∧
      last.start_frame ≤ i - skip_count ∧
      slice_step skip_count i (some (opers, true)) (slice_run skip_count pre s0).2 =
        (false,
          { m_clips := (slice_run skip_count pre s0).2.m_clips.dropLast ++
              [{ last with end_frame := i - skip_count }]
            m_battle_end_frame := 0, not_in_battle_count := 0, in_segment := false })) ∧
    ((slice_run skip_count pre s0).2.in_segment = true →
      (slice_run skip_count pre s0).2.m_clips ≠ []) ∧
    ((slice_run skip_count pre s0).2.in_segment = false →
      (slice_step skip_count i (some (opers, true)) (slice_run skip_count pre s0).2).2.m_clips =
        (slice_run skip_count pre s0).2.m_clips ∧
      (slice_step skip_count i (some (opers, true))
        (slice_run skip_count pre s0).2).2.in_segment = false) ∧
    (∀ s : SliceState,
      (slice_step skip_count i (some (opers, true)) s).2.m_clips.length = s.m_clips.length ∧
      (slice_step skip_count i (some (opers, true)) s).2.m_clips.map
          (fun c => (c.start_frame, c.deployment, c.cooling)) =
        s.m_clips.map (fun c => (c.start_frame, c.deployment, c.cooling))) := by
  have hpre : ∀ x ∈ pre, x.1 ≤ i - skip_count := by
    intro x hx
    have := chain_index_bound skip_count pre _ hchain x hx
    simp only at this
    omega
  have hbound := slice_run_open_bound skip_count pre (i - skip_count) s0
    (by
      intro h
      rw [hclosed] at h
      exact absurd h Bool.false_ne_true)
    hpre
  have hskip : ∀ x ∈ pre, skip_count ≤ i := by
    intro x hx
    have := chain_index_bound skip_count pre _ hchain x hx
    simp only at this
    omega
  have hpre_ne : (slice_run skip_count pre s0).2.in_segment = true → pre ≠ [] := by
    intro h hnil
    rw [hnil] at h
    simp only [slice_run] at h
    rw [hclosed] at h
    exact absurd h Bool.false_ne_true
  refine ⟨?_, ?_, ?_, ?_⟩
  · intro last hopen hlast
    obtain ⟨last2, hlast2, hle⟩ := hbound hopen
    rw [hlast] at hlast2
    simp only [Option.some.injEq] at hlast2
    subst hlast2
    obtain ⟨x, hx⟩ := List.exists_mem_of_ne_nil _ (hpre_ne hopen)
    have hsk := hskip x hx
    have hsub := size_sub_of_le i skip_count hsk hi
    refine ⟨by omega, hsub, hle, ?_⟩
    have hne : (slice_run skip_count pre s0).2.m_clips.isEmpty = false := by
      cases hc : (slice_run skip_count pre s0).2.m_clips with
      | nil => rw [hc] at hlast; simp at hlast
      | cons a l => rfl
    simp only [slice_step, hopen, hne, Bool.not_true, Bool.or_self, Bool.false_eq_true, if_false,
      if_true, hsub]
    rw [modify_back_of_getLast _ _ _ hlast]
  · intro hopen hnil
    obtain ⟨last, hlast, _⟩ := hbound hopen
    rw [hnil] at hlast
    simp at hlast
  · intro hcl
    simp [slice_step, hcl]
  · intro s
    unfold slice_step
    simp only [if_true]
    split
    · exact ⟨rfl, rfl⟩
    · exact ⟨modify_back_length _ _, modify_back_map_of_fixed _ _ _ (fun _ => rfl)⟩

/-- Witness of C20: a clip opened at frame 0 is open when the sample of frame 2 shows the
detail page, the sample step being 1. -/
theorem slice_step_overlay_witness :
    (slice_run 1 [(0, some (example_tray 2 0, false)), (1, some (example_tray 2 0, false))]
      (slice_init (example_slice_task 8))).2.in_segment = true ∧
    (slice_run 1 [(0, some (example_tray 2 0, false)), (1, some (example_tray 2 0, false))]
      (slice_init (example_slice_task 8))).2.m_clips ≠ [] ∧
    (slice_step 1 2 (some (example_tray 2 0, true))
      (slice_run 1 [(0, some (example_tray 2 0, false)), (1, some (example_tray 2 0, false))]
        (slice_init (example_slice_task 8))).2).2.m_clips =
      [{ example_open_clip 0 (example_tray 2 0) with end_frame := 1 }] :=
  ⟨by decide,
    (slice_step_overlay 1 (slice_init (example_slice_task 8))
      [(0, some (example_tray 2 0, false)), (1, some (example_tray 2 0, false))] 2
      (example_tray 2 0) (by decide) (by simp) (by decide)).2.1 (by decide),
    by decide⟩

/-! ## The recorded tray of a clip -/

theorem min_cooling_append (x : List DeploymentOper × Nat)
    (h : List (List DeploymentOper × Nat)) (y : List DeploymentOper × Nat) :
    min_cooling ((x :: h) ++ [y]) = min (min_cooling (x :: h)) y.2 := by
  simp [min_cooling, List.foldl_append]

theorem foldl_min_le (l : List (List DeploymentOper × Nat)) (m : Nat) :
    l.foldl (fun m y => min m y.2) m ≤ m ∧
    ∀ z ∈ l, l.foldl (fun m y => min m y.2) m ≤ z.2 := by
  induction l generalizing m with
  | nil => simp
  | cons a rest ih =>
    simp only [List.foldl_cons]
    obtain ⟨h1, h2⟩ := ih (min m a.2)
    refine ⟨by omega, ?_⟩
    intro z hz
    rcases List.mem_cons.1 hz with rfl | hz
    · omega
    · exact h2 z hz

theorem min_cooling_le (h : List (List DeploymentOper × Nat)) :
    ∀ z ∈ h, min_cooling h ≤ z.2 := by
  cases h with
  | nil => simp
  | cons x rest =>
    intro z hz
    unfold min_cooling
    obtain ⟨h1, h2⟩ := foldl_min_le rest x.2
    rcases List.mem_cons.1 hz with rfl | hz
    · exact h1
    · exact h2 z hz

theorem earliest_min_append (x : List DeploymentOper × Nat)
    (h : List (List DeploymentOper × Nat)) (y best : List DeploymentOper × Nat)
    (hbest : earliest_min (x :: h) = some best) :
    earliest_min ((x :: h) ++ [y]) =
      if y.2 < min_cooling (x :: h) then some y else some best := by
  have hbm : best.2 = min_cooling (x :: h) := by
    unfold earliest_min at hbest
    have := List.find?_some hbest
    simpa using this
  unfold earliest_min at hbest ⊢
  rw [min_cooling_append]
  by_cases hlt : y.2 < min_cooling (x :: h)
  · rw [if_pos hlt]
    have hmin : min (min_cooling (x :: h)) y.2 = y.2 := by omega
    rw [hmin, List.find?_append]
    have hnone : (x :: h).find? (fun z => decide (z.2 = y.2)) = none := by
      rw [List.find?_eq_none]
      intro z hz
      have := min_cooling_le (x :: h) z hz
      simp only [decide_eq_true_eq]
      omega
    rw [hnone]
    simp
  · rw [if_neg hlt]
    have hmin : min (min_cooling (x :: h)) y.2 = min_cooling (x :: h) := by omega
    rw [hmin, List.find?_append, hbest]
    simp

theorem slice_step_same_size (skip_count j : Nat) (base : List ClipInfo) (clip : ClipInfo)
    (opers : List DeploymentOper) (hlen : opers.length = clip.deployment.length) :
    slice_step skip_count j (some (opers, false)) (open_with base clip) =
      (false, open_with base
        (if count_cooling opers < clip.cooling then
          { clip with deployment := opers, cooling := count_cooling opers }
        else clip)) := by
  by_cases hlt : count_cooling opers < clip.cooling
  · simp only [slice_step, open_with, Bool.false_eq_true, if_false, Bool.not_true,
      List.getLast?_concat, hlen, ne_eq, not_true_eq_false, hlt, if_true]
    rw [modify_back_of_getLast _ _ _ (List.getLast?_concat _)]
    simp
  · simp only [slice_step, open_with, Bool.false_eq_true, if_false, Bool.not_true,
      List.getLast?_concat, hlen, ne_eq, not_true_eq_false, hlt]

theorem slice_run_same_size (skip_count : Nat) (base : List ClipInfo)
    (later : List (Nat × List DeploymentOper)) :
    ∀ (x : List DeploymentOper × Nat) (h : List (List DeploymentOper × Nat)) (clip : ClipInfo),
      (∀ y ∈ later, y.2.length = clip.deployment.length) →
      clip.cooling = min_cooling (x :: h) →
      earliest_min (x :: h) = some (clip.deployment, clip.cooling) →
      ∃ d1 c1,
        slice_run skip_count (later.map plain_sample) (open_with base clip) =
          (false, open_with base { clip with deployment := d1, cooling := c1 }) ∧
        d1.length = clip.deployment.length ∧
        c1 = min_cooling ((x :: h) ++ later.map (fun y => tray_sample y.2)) ∧
        earliest_min ((x :: h) ++ later.map (fun y => tray_sample y.2)) = some (d1, c1) := by
  induction later with
  | nil =>
    intro x h clip _ hc he
    exact ⟨clip.deployment, clip.cooling, rfl, rfl, by simpa using hc, by simpa using he⟩
  | cons y rest ih =>
    intro x h clip hsize hc he
    obtain ⟨j, opers⟩ := y
    have hlen : opers.length = clip.deployment.length := hsize (j, opers) (by simp)
    have hrest : ∀ z ∈ rest, z.2.length = clip.deployment.length :=
      fun z hz => hsize z (List.mem_cons_of_mem _ hz)
    have happ : (x :: h) ++ List.map (fun y => tray_sample y.2) ((j, opers) :: rest) =
        (x :: (h ++ [tray_sample opers])) ++ List.map (fun y => tray_sample y.2) rest := by
      simp
    have hmin := min_cooling_append x h (tray_sample opers)
    have hearly := earliest_min_append x h (tray_sample opers) (clip.deployment, clip.cooling) he
    simp only [List.cons_append] at hmin hearly
    have hmap : List.map plain_sample ((j, opers) :: rest) =
        (j, some (opers, false)) :: rest.map plain_sample := rfl
    rw [hmap]
    unfold slice_run
    rw [slice_step_same_size skip_count j base clip opers hlen]
    simp only [Bool.false_eq_true, if_false]
    by_cases hlt : count_cooling opers < clip.cooling
    · rw [if_pos hlt]
      obtain ⟨d1, c1, hrun, hl1, hc1, he1⟩ := ih x (h ++ [tray_sample opers])
        { clip with deployment := opers, cooling := count_cooling opers }
        (by simp only; rw [hlen]; exact hrest)
        (by
          simp only
          rw [hmin, ← hc]
          simp only [tray_sample]
          omega)
        (by
          simp only
          rw [hearly, ← hc]
          simp only [tray_sample, hlt, if_true])
      refine ⟨d1, c1, hrun, hl1.trans hlen, ?_, ?_⟩
      · rw [happ]
        exact hc1
      · rw [happ]
        exact he1
    · rw [if_neg hlt]
      obtain ⟨d1, c1, hrun, hl1, hc1, he1⟩ := ih x (h ++ [tray_sample opers]) clip hrest
        (by
          rw [hmin, ← hc]
          simp only [tray_sample]
          omega)
        (by
          rw [hearly, ← hc]
          simp only [tray_sample, hlt, if_false])
      refine ⟨d1, c1, hrun, hl1, ?_, ?_⟩
      · rw [happ]
        exact hc1
      · rw [happ]
        exact he1

theorem modify_back_getElem?_lt (clips : List ClipInfo) (f : ClipInfo → ClipInfo) (k : Nat)
    (hk : k + 1 < clips.length) : (modify_back clips f)[k]? = clips[k]? := by
  unfold modify_back
  cases h : clips.getLast? with
  | none => rfl
  | some last =>
    have hlt : k < clips.dropLast.length := by
      rw [List.length_dropLast]
      omega
    rw [List.getElem?_append_left hlt, List.dropLast_eq_take, List.getElem?_take]
    simp only [ite_eq_left_iff, not_lt]
    intro hcontra
    omega

theorem slice_step_frozen (skip_count i : Nat) (obs : Option (List DeploymentOper × Bool))
    (s : SliceState) (k : Nat) (clip : ClipInfo)
    (hk : s.m_clips[k]? = some clip)
    (hfrozen : k + 1 < s.m_clips.length ∨ s.in_segment = false) :
    (slice_step skip_count i obs s).2.m_clips[k]? = some clip ∧
    (k + 1 < (slice_step skip_count i obs s).2.m_clips.length ∨
      (slice_step skip_count i obs s).2.in_segment = false) := by
  have hklt : k < s.m_clips.length := by
    rcases List.getElem?_eq_some.1 hk with ⟨h, _⟩
    exact h
  have hmod : ∀ f : ClipInfo → ClipInfo, s.in_segment = true →
      (modify_back s.m_clips f)[k]? = some clip ∧
        k + 1 < (modify_back s.m_clips f).length := by
    intro f hopen
    have hlt : k + 1 < s.m_clips.length := by
      rcases hfrozen with h | h
      · exact h
      · rw [hopen] at h
        exact absurd h (by decide)
    exact ⟨by rw [modify_back_getElem?_lt _ _ _ hlt, hk], by rw [modify_back_length]; exact hlt⟩
  unfold slice_step
  cases obs with
  | none =>
    refine ⟨?_, Or.inr rfl⟩
    simp only
    split
    · rename_i hc
      simp only [Bool.and_eq_true] at hc
      exact (hmod _ hc.1).1
    · exact hk
  | some o =>
    obtain ⟨opers, detail⟩ := o
    simp only
    split
    · split
      · exact ⟨hk, hfrozen⟩
      · rename_i hc
        simp only [Bool.or_eq_true, Bool.not_eq_true', not_or, Bool.not_eq_false] at hc
        exact ⟨(hmod _ hc.1).1, Or.inr rfl⟩
    · split
      · refine ⟨?_, Or.inl ?_⟩
        · simp only
          rw [List.getElem?_append_left hklt]
          exact hk
        · simp only [List.length_append, List.length_singleton]
          omega
      · rename_i hseg
        have hopen : s.in_segment = true := by simpa using hseg
        split
        · exact ⟨hk, hfrozen⟩
        · split
          · exact ⟨(hmod _ hopen).1, Or.inr rfl⟩
          · split
            · exact ⟨(hmod _ hopen).1, Or.inl (hmod _ hopen).2⟩
            · exact ⟨hk, hfrozen⟩

theorem slice_run_frozen (skip_count : Nat)
    (samples : List (Nat × Option (List DeploymentOper × Bool))) (k : Nat) (clip : ClipInfo) :
    ∀ s : SliceState, s.m_clips[k]? = some clip →
      (k + 1 < s.m_clips.length ∨ s.in_segment = false) →
      (slice_run skip_count samples s).2.m_clips[k]? = some clip := by
  induction samples with
  | nil =>
    intro s hk _
    exact hk
  | cons x rest ih =>
    intro s hk hfrozen
    obtain ⟨i, obs⟩ := x
    obtain ⟨h1, h2⟩ := slice_step_frozen skip_count i obs s k clip hk hfrozen
    unfold slice_run
    split
    · exact h1
    · exact ih _ h1 h2

theorem slice_run_cons (skip_count i : Nat) (obs : Option (List DeploymentOper × Bool))
    (rest : List (Nat × Option (List DeploymentOper × Bool))) (s : SliceState) :
    slice_run skip_count ((i, obs) :: rest) s =
      if (slice_step skip_count i obs s).1 then (true, (slice_step skip_count i obs s).2)
      else slice_run skip_count rest (slice_step skip_count i obs s).2 :=
  rfl

theorem slice_run_append (skip_count : Nat)
    (l1 l2 : List (Nat × Option (List DeploymentOper × Bool))) :
    ∀ s : SliceState, (slice_run skip_count l1 s).1 = false →
      slice_run skip_count (l1 ++ l2) s = slice_run skip_count l2 (slice_run skip_count l1 s).2 := by
  induction l1 with
  | nil =>
    intro s _
    rfl
  | cons x rest ih =>
    intro s h
    obtain ⟨i, obs⟩ := x
    simp only [List.cons_append]
    rw [slice_run_cons] at h ⊢
    rw [slice_run_cons]
    by_cases hstop : (slice_step skip_count i obs s).1 = true
    · rw [if_pos hstop] at h
      exact absurd h (by simp)
    · rw [if_neg hstop] at h ⊢
      rw [if_neg hstop]
      exact ih _ h

theorem slice_step_closing (skip_count i : Nat) (obs : Option (List DeploymentOper × Bool))
    (base : List ClipInfo) (clip : ClipInfo)
    (hclose : ∀ opers, obs = some (opers, false) → opers.length ≠ clip.deployment.length) :
    ∃ clip1, (slice_step skip_count i obs (open_with base clip)).2.m_clips[base.length]? =
        some clip1 ∧
      clip1.start_frame = clip.start_frame ∧ clip1.deployment = clip.deployment ∧
      clip1.cooling = clip.cooling ∧
      (slice_step skip_count i obs (open_with base clip)).2.in_segment = false := by
  have hlast : (base ++ [clip]).getLast? = some clip := List.getLast?_concat _
  have hdrop : (base ++ [clip]).dropLast = base := by simp
  have hget : ∀ c : ClipInfo, (base ++ [c])[base.length]? = some c := by
    intro c
    simp
  have hemp : (base ++ [clip]).isEmpty = false := by
    cases base <;> rfl
  cases obs with
  | none =>
    refine ⟨{ clip with end_frame := i }, ?_, rfl, rfl, rfl, rfl⟩
    simp only [slice_step, open_with, hemp, Bool.not_false, Bool.and_self, if_true]
    rw [modify_back_of_getLast _ _ _ hlast, hdrop]
    exact hget _
  | some o =>
    obtain ⟨opers, detail⟩ := o
    cases detail with
    | true =>
      refine ⟨{ clip with end_frame := size_sub i skip_count }, ?_, rfl, rfl, rfl, ?_⟩
      · simp only [slice_step, open_with, if_true, Bool.not_true, hemp, Bool.or_self,
          Bool.false_eq_true, if_false]
        rw [modify_back_of_getLast _ _ _ hlast, hdrop]
        exact hget _
      · simp [slice_step, open_with, hemp]
    | false =>
      have hne := hclose opers rfl
      refine ⟨{ clip with end_frame := i }, ?_, rfl, rfl, rfl, ?_⟩
      · simp only [slice_step, open_with, Bool.false_eq_true, if_false, Bool.not_true, hlast,
          ne_eq, hne.symm, not_false_eq_true, if_true]
        rw [modify_back_of_getLast _ _ _ hlast, hdrop]
        exact hget _
      · simp [slice_step, open_with, hlast, hne.symm]

/-- C18: let a sample of index `i0` in battle and without overlay, with the tray `opers0`,
come while no clip is open, followed by samples in battle, without overlay and with trays of
the same size (`later`), and then by any samples (`rest`) of which the first, if any, is not
such a sample.  Then the clip opened at `i0` is the clip of index `s0.m_clips.length` of the
clip list, and whatever the samples of `rest`, its tray has the size of `opers0`, its cooling
count is the least cooling count over the opening sample and the samples of `later`, and its
tray and cooling count are those of the earliest of these samples with that least count. -/
theorem slice_clip_cooling (skip_count : Nat) (s0 : SliceState) (i0 : Nat)
    (opers0 : List DeploymentOper) (later : List (Nat × List DeploymentOper))
    (rest : List (Nat × Option (List DeploymentOper × Bool)))
    (hclosed : s0.in_segment = false)
    (hsize : ∀ y ∈ later, y.2.length = opers0.length)
    (hrest : ∀ j opers, rest.head? = some (j, some (opers, false)) →
      opers.length ≠ opers0.length) :
    ∃ clip : ClipInfo,
      (slice_run skip_count (plain_sample (i0, opers0) :: later.map plain_sample ++ rest)
        s0).2.m_clips[s0.m_clips.length]? = some clip ∧
      clip.start_frame = i0 ∧
      clip.deployment.length = opers0.length ∧
      clip.cooling =
        min_cooling (tray_sample opers0 :: later.map (fun y => tray_sample y.2)) ∧
      earliest_min (tray_sample opers0 :: later.map (fun y => tray_sample y.2)) =
        some (clip.deployment, clip.cooling) := by
  have hopen : slice_step skip_count i0 (some (opers0, false)) s0 =
      (false, open_with s0.m_clips (new_clip i0 opers0 (count_cooling opers0))) := by
    simp [slice_step, hclosed, open_with, new_clip]
  obtain ⟨d1, c1, hrun, hl1, hc1, he1⟩ := slice_run_same_size skip_count s0.m_clips later
    (tray_sample opers0) [] (new_clip i0 opers0 (count_cooling opers0)) hsize
    (by simp [min_cooling, tray_sample, new_clip])
    (by simp [earliest_min, min_cooling, tray_sample, new_clip])
  simp only [List.cons_append, List.nil_append] at hc1 he1
  have hclip : ({ new_clip i0 opers0 (count_cooling opers0) with
      deployment := d1, cooling := c1 } : ClipInfo) = new_clip i0 d1 c1 := rfl
  rw [hclip] at hrun
  have hl2 : d1.length = opers0.length := hl1
  have hstart : slice_run skip_count
      (plain_sample (i0, opers0) :: later.map plain_sample ++ rest) s0 =
      slice_run skip_count rest (open_with s0.m_clips (new_clip i0 d1 c1)) := by
    have hcons : plain_sample (i0, opers0) :: later.map plain_sample ++ rest =
        (i0, some (opers0, false)) :: (later.map plain_sample ++ rest) := rfl
    rw [hcons, slice_run_cons, hopen]
    simp only [Bool.false_eq_true, if_false]
    rw [slice_run_append _ _ _ _ (by rw [hrun]), hrun]
  rw [hstart]
  have hget : (open_with s0.m_clips (new_clip i0 d1 c1)).m_clips[s0.m_clips.length]? =
      some (new_clip i0 d1 c1) := by
    simp [open_with]
  cases rest with
  | nil =>
    exact ⟨_, hget, rfl, hl2, hc1, he1⟩
  | cons x rest2 =>
    obtain ⟨j, obs⟩ := x
    obtain ⟨clip1, hk, hs1, hd1, hcl1, hseg⟩ := slice_step_closing skip_count j obs s0.m_clips
      (new_clip i0 d1 c1)
      (by
        intro opers hobs
        have := hrest j opers (by simp [hobs])
        have hd : (new_clip i0 d1 c1).deployment.length = d1.length := rfl
        omega)
    refine ⟨clip1, ?_, hs1, by rw [hd1]; exact hl2, by rw [hcl1]; exact hc1,
      by rw [hd1, hcl1]; exact he1⟩
    rw [slice_run_cons]
    split
    · exact hk
    · exact slice_run_frozen skip_count rest2 _ clip1 _ hk (Or.inr hseg)

/-- Witness of C18: a clip is opened at frame 0 with a tray of 2 entries, 1 of them on
cooldown; the samples of frames 1 to 3 show 1, 0 and 0 entries on cooldown, and at frame 4 the
tray has 1 entry; the recorded tray is that of frame 2. -/
theorem slice_clip_cooling_witness :
    (∃ clip : ClipInfo,
      (slice_run 1
        (plain_sample (0, example_tray 2 1) ::
          [(1, example_tray 2 1), (2, example_tray 2 0), (3, example_tray 2 0)].map
            plain_sample ++
          [(4, some (example_tray 1 0, false))])
        (slice_init (example_slice_task 8))).2.m_clips[
          (slice_init (example_slice_task 8)).m_clips.length]? = some clip ∧
      clip.start_frame = 0 ∧
      clip.deployment.length = (example_tray 2 1).length ∧
      clip.cooling =
        min_cooling (tray_sample (example_tray 2 1) ::
          [(1, example_tray 2 1), (2, example_tray 2 0), (3, example_tray 2 0)].map
            (fun y => tray_sample y.2)) ∧
      earliest_min (tray_sample (example_tray 2 1) ::
          [(1, example_tray 2 1), (2, example_tray 2 0), (3, example_tray 2 0)].map
            (fun y => tray_sample y.2)) =
        some (clip.deployment, clip.cooling)) ∧
    (slice_run 1
      (plain_sample (0, example_tray 2 1) ::
        [(1, example_tray 2 1), (2, example_tray 2 0), (3, example_tray 2 0)].map
          plain_sample ++
        [(4, some (example_tray 1 0, false))])
      (slice_init (example_slice_task 8))).2.m_clips =
      [{ example_open_clip 0 (example_tray 2 0) with end_frame := 4 }] :=
  ⟨slice_clip_cooling 1 (slice_init (example_slice_task 8)) 0 (example_tray 2 1)
    [(1, example_tray 2 1), (2, example_tray 2 0), (3, example_tray 2 0)]
    [(4, some (example_tray 1 0, false))] (by decide) (by decide)
    (by
      intro j opers h
      simp only [List.head?_cons, Option.some.injEq, Prod.mk.injEq, and_true] at h
      rw [← h.2]
      decide),
    by decide⟩

/-! ## The fuel of the loops of the stage phase and of the slicing is enough -/

theorem analyze_stage_loop_fuel (env : Env) (skip_count : Nat) :
    ∀ (fuel1 fuel2 i : Nat) (t : Task),
      env.frames.length < fuel1 + t.pos → env.frames.length < fuel2 + t.pos →
      analyze_stage_loop env skip_count fuel1 i t =
        analyze_stage_loop env skip_count fuel2 i t := by
  intro fuel1
  induction fuel1 with
  | zero =>
    intro fuel2 i t h1 _
    cases fuel2 with
    | zero => rfl
    | succ f2 =>
      unfold analyze_stage_loop
      by_cases hi : i < t.m_video_frame_count
      · simp only [hi, if_true]
        rw [read_frame_none env t (by omega)]
        simp
      · simp [hi]
  | succ f1 ih =>
    intro fuel2 i t h1 h2
    cases fuel2 with
    | zero =>
      unfold analyze_stage_loop
      by_cases hi : i < t.m_video_frame_count
      · simp only [hi, if_true]
        rw [read_frame_none env t (by omega)]
        simp
      · simp [hi]
    | succ f2 =>
      unfold analyze_stage_loop
      by_cases hi : i < t.m_video_frame_count
      · simp only [hi, if_true]
        rcases hr : read_frame env t with ⟨f, t1⟩
        cases f with
        | none => rfl
        | some frame =>
          simp only
          have hp := read_frame_some_pos env t t1 frame hr
          have hs := skip_frames_pos_le env t1 skip_count
          cases env.stage_analyze frame with
          | none =>
            simp only
            split
            · rfl
            · exact ih f2 _ _ (by omega) (by omega)
          | some text =>
            simp only
            split
            · exact ih f2 _ _ (by omega) (by omega)
            · rfl
      · simp [hi]

theorem slice_video_loop_fuel (env : Env) (skip_count : Nat) :
    ∀ (fuel1 fuel2 i : Nat) (t : Task) (s : SliceState),
      env.frames.length < fuel1 + t.pos → env.frames.length < fuel2 + t.pos →
      slice_video_loop env skip_count fuel1 i t s =
        slice_video_loop env skip_count fuel2 i t s := by
  intro fuel1
  induction fuel1 with
  | zero =>
    intro fuel2 i t s h1 _
    cases fuel2 with
    | zero => rfl
    | succ f2 =>
      unfold slice_video_loop
      by_cases hi : i < t.m_video_frame_count
      · simp only [hi, if_true]
        rw [read_frame_none env t (by omega)]
        simp
      · simp [hi]
  | succ f1 ih =>
    intro fuel2 i t s h1 h2
    cases fuel2 with
    | zero =>
      unfold slice_video_loop
      by_cases hi : i < t.m_video_frame_count
      · simp only [hi, if_true]
        rw [read_frame_none env t (by omega)]
        simp
      · simp [hi]
    | succ f2 =>
      unfold slice_video_loop
      by_cases hi : i < t.m_video_frame_count
      · simp only [hi, if_true]
        rcases hr : read_frame env t with ⟨f, t1⟩
        cases f with
        | none => rfl
        | some frame =>
          simp only
          have hp := read_frame_some_pos env t t1 frame hr
          have hs := skip_frames_pos_le env t1 skip_count
          split
          · rfl
          · exact ih f2 _ _ _ (by omega) (by omega)
      · simp [hi]

/-! ## A clip still open when the slicing ends -/

theorem slice_step_open_span (skip_count i : Nat)
    (obs : Option (List DeploymentOper × Bool)) (s : SliceState)
    (h : s.in_segment = true →
      ∃ last, s.m_clips.getLast? = some last ∧ last.end_frame = last.start_frame) :
    (slice_step skip_count i obs s).2.in_segment = true →
      ∃ last, (slice_step skip_count i obs s).2.m_clips.getLast? = some last ∧
        last.end_frame = last.start_frame := by
  unfold slice_step
  cases obs with
  | none =>
    intro hopen
    exact absurd hopen Bool.false_ne_true
  | some o =>
    obtain ⟨opers, detail⟩ := o
    simp only
    split
    · split
      · exact h
      · intro hopen
        exact absurd hopen Bool.false_ne_true
    · split
      · intro _
        exact ⟨_, List.getLast?_concat _, rfl⟩
      · rename_i hseg
        have hopen : s.in_segment = true := by simpa using hseg
        obtain ⟨last, hlast, heq⟩ := h hopen
        rw [hlast]
        simp only
        split
        · intro hopen2
          exact absurd hopen2 Bool.false_ne_true
        · split
          · intro _
            rw [modify_back_of_getLast _ _ _ hlast]
            exact ⟨_, List.getLast?_concat _, heq⟩
          · intro _
            exact ⟨last, hlast, heq⟩

theorem slice_run_open_span (skip_count : Nat)
    (samples : List (Nat × Option (List DeploymentOper × Bool))) :
    ∀ s : SliceState,
      (s.in_segment = true →
        ∃ last, s.m_clips.getLast? = some last ∧ last.end_frame = last.start_frame) →
      (slice_run skip_count samples s).2.in_segment = true →
        ∃ last, (slice_run skip_count samples s).2.m_clips.getLast? = some last ∧
          last.end_frame = last.start_frame := by
  induction samples with
  | nil =>
    intro s h
    exact h
  | cons x rest ih =>
    intro s h
    obtain ⟨i, obs⟩ := x
    have hstep := slice_step_open_span skip_count i obs s h
    unfold slice_run
    split
    · exact hstep
    · exact ih _ hstep

theorem analyze_all_clips_loop_degenerate (env : Env) (clip : ClipInfo)
    (hspan : clip.start_frame ≥ clip.end_frame) (rest kept : List ClipInfo) (t : Task)
    (calls : List (ClipInfo × Option ClipInfo)) :
    (analyze_all_clips_loop env (rest ++ [clip]) kept t calls).outcome =
      (analyze_all_clips_loop env rest kept t calls).outcome ∧
    (analyze_all_clips_loop env (rest ++ [clip]) kept t calls).task =
      (analyze_all_clips_loop env rest kept t calls).task ∧
    (analyze_all_clips_loop env (rest ++ [clip]) kept t calls).kept =
      (analyze_all_clips_loop env rest kept t calls).kept ∧
    (analyze_all_clips_loop env (rest ++ [clip]) kept t calls).calls =
      (analyze_all_clips_loop env rest kept t calls).calls ∧
    ((analyze_all_clips_loop env rest kept t calls).outcome ≠ Outcome.thrown →
      (analyze_all_clips_loop env (rest ++ [clip]) kept t calls).rest = []) := by
  induction rest generalizing kept t calls with
  | nil =>
    have hdrop : (!deployment_changed clip kept.getLast? ||
        decide (clip.start_frame ≥ clip.end_frame)) = true := by
      simp [hspan]
    simp only [List.nil_append]
    unfold analyze_all_clips_loop
    simp only [hdrop, if_true]
    unfold analyze_all_clips_loop
    simp
  | cons c rest ih =>
    simp only [List.cons_append]
    unfold analyze_all_clips_loop
    by_cases hdrop : (!deployment_changed c kept.getLast? ||
        decide (c.start_frame ≥ c.end_frame)) = true
    · simp only [hdrop, if_true]
      exact ih kept t calls
    · simp only [hdrop, if_false, Bool.false_eq_true]
      rcases analyze_clip env t c kept.getLast? with ⟨o, t1, clip1, pre1⟩
      cases o with
      | thrown => simp
      | ret b =>
        simp only
        exact ih _ _ _

/-- C24: when the loop of `slice_video` ends with a clip still open and the function returns
true (the loop was then left neither by `break` nor on an empty frame, both of which leave no
clip open), the open clip is the last clip of the list and has `end_frame = start_frame`.  The
clean-up of `analyze_all_clips` run next gives the same outcome, the same calls of
`analyze_clip` and the same action list as its loop run on the clips before that clip alone:
the clip is handed to no call of `analyze_clip`, and when the function returns the clip list
left is the list left from the clips before it, in which the clip does not occur. -/
theorem slice_video_open_clip_dropped (env : Env) (skip_count : Nat) (t t1 : Task)
    (s : SliceState)
    (hloop : slice_video_loop env skip_count (env.frames.length + 1) t.m_battle_start_frame t
      (slice_init t) = (true, t1, s))
    (hopen : s.in_segment = true) :
    ∃ base clip,
      (slice_video env skip_count t).1 = true ∧
      (slice_video env skip_count t).2.m_clips = base ++ [clip] ∧
      clip.end_frame = clip.start_frame ∧
      (analyze_all_clips env (slice_video env skip_count t).2).1 =
        (analyze_all_clips_loop env base [] (slice_video env skip_count t).2 []).outcome ∧
      (analyze_all_clips env (slice_video env skip_count t).2).2.2 =
        (analyze_all_clips_loop env base [] (slice_video env skip_count t).2 []).calls ∧
      (analyze_all_clips env (slice_video env skip_count t).2).2.1.actions =
        (analyze_all_clips_loop env base [] (slice_video env skip_count t).2 []).task.actions ∧
      (∀ x ∈ (analyze_all_clips env (slice_video env skip_count t).2).2.2, x.1 ≠ clip) ∧
      ((analyze_all_clips env (slice_video env skip_count t).2).1 ≠ Outcome.thrown →
        (analyze_all_clips env (slice_video env skip_count t).2).2.1.m_clips =
          (analyze_all_clips_loop env base [] (slice_video env skip_count t).2 []).kept ∧
        clip ∉ (analyze_all_clips env (slice_video env skip_count t).2).2.1.m_clips) := by
  have hs : s = (slice_run skip_count (slice_samples env skip_count t) (slice_init t)).2 := by
    have h := slice_video_loop_run env skip_count (env.frames.length + 1) t.m_battle_start_frame t
      (slice_init t)
    rw [hloop] at h
    exact h
  have hlast : ∃ last, s.m_clips.getLast? = some last ∧ last.end_frame = last.start_frame := by
    rw [hs] at hopen ⊢
    exact slice_run_open_span skip_count _ (slice_init t)
      (fun h => absurd h Bool.false_ne_true) hopen
  obtain ⟨clip, hclip, hspan⟩ := hlast
  have hne : s.m_clips ≠ [] := by
    intro hn
    rw [hn] at hclip
    simp at hclip
  have hsplit : s.m_clips = s.m_clips.dropLast ++ [clip] := by
    have hl : s.m_clips.getLast hne = clip := by
      rw [List.getLast?_eq_getLast _ hne] at hclip
      exact Option.some.inj hclip
    conv_lhs => rw [← List.dropLast_append_getLast hne, hl]
  have hflag : (slice_video env skip_count t).1 = true := by
    unfold slice_video
    simp only
    rw [hloop]
  have hclips : (slice_video env skip_count t).2.m_clips = s.m_clips.dropLast ++ [clip] := by
    unfold slice_video
    simp only
    rw [hloop]
    exact hsplit
  obtain ⟨d1, d2, d3, d4, d5⟩ := analyze_all_clips_loop_degenerate env clip (by omega)
    s.m_clips.dropLast [] (slice_video env skip_count t).2 []
  obtain ⟨k1, k2, _⟩ := analyze_all_clips_loop_span env (s.m_clips.dropLast ++ [clip]) []
    (slice_video env skip_count t).2 [] (by simp) (by simp)
  have hcalls : ∀ x ∈ (analyze_all_clips env (slice_video env skip_count t).2).2.2,
      x.1 ≠ clip := by
    intro x hx hxc
    unfold analyze_all_clips at hx
    simp only at hx
    rw [hclips] at hx
    have := k2 x hx
    rw [hxc] at this
    omega
  refine ⟨s.m_clips.dropLast, clip, hflag, hclips, hspan, ?_, ?_, ?_, hcalls, ?_⟩
  · unfold analyze_all_clips
    simp only
    rw [hclips]
    exact d1
  · unfold analyze_all_clips
    simp only
    rw [hclips]
    exact d4
  · unfold analyze_all_clips
    simp only
    rw [hclips, d2]
  · intro hret
    have hret2 : (analyze_all_clips_loop env s.m_clips.dropLast []
        (slice_video env skip_count t).2 []).outcome ≠ Outcome.thrown := by
      rw [← d1]
      unfold analyze_all_clips at hret
      simp only at hret
      rw [hclips] at hret
      exact hret
    have hm : (analyze_all_clips env (slice_video env skip_count t).2).2.1.m_clips =
        (analyze_all_clips_loop env s.m_clips.dropLast []
          (slice_video env skip_count t).2 []).kept := by
      unfold analyze_all_clips
      simp only
      rw [hclips, d5 hret2, List.append_nil, d3]
    refine ⟨hm, ?_⟩
    intro hmem
    rw [hm, ← d3] at hmem
    have := k1 clip hmem
    omega

/-- Witness of C24: in the slicing example of 7 frames the tray shrinks at frame 5, which
closes the first clip, and frame 6 opens a second clip that is still open when the video
ends. -/
theorem slice_video_open_clip_dropped_witness :
    (slice_video (example_slice_env 7 (fun _ => 0)) 1 (example_slice_task 7)).2.m_clips =
      [{ example_open_clip 0 (example_tray 2 0) with end_frame := 5 },
        example_open_clip 6 (example_tray 1 0)] ∧
    (analyze_all_clips (example_slice_env 7 (fun _ => 0))
        (slice_video (example_slice_env 7 (fun _ => 0)) 1 (example_slice_task 7)).2).2.2 =
      [({ example_open_clip 0 (example_tray 2 0) with end_frame := 5 }, none)] ∧
    ∃ base clip,
      (slice_video (example_slice_env 7 (fun _ => 0)) 1 (example_slice_task 7)).1 = true ∧
      (slice_video (example_slice_env 7 (fun _ => 0)) 1 (example_slice_task 7)).2.m_clips =
        base ++ [clip] ∧
      clip.end_frame = clip.start_frame ∧
      (analyze_all_clips (example_slice_env 7 (fun _ => 0))
          (slice_video (example_slice_env 7 (fun _ => 0)) 1 (example_slice_task 7)).2).1 =
        (analyze_all_clips_loop (example_slice_env 7 (fun _ => 0)) base []
          (slice_video (example_slice_env 7 (fun _ => 0)) 1 (example_slice_task 7)).2 []).outcome ∧
      (analyze_all_clips (example_slice_env 7 (fun _ => 0))
          (slice_video (example_slice_env 7 (fun _ => 0)) 1 (example_slice_task 7)).2).2.2 =
        (analyze_all_clips_loop (example_slice_env 7 (fun _ => 0)) base []
          (slice_video (example_slice_env 7 (fun _ => 0)) 1 (example_slice_task 7)).2 []).calls ∧
      (analyze_all_clips (example_slice_env 7 (fun _ => 0))
          (slice_video (example_slice_env 7 (fun _ => 0)) 1
            (example_slice_task 7)).2).2.1.actions =
        (analyze_all_clips_loop (example_slice_env 7 (fun _ => 0)) base []
          (slice_video (example_slice_env 7 (fun _ => 0)) 1
            (example_slice_task 7)).2 []).task.actions ∧
      (∀ x ∈ (analyze_all_clips (example_slice_env 7 (fun _ => 0))
          (slice_video (example_slice_env 7 (fun _ => 0)) 1 (example_slice_task 7)).2).2.2,
        x.1 ≠ clip) ∧
      ((analyze_all_clips (example_slice_env 7 (fun _ => 0))
          (slice_video (example_slice_env 7 (fun _ => 0)) 1 (example_slice_task 7)).2).1 ≠
          Outcome.thrown →
        (analyze_all_clips (example_slice_env 7 (fun _ => 0))
            (slice_video (example_slice_env 7 (fun _ => 0)) 1
              (example_slice_task 7)).2).2.1.m_clips =
          (analyze_all_clips_loop (example_slice_env 7 (fun _ => 0)) base []
            (slice_video (example_slice_env 7 (fun _ => 0)) 1
              (example_slice_task 7)).2 []).kept ∧
        clip ∉ (analyze_all_clips (example_slice_env 7 (fun _ => 0))
          (slice_video (example_slice_env 7 (fun _ => 0)) 1
            (example_slice_task 7)).2).2.1.m_clips) :=
  ⟨by decide, by decide,
    slice_video_open_clip_dropped (example_slice_env 7 (fun _ => 0)) 1 (example_slice_task 7)
      (slice_video_loop (example_slice_env 7 (fun _ => 0)) 1 8 0 (example_slice_task 7)
        (slice_init (example_slice_task 7))).2.1
      (slice_video_loop (example_slice_env 7 (fun _ => 0)) 1 8 0 (example_slice_task 7)
        (slice_init (example_slice_task 7))).2.2
      (by decide) (by decide)⟩

/-! ## Order of the clips made by `slice_video` -/

theorem slice_run_append_stop (skip_count : Nat)
    (l1 l2 : List (Nat × Option (List DeploymentOper × Bool))) :
    ∀ s : SliceState,
      slice_run skip_count (l1 ++ l2) s =
        if (slice_run skip_count l1 s).1 then slice_run skip_count l1 s
        else slice_run skip_count l2 (slice_run skip_count l1 s).2 := by
  induction l1 with
  | nil =>
    intro s
    simp [slice_run]
  | cons x rest ih =>
    intro s
    obtain ⟨i, obs⟩ := x
    simp only [List.cons_append]
    rw [slice_run_cons, slice_run_cons]
    by_cases hstop : (slice_step skip_count i obs s).1 = true
    · simp [hstop]
    · rw [if_neg hstop, if_neg hstop]
      exact ih _

theorem split_last (clips : List ClipInfo) (last : ClipInfo)
    (h : clips.getLast? = some last) : clips = clips.dropLast ++ [last] := by
  have hne : clips ≠ [] := by
    intro hn
    rw [hn] at h
    simp at h
  have hl : clips.getLast hne = last := by
    rw [List.getLast?_eq_getLast _ hne] at h
    exact Option.some.inj h
  conv_lhs => rw [← List.dropLast_append_getLast hne, hl]

theorem clips_ordered_concat (d : List ClipInfo) (c : ClipInfo) (m : Nat)
    (hord : clips_ordered d) (hend : ∀ x ∈ d, x.end_frame < m)
    (hstart : m ≤ c.start_frame) (hspan : c.start_frame ≤ c.end_frame) :
    clips_ordered (d ++ [c]) := by
  refine ⟨?_, ?_⟩
  · intro x hx
    rcases List.mem_append.1 hx with hx | hx
    · exact hord.1 x hx
    · rw [List.mem_singleton] at hx
      rw [hx]
      exact hspan
  · rw [List.chain'_append]
    refine ⟨hord.2, List.chain'_singleton _, ?_⟩
    intro x hx y hy
    simp only [List.head?_cons, Option.mem_def, Option.some.injEq] at hy
    subst hy
    have hmem : x ∈ d := List.mem_of_mem_getLast? hx
    have := hend x hmem
    omega

theorem modify_back_ordered (clips : List ClipInfo) (f : ClipInfo → ClipInfo)
    (last : ClipInfo) (hlast : clips.getLast? = some last)
    (hstart : (f last).start_frame = last.start_frame)
    (hspan : (f last).start_frame ≤ (f last).end_frame)
    (hord : clips_ordered clips) :
    clips_ordered (modify_back clips f) ∧
    ∀ c ∈ modify_back clips f, c ∈ clips ∨ c = f last := by
  have hsplit := split_last clips last hlast
  rw [modify_back_of_getLast _ _ _ hlast]
  rw [hsplit] at hord
  obtain ⟨h1, h2⟩ := hord
  rw [List.chain'_append] at h2
  obtain ⟨hc1, _, hc3⟩ := h2
  refine ⟨⟨?_, ?_⟩, ?_⟩
  · intro x hx
    rcases List.mem_append.1 hx with hx | hx
    · exact h1 x (List.mem_append_left _ hx)
    · rw [List.mem_singleton] at hx
      rw [hx]
      exact hspan
  · rw [List.chain'_append]
    refine ⟨hc1, List.chain'_singleton _, ?_⟩
    intro x hx y hy
    simp only [List.head?_cons, Option.mem_def, Option.some.injEq] at hy
    subst hy
    have := hc3 x hx last (by simp)
    rw [hstart]
    exact this
  · intro c hc
    rcases List.mem_append.1 hc with hc | hc
    · exact Or.inl (List.mem_of_mem_dropLast hc)
    · rw [List.mem_singleton] at hc
      exact Or.inr hc

theorem slice_step_ordered (skip_count i : Nat) (obs : Option (List DeploymentOper × Bool))
    (s : SliceState) (hskip : 0 < skip_count) (hi : i < SIZE_MOD)
    (hord : clips_ordered s.m_clips)
    (hend : ∀ c ∈ s.m_clips, c.end_frame < i)
    (hopen : s.in_segment = true →
      ∃ last, s.m_clips.getLast? = some last ∧ last.start_frame + skip_count ≤ i) :
    clips_ordered (slice_step skip_count i obs s).2.m_clips ∧
    (∀ c ∈ (slice_step skip_count i obs s).2.m_clips, c.end_frame < i + skip_count) ∧
    ((slice_step skip_count i obs s).2.in_segment = true →
      ∃ last, (slice_step skip_count i obs s).2.m_clips.getLast? = some last ∧
        last.start_frame + skip_count ≤ i + skip_count) := by
  have hkeep : ∀ c ∈ s.m_clips, c.end_frame < i + skip_count := by
    intro c hc
    have := hend c hc
    omega
  have hkeep_open : s.in_segment = true →
      ∃ last, s.m_clips.getLast? = some last ∧ last.start_frame + skip_count ≤ i + skip_count := by
    intro h
    obtain ⟨last, h1, h2⟩ := hopen h
    exact ⟨last, h1, by omega⟩
  have hmod : ∀ f : ClipInfo → ClipInfo, s.in_segment = true →
      (∀ last, last.start_frame + skip_count ≤ i → last.start_frame ≤ last.end_frame →
        last.end_frame < i →
        (f last).start_frame = last.start_frame ∧ (f last).start_frame ≤ (f last).end_frame ∧
        (f last).end_frame < i + skip_count) →
      clips_ordered (modify_back s.m_clips f) ∧
      (∀ c ∈ modify_back s.m_clips f, c.end_frame < i + skip_count) ∧
      ∃ last, (modify_back s.m_clips f).getLast? = some last ∧
        last.start_frame + skip_count ≤ i + skip_count := by
    intro f hseg hf
    obtain ⟨last, hlast, hle⟩ := hopen hseg
    have hmem : last ∈ s.m_clips := List.mem_of_mem_getLast? hlast
    obtain ⟨f1, f2, f3⟩ := hf last hle (hord.1 last hmem) (hend last hmem)
    obtain ⟨m1, m2⟩ := modify_back_ordered s.m_clips f last hlast f1 f2 hord
    refine ⟨m1, ?_, ?_⟩
    · intro c hc
      rcases m2 c hc with h | h
      · exact hkeep c h
      · rw [h]
        exact f3
    · rw [modify_back_of_getLast _ _ _ hlast]
      refine ⟨_, List.getLast?_concat _, ?_⟩
      rw [f1]
      omega
  unfold slice_step
  cases obs with
  | none =>
    simp only
    split
    · rename_i hc
      simp only [Bool.and_eq_true] at hc
      obtain ⟨m1, m2, _⟩ := hmod (fun c => { c with end_frame := i }) hc.1
        (fun last hle _ _ => ⟨rfl, by simp only; omega, by simp only; omega⟩)
      exact ⟨m1, m2, fun h => absurd h Bool.false_ne_true⟩
    · exact ⟨hord, hkeep, fun h => absurd h Bool.false_ne_true⟩
  | some o =>
    obtain ⟨opers, detail⟩ := o
    simp only
    split
    · split
      · exact ⟨hord, hkeep, hkeep_open⟩
      · rename_i hc
        simp only [Bool.or_eq_true, Bool.not_eq_true', not_or, Bool.not_eq_false] at hc
        obtain ⟨m1, m2, _⟩ := hmod (fun c => { c with end_frame := size_sub i skip_count }) hc.1
          (fun last hle _ _ => by
            have hsub := size_sub_of_le i skip_count (by omega) hi
            refine ⟨rfl, ?_, ?_⟩
            · show last.start_frame ≤ size_sub i skip_count
              rw [hsub]
              omega
            · show size_sub i skip_count < i + skip_count
              rw [hsub]
              omega)
        exact ⟨m1, m2, fun h => absurd h Bool.false_ne_true⟩
    · split
      · refine ⟨?_, ?_, ?_⟩
        · exact clips_ordered_concat s.m_clips _ i hord hend (le_refl _) (le_refl _)
        · intro c hc
          simp only at hc
          rcases List.mem_append.1 hc with hc | hc
          · exact hkeep c hc
          · rw [List.mem_singleton] at hc
            rw [hc]
            simp only
            omega
        · intro _
          exact ⟨_, List.getLast?_concat _, le_refl _⟩
      · rename_i hseg
        have hseg2 : s.in_segment = true := by simpa using hseg
        split
        · exact ⟨hord, hkeep, hkeep_open⟩
        · split
          · obtain ⟨m1, m2, _⟩ := hmod (fun c => { c with end_frame := i }) hseg2
              (fun last hle _ _ => ⟨rfl, by simp only; omega, by simp only; omega⟩)
            exact ⟨m1, m2, fun h => absurd h Bool.false_ne_true⟩
          · split
            · obtain ⟨m1, m2, m3⟩ := hmod
                (fun c => { c with deployment := opers, cooling := count_cooling opers }) hseg2
                (fun last hle hsp hlt => ⟨rfl, hsp, by simp only; omega⟩)
              exact ⟨m1, m2, fun _ => m3⟩
            · exact ⟨hord, hkeep, hkeep_open⟩

theorem slice_run_ordered (skip_count : Nat) (hskip : 0 < skip_count)
    (samples : List (Nat × Option (List DeploymentOper × Bool))) :
    ∀ (i : Nat) (s : SliceState),
      List.Chain' (fun a b => b.1 = a.1 + skip_count) samples →
      (∀ x, samples.head? = some x → x.1 = i) →
      (∀ x ∈ samples, x.1 < SIZE_MOD) →
      clips_ordered s.m_clips →
      (∀ c ∈ s.m_clips, c.end_frame < i) →
      (s.in_segment = true →
        ∃ last, s.m_clips.getLast? = some last ∧ last.start_frame + skip_count ≤ i) →
      clips_ordered (slice_run skip_count samples s).2.m_clips := by
  induction samples with
  | nil =>
    intro i s _ _ _ hord _ _
    exact hord
  | cons x rest ih =>
    intro i s hchain hhead hlt hord hend hopen
    obtain ⟨j, obs⟩ := x
    have hj : j = i := hhead (j, obs) rfl
    subst hj
    obtain ⟨s1, s2, s3⟩ := slice_step_ordered skip_count j obs s hskip
      (hlt (j, obs) (List.mem_cons_self _ _)) hord hend hopen
    rw [slice_run_cons]
    split
    · exact s1
    · rw [List.chain'_cons'] at hchain
      exact ih (j + skip_count) _ hchain.2 (fun y hy => hchain.1 y hy)
        (fun y hy => hlt y (List.mem_cons_of_mem _ hy)) s1 s2 s3

theorem slice_samples_loop_lt (env : Env) (skip_count : Nat) :
    ∀ (fuel i : Nat) (t : Task) (s : SliceState),
      ∀ x ∈ slice_samples_loop env skip_count fuel i t s, x.1 < t.m_video_frame_count := by
  intro fuel
  induction fuel with
  | zero =>
    intro i t s
    simp [slice_samples_loop]
  | succ fuel ih =>
    intro i t s
    unfold slice_samples_loop
    by_cases hi : i < t.m_video_frame_count
    · simp only [hi, if_true]
      have hr := read_frame_fixed env t
      rcases hrf : read_frame env t with ⟨f, t1⟩
      rw [hrf] at hr
      simp only at hr
      cases f with
      | none => simp
      | some frame =>
        simp only
        by_cases hstop : (slice_step skip_count i (env.slice_analyze frame) s).1 = true
        · simp only [hstop, if_true]
          intro x hx
          rw [List.mem_singleton] at hx
          rw [hx]
          exact hi
        · simp only [hstop, if_false, Bool.false_eq_true]
          have hcount : (skip_frames env t1 skip_count).2.m_video_frame_count =
              t.m_video_frame_count :=
            (frame_count_of_fixed t1 _ (skip_frames_fixed env t1 skip_count)).trans
              (frame_count_of_fixed t t1 hr)
          intro x hx
          rcases List.mem_cons.1 hx with hx | hx
          · rw [hx]
            exact hi
          · have := ih _ _ _ x hx
            rw [hcount] at this
            exact this
    · simp [hi]

/-- C23: let `slice_video` start from an empty clip list, with a positive sample step and a
frame count that the sample index cannot overrun.  After every iteration of its loop (the
state reached over any initial part `pre` of the samples it processes) the clip list is
ordered: every clip has `start_frame ≤ end_frame` and every clip ends strictly before the
next one starts.  A clip that is closed at that point, which every clip but the last is and
the last is too unless a segment is open, is the same clip after any further iterations and
in the clip list that `slice_video` leaves.  The clip list left is ordered. -/
theorem slice_video_clips_ordered (env : Env) (skip_count : Nat) (t : Task)
    (hskip : 0 < skip_count) (hempty : t.m_clips = [])
    (hsize : t.m_video_frame_count + skip_count ≤ SIZE_MOD) :
    (∀ pre post, slice_samples env skip_count t = pre ++ post →
      clips_ordered (slice_run skip_count pre (slice_init t)).2.m_clips ∧
      ∀ k clip, (slice_run skip_count pre (slice_init t)).2.m_clips[k]? = some clip →
        (k + 1 < (slice_run skip_count pre (slice_init t)).2.m_clips.length ∨
          (slice_run skip_count pre (slice_init t)).2.in_segment = false) →
        (∀ more, (slice_run skip_count (pre ++ more) (slice_init t)).2.m_clips[k]? =
          some clip) ∧
        (slice_video env skip_count t).2.m_clips[k]? = some clip) ∧
    clips_ordered (slice_video env skip_count t).2.m_clips := by
  obtain ⟨hchain, hhead⟩ := slice_samples_loop_chain env skip_count (env.frames.length + 1)
    t.m_battle_start_frame t (slice_init t) hsize
  have hlt : ∀ x ∈ slice_samples env skip_count t, x.1 < SIZE_MOD := by
    intro x hx
    have := slice_samples_loop_lt env skip_count _ _ _ _ x hx
    omega
  have hinit : clips_ordered (slice_init t).m_clips := by
    simp only [slice_init, hempty]
    exact ⟨by simp, List.chain'_nil⟩
  have hend : ∀ c ∈ (slice_init t).m_clips, c.end_frame < t.m_battle_start_frame := by
    simp [slice_init, hempty]
  have hclosed : (slice_init t).in_segment = true →
      ∃ last, (slice_init t).m_clips.getLast? = some last ∧
        last.start_frame + skip_count ≤ t.m_battle_start_frame :=
    fun h => absurd h Bool.false_ne_true
  have hfrozen : ∀ (pre more : List (Nat × Option (List DeploymentOper × Bool))) (k : Nat)
      (clip : ClipInfo),
      (slice_run skip_count pre (slice_init t)).2.m_clips[k]? = some clip →
      (k + 1 < (slice_run skip_count pre (slice_init t)).2.m_clips.length ∨
        (slice_run skip_count pre (slice_init t)).2.in_segment = false) →
      (slice_run skip_count (pre ++ more) (slice_init t)).2.m_clips[k]? = some clip := by
    intro pre more k clip hk hcl
    rw [slice_run_append_stop]
    split
    · exact hk
    · exact slice_run_frozen skip_count more k clip _ hk hcl
  refine ⟨?_, ?_⟩
  · intro pre post hsplit
    have hchain2 : List.Chain' (fun a b => b.1 = a.1 + skip_count) (pre ++ post) := by
      rw [← hsplit]
      exact hchain
    refine ⟨?_, ?_⟩
    · apply slice_run_ordered skip_count hskip pre t.m_battle_start_frame (slice_init t)
        (List.Chain'.left_of_append hchain2) ?_ ?_ hinit hend hclosed
      · intro x hx
        apply hhead x
        show (slice_samples env skip_count t).head? = some x
        rw [hsplit]
        cases pre with
        | nil => simp at hx
        | cons a l =>
          simp only [List.head?_cons] at hx
          simp [hx]
      · intro x hx
        apply hlt
        rw [hsplit]
        exact List.mem_append_left _ hx
    · intro k clip hk hcl
      refine ⟨fun more => hfrozen pre more k clip hk hcl, ?_⟩
      rw [slice_video_clips, hsplit]
      exact hfrozen pre post k clip hk hcl
  · rw [slice_video_clips]
    exact slice_run_ordered skip_count hskip _ t.m_battle_start_frame (slice_init t) hchain
      hhead hlt hinit hend hclosed

/-- Witness of C23: the slicing example of 8 frames, sampled with step 1, leaves the two
clips of frames 0 to 5 and of frame 6; after the first six samples the first clip is closed. -/
theorem slice_video_clips_ordered_witness :
    (slice_video (example_slice_env 8 (fun _ => 0)) 1 (example_slice_task 8)).2.m_clips =
      [{ example_open_clip 0 (example_tray 2 0) with end_frame := 5 },
        example_open_clip 6 (example_tray 1 0)] ∧
    (∀ pre post, slice_samples (example_slice_env 8 (fun _ => 0)) 1 (example_slice_task 8) =
        pre ++ post →
      clips_ordered (slice_run 1 pre (slice_init (example_slice_task 8))).2.m_clips ∧
      ∀ k clip, (slice_run 1 pre (slice_init (example_slice_task 8))).2.m_clips[k]? =
          some clip →
        (k + 1 < (slice_run 1 pre (slice_init (example_slice_task 8))).2.m_clips.length ∨
          (slice_run 1 pre (slice_init (example_slice_task 8))).2.in_segment = false) →
        (∀ more, (slice_run 1 (pre ++ more) (slice_init (example_slice_task 8))).2.m_clips[k]? =
          some clip) ∧
        (slice_video (example_slice_env 8 (fun _ => 0)) 1
          (example_slice_task 8)).2.m_clips[k]? = some clip) ∧
    clips_ordered
      (slice_video (example_slice_env 8 (fun _ => 0)) 1 (example_slice_task 8)).2.m_clips :=
  ⟨by decide,
    (slice_video_clips_ordered (example_slice_env 8 (fun _ => 0)) 1 (example_slice_task 8)
      (by decide) (by decide) (by decide)).1,
    (slice_video_clips_ordered (example_slice_env 8 (fun _ => 0)) 1 (example_slice_task 8)
      (by decide) (by decide) (by decide)).2⟩

/-! ## The frame index handed from one phase to the next -/

theorem analyze_deployment_loop_fuel (env : Env) (skip_count : Nat) :
    ∀ (fuel1 fuel2 i : Nat) (t : Task) (opers : List DeploymentOper),
      env.frames.length < fuel1 + t.pos → env.frames.length < fuel2 + t.pos →
      analyze_deployment_loop env skip_count fuel1 i t opers =
        analyze_deployment_loop env skip_count fuel2 i t opers := by
  intro fuel1
  induction fuel1 with
  | zero =>
    intro fuel2 i t opers h1 _
    cases fuel2 with
    | zero => rfl
    | succ f2 =>
      unfold analyze_deployment_loop
      by_cases hi : i < t.m_video_frame_count
      · simp only [hi, if_true]
        rw [read_frame_none env t (by omega)]
        simp
      · simp [hi]
  | succ f1 ih =>
    intro fuel2 i t opers h1 h2
    cases fuel2 with
    | zero =>
      unfold analyze_deployment_loop
      by_cases hi : i < t.m_video_frame_count
      · simp only [hi, if_true]
        rw [read_frame_none env t (by omega)]
        simp
      · simp [hi]
    | succ f2 =>
      unfold analyze_deployment_loop
      by_cases hi : i < t.m_video_frame_count
      · simp only [hi, if_true]
        rcases hr : read_frame env t with ⟨f, t1⟩
        cases f with
        | none => rfl
        | some frame =>
          simp only
          have hp := read_frame_some_pos env t t1 frame hr
          have hs := skip_frames_pos_le env t1 skip_count
          split
          · rfl
          · exact ih f2 _ _ _ (by omega) (by omega)
      · simp [hi]

/-- C22, the behaviour of the code: on a recording whose frame `k` is the image `k`, sampled
with step 1 in every phase, the roster loop stops at index 6 after reading frame 6, which
leaves the cursor at 7 while the index handed over is 6.  The stage loop therefore reads
frame 7 at its index 6 and stores 7 as `m_stage_ocr_end_frame` for the stage name shown by
frame 8; the deployment loop then stores 8 as `m_battle_start_frame` for frame 10, the first
frame of the battle; and `slice_video` makes the clips of indices 8 to 12 and 13 to 17 out
of what the frames 11 to 15 and 16 to 20 show, the frame of index 8 being out of battle. -/
theorem frame_index_lags_cursor :
    (analyze_formation example_record_env 1 example_record_task).1 = true ∧
    example_after_formation.m_formation_end_frame = 6 ∧
    example_after_formation.pos = 7 ∧
    (read_frame example_record_env example_after_formation).1 = some 7 ∧
    (analyze_stage example_record_env 1 example_after_formation).1 = true ∧
    example_after_stage.m_stage_ocr_end_frame = 7 ∧
    example_after_stage.pos = 9 ∧
    example_record_env.stage_analyze 7 = none ∧
    example_record_env.stage_analyze 8 = some "1-7" ∧
    (analyze_deployment_sampling example_record_env 1 example_after_stage).1 = true ∧
    example_after_deployment.m_battle_start_frame = 8 ∧
    example_after_deployment.pos = 11 ∧
    (example_record_env.deployment_analyze 8).1 = false ∧
    (example_record_env.deployment_analyze 9).1 = false ∧
    (example_record_env.deployment_analyze 10).1 = true ∧
    (slice_video example_record_env 1 example_after_deployment).1 = true ∧
    example_after_slice.m_clips.map (fun c => (c.start_frame, c.end_frame, c.deployment.length)) =
      [(8, 12, 2), (13, 17, 1)] ∧
    example_record_env.slice_analyze 8 = none ∧
    (∀ f, 11 ≤ f → f ≤ 14 →
      (example_record_env.slice_analyze f).map (fun o => o.1.length) = some 2) ∧
    (∀ f, 15 ≤ f → f ≤ 19 →
      (example_record_env.slice_analyze f).map (fun o => o.1.length) = some 1) ∧
    example_record_env.slice_analyze 20 = none := by
  decide

/-! ## The nested tally of the direction vote -/

theorem tally_of_cons (k : Point) (sm : List (DeployDirection × Nat))
    (rest : List (Point × List (DeployDirection × Nat))) (l : Point) :
    tally_of ((k, sm) :: rest) l = if k = l then sm else tally_of rest l := by
  unfold tally_of
  rw [List.find?_cons]
  by_cases h : k = l
  · simp [h]
  · simp [h]

theorem dir_tally_add_spec (s : List (Point × List (DeployDirection × Nat))) (loc : Point)
    (dir : DeployDirection) :
    tally_of (dir_tally_add s loc dir) loc =
      tally_add (fun a b => decide (a = b)) (tally_of s loc) dir ∧
    (∀ l, l ≠ loc → tally_of (dir_tally_add s loc dir) l = tally_of s l) ∧
    (∀ k ∈ (dir_tally_add s loc dir).map (·.1), k ∈ s.map (·.1) ∨ k = loc) ∧
    ((s.map (·.1)).Nodup → ((dir_tally_add s loc dir).map (·.1)).Nodup) := by
  induction s with
  | nil =>
    refine ⟨?_, ?_, ?_, ?_⟩
    · simp [dir_tally_add, tally_of_cons, tally_of, tally_add]
    · intro l hl
      simp [dir_tally_add, tally_of_cons, tally_of, Ne.symm hl]
    · intro k hk
      simp [dir_tally_add] at hk
      exact Or.inr hk
    · intro _
      simp [dir_tally_add]
  | cons a rest ih =>
    obtain ⟨k, sm⟩ := a
    obtain ⟨ih1, ih2, ih3, ih4⟩ := ih
    by_cases hk : k = loc
    · have hstep : dir_tally_add ((k, sm) :: rest) loc dir =
          (k, tally_add (fun a b => decide (a = b)) sm dir) :: rest := by
        conv_lhs => unfold dir_tally_add
        rw [if_pos hk]
      rw [hstep]
      refine ⟨?_, ?_, ?_, ?_⟩
      · rw [tally_of_cons, tally_of_cons, if_pos hk, if_pos hk]
      · intro l hl
        have hkl : ¬ k = l := by
          rw [hk]
          exact Ne.symm hl
        rw [tally_of_cons, tally_of_cons, if_neg hkl, if_neg hkl]
      · intro x hx
        exact Or.inl hx
      · intro h
        exact h
    · have hstep : dir_tally_add ((k, sm) :: rest) loc dir =
          (k, sm) :: dir_tally_add rest loc dir := by
        conv_lhs => unfold dir_tally_add
        rw [if_neg hk]
      rw [hstep]
      refine ⟨?_, ?_, ?_, ?_⟩
      · rw [tally_of_cons, tally_of_cons, if_neg hk, if_neg hk]
        exact ih1
      · intro l hl
        rw [tally_of_cons, tally_of_cons]
        by_cases hkl : k = l
        · rw [if_pos hkl, if_pos hkl]
        · rw [if_neg hkl, if_neg hkl]
          exact ih2 l hl
      · intro x hx
        simp only [List.map_cons, List.mem_cons] at hx ⊢
        rcases hx with hx | hx
        · exact Or.inl (Or.inl hx)
        · rcases ih3 x hx with h | h
          · exact Or.inl (Or.inr h)
          · exact Or.inr h
      · intro hnd
        simp only [List.map_cons, List.nodup_cons] at hnd ⊢
        refine ⟨?_, ih4 hnd.2⟩
        intro hmem
        rcases ih3 k hmem with h | h
        · exact hnd.1 h
        · exact hk h

theorem tile_at_of_fixed (t s : Task) (h : fixed_part s = fixed_part t) (loc : Point) :
    tile_at s loc = tile_at t loc := by
  have hm : s.m_normal_tile_info = t.m_normal_tile_info := by
    have := congrArg Task.m_normal_tile_info h
    exact this
  unfold tile_at
  rw [hm]

theorem classify_frame_of_fixed (env : Env) (t s : Task) (h : fixed_part s = fixed_part t)
    (frame : Mat) (locs : List Point) (sampling : List (Point × List (DeployDirection × Nat))) :
    classify_frame env s frame locs sampling = classify_frame env t frame locs sampling := by
  induction locs generalizing sampling with
  | nil => rfl
  | cons loc rest ih =>
    unfold classify_frame
    rw [tile_at_of_fixed t s h loc]
    cases tile_at t loc with
    | none => rfl
    | some tile => exact ih _

theorem classify_frame_spec (env : Env) (t : Task) (frame : Mat) (locs : List Point) :
    ∀ (s s1 : List (Point × List (DeployDirection × Nat))), locs.Nodup →
      classify_frame env t frame locs s = some s1 →
      (∀ loc ∈ locs, ∃ tile, tile_at t loc = some tile ∧
        tally_of s1 loc = tally_add (fun a b => decide (a = b)) (tally_of s loc)
          (env.direction_analyze frame tile.pos)) ∧
      (∀ loc, loc ∉ locs → tally_of s1 loc = tally_of s loc) ∧
      (∀ k ∈ s1.map (·.1), k ∈ s.map (·.1) ∨ k ∈ locs) ∧
      ((s.map (·.1)).Nodup → (s1.map (·.1)).Nodup) := by
  induction locs with
  | nil =>
    intro s s1 _ h
    simp only [classify_frame, Option.some.injEq] at h
    subst h
    exact ⟨by simp, fun _ _ => rfl, fun k hk => Or.inl hk, fun h => h⟩
  | cons loc rest ih =>
    intro s s1 hnd h
    rw [List.nodup_cons] at hnd
    unfold classify_frame at h
    cases htile : tile_at t loc with
    | none =>
      rw [htile] at h
      simp at h
    | some tile =>
      rw [htile] at h
      simp only at h
      obtain ⟨a1, a2, a3, a4⟩ := dir_tally_add_spec s loc (env.direction_analyze frame tile.pos)
      obtain ⟨b1, b2, b3, b4⟩ := ih _ s1 hnd.2 h
      refine ⟨?_, ?_, ?_, ?_⟩
      · intro l hl
        rcases List.mem_cons.1 hl with hl | hl
        · subst hl
          refine ⟨tile, htile, ?_⟩
          rw [b2 l hnd.1, a1]
        · obtain ⟨tile2, ht2, hadd⟩ := b1 l hl
          refine ⟨tile2, ht2, ?_⟩
          have hne : l ≠ loc := by
            intro hx
            rw [hx] at hl
            exact hnd.1 hl
          rw [hadd, a2 l hne]
      · intro l hl
        simp only [List.mem_cons, not_or] at hl
        rw [b2 l hl.2, a2 l hl.1]
      · intro k hk
        rcases b3 k hk with h1 | h1
        · rcases a3 k h1 with h2 | h2
          · exact Or.inl h2
          · exact Or.inr (by rw [h2]; exact List.mem_cons_self _ _)
        · exact Or.inr (List.mem_cons_of_mem _ h1)
      · intro hs
        exact b4 (a4 hs)

theorem classify_frame_inv (env : Env) (t : Task) (locs : List Point) (hnd : locs.Nodup)
    (frames : List Mat) (frame : Mat) (s s1 : List (Point × List (DeployDirection × Nat)))
    (hinv : dir_inv env t locs frames s)
    (h : classify_frame env t frame locs s = some s1) :
    dir_inv env t locs (frames ++ [frame]) s1 := by
  obtain ⟨i1, i2, i3, _⟩ := hinv
  obtain ⟨c1, _, c3, c4⟩ := classify_frame_spec env t frame locs s s1 hnd h
  refine ⟨c4 i1, ?_, ?_, ?_⟩
  · intro k hk
    rcases c3 k hk with h1 | h1
    · exact i2 k h1
    · exact h1
  · intro loc hloc
    obtain ⟨tile, htile, hadd⟩ := c1 loc hloc
    have hold := i3 loc hloc
    unfold facings_of at hold ⊢
    rw [htile] at hold ⊢
    simp only at hold ⊢
    rw [hadd]
    have hsplit : facings_at env (frames ++ [frame]) tile.pos =
        facings_at env frames tile.pos ++ [env.direction_analyze frame tile.pos] := by
      simp [facings_at]
    rw [hsplit]
    exact tally_add_inv _ (by simp) (by intro a b hab; simpa using (of_decide_eq_true hab).symm)
      (by
        intro a b c hab hbc
        have h1 := of_decide_eq_true hab
        have h2 := of_decide_eq_true hbc
        simp [h1, h2]) _ _ _ hold
  · intro _ loc hloc
    obtain ⟨tile, htile, _⟩ := c1 loc hloc
    exact ⟨tile, htile⟩

theorem classify_loop_inv (env : Env) (t : Task) (locs : List Point) (hnd : locs.Nodup)
    (skip_count dir_end : Nat) :
    ∀ (fuel i : Nat) (task : Task) (s : List (Point × List (DeployDirection × Nat)))
      (frames : List Mat) (t1 : Task) (s1 : List (Point × List (DeployDirection × Nat))),
      fixed_part task = fixed_part t →
      dir_inv env t locs frames s →
      classify_loop env locs skip_count dir_end fuel i task s = (Outcome.ret true, t1, s1) →
      dir_inv env t locs
        (frames ++ sampled_frames_loop env skip_count dir_end fuel i task) s1 := by
  intro fuel
  induction fuel with
  | zero =>
    intro i task s frames t1 s1 _ hinv h
    simp only [classify_loop, Prod.mk.injEq] at h
    rw [← h.2.2]
    simpa [sampled_frames_loop] using hinv
  | succ fuel ih =>
    intro i task s frames t1 s1 hfix hinv h
    unfold classify_loop at h
    unfold sampled_frames_loop
    by_cases hi : i < dir_end
    · simp only [hi, if_true] at h ⊢
      have hr := read_frame_fixed env task
      rcases hrf : read_frame env task with ⟨f, t2⟩
      rw [hrf] at hr h
      simp only at hr
      cases f with
      | none => simp at h
      | some frame =>
        simp only at h ⊢
        have hfix2 : fixed_part t2 = fixed_part t := hr.trans hfix
        rw [classify_frame_of_fixed env t t2 hfix2] at h
        cases hcf : classify_frame env t frame locs s with
        | none =>
          rw [hcf] at h
          simp at h
        | some s2 =>
          rw [hcf] at h
          simp only at h
          have hstep := classify_frame_inv env t locs hnd frames frame s s2 hinv hcf
          have := ih _ _ _ (frames ++ [frame]) t1 s1
            ((skip_frames_fixed env t2 skip_count).trans hfix2) hstep h
          simpa using this
    · simp only [hi, if_false, Prod.mk.injEq] at h ⊢
      rw [← h.2.2]
      simpa using hinv

theorem battlefield_set_keys (bf : List (Point × BattlefiledOper)) (loc : Point)
    (dir : DeployDirection) (h : battlefield_contains bf loc = true) :
    battlefield_set bf loc dir =
      bf.map (fun e => if e.1 = loc then (e.1, { direction := dir, new_here := true }) else e) ∧
    (battlefield_set bf loc dir).map (·.1) = bf.map (·.1) := by
  have heq : battlefield_set bf loc dir =
      bf.map (fun e => if e.1 = loc then (e.1, { direction := dir, new_here := true })
        else e) := by
    unfold battlefield_set
    rw [if_pos h]
  refine ⟨heq, ?_⟩
  rw [heq, List.map_map]
  apply List.map_congr_left
  intro e _
  simp only [Function.comp]
  split <;> rfl

theorem apply_directions_spec (env : Env) (hdir : ∀ l, (env.dir_order l).Perm l)
    (L : List (Point × List (DeployDirection × Nat))) :
    ∀ bf : List (Point × BattlefiledOper),
      (∀ e ∈ L, e.2 ≠ [] ∧ battlefield_contains bf e.1 = true) →
      (apply_directions env L bf).1 = true ∧
      List.Forall₂ (fun old new =>
          new.1 = old.1 ∧
          ((∀ tally, (old.1, tally) ∉ L) → new = old) ∧
          ((∃ tally, (old.1, tally) ∈ L) →
            ∃ tally dir n, (old.1, tally) ∈ L ∧
              max_element (env.dir_order tally) = some (dir, n) ∧
              new.2 = { direction := dir, new_here := true }))
        bf (apply_directions env L bf).2 := by
  induction L with
  | nil =>
    intro bf _
    refine ⟨rfl, ?_⟩
    simp only [apply_directions]
    rw [List.forall₂_same]
    intro x _
    exact ⟨rfl, fun _ => rfl, fun h => by simp at h⟩
  | cons a rest ih =>
    intro bf hL
    obtain ⟨loc, tally⟩ := a
    obtain ⟨hne, hin⟩ := hL (loc, tally) (List.mem_cons_self _ _)
    simp only at hne hin
    have hne2 : env.dir_order tally ≠ [] := by
      intro h
      have := (hdir tally).length_eq
      rw [h] at this
      exact hne (List.length_eq_zero.1 this.symm)
    obtain ⟨best, hbest⟩ := max_element_isSome _ hne2
    obtain ⟨dir, n⟩ := best
    obtain ⟨hset, hkeys⟩ := battlefield_set_keys bf loc dir hin
    have hrest : ∀ e ∈ rest, e.2 ≠ [] ∧
        battlefield_contains (battlefield_set bf loc dir) e.1 = true := by
      intro e he
      obtain ⟨h1, h2⟩ := hL e (List.mem_cons_of_mem _ he)
      refine ⟨h1, ?_⟩
      rw [battlefield_contains_iff] at h2 ⊢
      rw [hkeys]
      exact h2
    obtain ⟨r1, r2⟩ := ih (battlefield_set bf loc dir) hrest
    have hstep : apply_directions env ((loc, tally) :: rest) bf =
        apply_directions env rest (battlefield_set bf loc dir) := by
      conv_lhs => unfold apply_directions
      rw [hbest]
    rw [hstep]
    refine ⟨r1, ?_⟩
    rw [hset] at r2 ⊢
    rw [List.forall₂_map_left_iff] at r2
    refine List.Forall₂.imp ?_ r2
    intro old new hrel
    obtain ⟨q1, q2, q3⟩ := hrel
    by_cases hk : old.1 = loc
    · rw [if_pos hk] at q1 q2 q3
      simp only at q1 q2 q3
      refine ⟨q1, ?_, ?_⟩
      · intro hno
        have hcontra := hno tally
        rw [hk] at hcontra
        exact absurd (List.mem_cons_self _ _) hcontra
      · intro _
        by_cases hr : ∃ tl, (old.1, tl) ∈ rest
        · obtain ⟨tl, d, m, h1, h2, h3⟩ := q3 hr
          exact ⟨tl, d, m, List.mem_cons_of_mem _ h1, h2, h3⟩
        · have hnew := q2 (fun tl htl => hr ⟨tl, htl⟩)
          refine ⟨tally, dir, n, by rw [hk]; exact List.mem_cons_self _ _, hbest, ?_⟩
          rw [hnew]
    · rw [if_neg hk] at q1 q2 q3
      refine ⟨q1, ?_, ?_⟩
      · intro hno
        exact q2 (fun tl htl => hno tl (List.mem_cons_of_mem _ htl))
      · intro hex
        obtain ⟨tl, htl⟩ := hex
        have htl2 : (old.1, tl) ∈ rest := by
          rcases List.mem_cons.1 htl with h | h
          · simp only [Prod.mk.injEq] at h
            exact absurd h.1 hk
          · exact h
        obtain ⟨tl2, d, m, h1, h2, h3⟩ := q3 ⟨tl, htl2⟩
        exact ⟨tl2, d, m, List.mem_cons_of_mem _ h1, h2, h3⟩

theorem tally_of_mem (s : List (Point × List (DeployDirection × Nat))) (k : Point)
    (tl : List (DeployDirection × Nat)) (hnd : (s.map (·.1)).Nodup) (h : (k, tl) ∈ s) :
    tally_of s k = tl := by
  induction s with
  | nil => simp at h
  | cons a rest ih =>
    obtain ⟨k2, tl2⟩ := a
    simp only [List.map_cons, List.nodup_cons] at hnd
    rw [tally_of_cons]
    rcases List.mem_cons.1 h with h | h
    · simp only [Prod.mk.injEq] at h
      rw [if_pos h.1.symm, h.2]
    · have hne : ¬ k2 = k := by
        intro hk
        apply hnd.1
        rw [hk]
        exact List.mem_map_of_mem _ h
      rw [if_neg hne]
      exact ih hnd.2 h

theorem tally_of_ne_nil (s : List (Point × List (DeployDirection × Nat))) (k : Point)
    (h : tally_of s k ≠ []) : (k, tally_of s k) ∈ s := by
  induction s with
  | nil => simp [tally_of] at h
  | cons a rest ih =>
    obtain ⟨k2, tl2⟩ := a
    rw [tally_of_cons] at h ⊢
    by_cases hk : k2 = k
    · rw [if_pos hk]
      rw [hk]
      exact List.mem_cons_self _ _
    · rw [if_neg hk] at h ⊢
      exact List.mem_cons_of_mem _ (ih h)

theorem countP_decide_eq_count (l : List DeployDirection) (d : DeployDirection) :
    l.countP (fun x => decide (d = x)) = l.count d := by
  unfold List.count
  apply List.countP_congr
  intro x _
  simp only [decide_eq_true_eq, beq_iff_eq]
  exact eq_comm

theorem forall₂_exists_left {α β : Type} (R : α → β → Prop) (l1 : List α) (l2 : List β)
    (h : List.Forall₂ R l1 l2) : ∀ b ∈ l2, ∃ a ∈ l1, R a b := by
  induction h with
  | nil => simp
  | cons hab _ ih =>
    intro b hb
    rcases List.mem_cons.1 hb with hb | hb
    · subst hb
      exact ⟨_, List.mem_cons_self _ _, hab⟩
    · obtain ⟨a, ha, hr⟩ := ih b hb
      exact ⟨a, List.mem_cons_of_mem _ ha, hr⟩

theorem forall₂_exists_right {α β : Type} (R : α → β → Prop) (l1 : List α) (l2 : List β)
    (h : List.Forall₂ R l1 l2) : ∀ a ∈ l1, ∃ b ∈ l2, R a b := by
  induction h with
  | nil => simp
  | cons hab _ ih =>
    intro a ha
    rcases List.mem_cons.1 ha with ha | ha
    · subst ha
      exact ⟨_, List.mem_cons_self _ _, hab⟩
    · obtain ⟨b, hb, hr⟩ := ih a ha
      exact ⟨b, List.mem_cons_of_mem _ hb, hr⟩

theorem forall₂_keys (l1 l2 : List (Point × BattlefiledOper))
    (h : List.Forall₂ (fun old new => new.1 = old.1) l1 l2) :
    l2.map (·.1) = l1.map (·.1) := by
  induction h with
  | nil => rfl
  | cons hab _ ih =>
    simp only [List.map_cons]
    rw [hab, ih]

theorem battlefield_emplace_fresh (env : Env) (bf : List (Point × BattlefiledOper))
    (loc : Point) (hkeys : (bf.map (·.1)).Nodup) (hfresh : ∀ e ∈ bf, e.2.new_here = false) :
    ((battlefield_emplace env bf loc).map (·.1)).Nodup ∧
    ∀ e ∈ battlefield_emplace env bf loc, e.2.new_here = false := by
  unfold battlefield_emplace
  by_cases hc : battlefield_contains bf loc = true
  · rw [if_pos hc]
    exact ⟨hkeys, hfresh⟩
  · rw [if_neg hc]
    rw [battlefield_contains_iff] at hc
    refine ⟨?_, ?_⟩
    · rw [List.map_append, List.nodup_append]
      refine ⟨hkeys, by simp, ?_⟩
      intro a ha hb
      simp only [List.map_cons, List.map_nil, List.mem_singleton] at hb
      rw [hb] at ha
      exact hc ha
    · intro e he
      rcases List.mem_append.1 he with he | he
      · exact hfresh e he
      · rw [List.mem_singleton] at he
        rw [he]

/-- The occupancy vote keeps a battlefield map without flagged entries: the battlefield that
`detect_operators` leaves has distinct keys and no flagged entry when the one it finds does,
in particular when it finds the empty battlefield that `slice_video` gives to every clip. -/
theorem detect_operators_fresh (env : Env) (t : Task) (clip : ClipInfo) (pre : Option ClipInfo)
    (hkeys : (clip.battlefield.map (·.1)).Nodup)
    (hfresh : ∀ e ∈ clip.battlefield, e.2.new_here = false) :
    ((detect_operators env t clip pre).2.2.battlefield.map (·.1)).Nodup ∧
    ∀ e ∈ (detect_operators env t clip pre).2.2.battlefield, e.2.new_here = false := by
  have hfold : ∀ (locs : List Point) (bf : List (Point × BattlefiledOper)),
      (bf.map (·.1)).Nodup → (∀ e ∈ bf, e.2.new_here = false) →
      ((locs.foldl (battlefield_emplace env) bf).map (·.1)).Nodup ∧
      ∀ e ∈ locs.foldl (battlefield_emplace env) bf, e.2.new_here = false := by
    intro locs
    induction locs with
    | nil =>
      intro bf h1 h2
      exact ⟨h1, h2⟩
    | cons l rest ih =>
      intro bf h1 h2
      obtain ⟨e1, e2⟩ := battlefield_emplace_fresh env bf l h1 h2
      exact ih _ e1 e2
  unfold detect_operators
  rcases detect_sampling env t clip with ⟨b, t1, tally⟩
  cases b with
  | false => exact ⟨hkeys, hfresh⟩
  | true =>
    simp only
    cases max_element (env.tally_order tally) with
    | none => exact ⟨hkeys, hfresh⟩
    | some best =>
      obtain ⟨locs, n⟩ := best
      exact hfold locs _ hkeys hfresh

/-! ## Claims on `classify_direction` -/

theorem classify_sampling_inv (env : Env) (t : Task) (clip : ClipInfo) (locs : List Point)
    (hnd : locs.Nodup) (t1 : Task) (sampling : List (Point × List (DeployDirection × Nat)))
    (h : classify_sampling env t clip locs = (Outcome.ret true, t1, sampling)) :
    dir_inv env t locs (direction_frames env t clip) sampling := by
  have hinit : dir_inv env t locs [] [] := by
    refine ⟨by simp, by simp, ?_, fun h => absurd rfl h⟩
    intro loc _
    have hf : facings_of env t [] loc = [] := by
      unfold facings_of
      cases tile_at t loc <;> rfl
    rw [hf]
    exact ⟨by simp [tally_of], by simp, by simp [tally_of]⟩
  unfold classify_sampling at h
  have := classify_loop_inv env t locs hnd
    (vote_skip_count (size_sub clip.end_frame clip.start_frame))
    (size_sub clip.end_frame (vote_skip_count (size_sub clip.end_frame clip.start_frame)))
    (env.frames.length + 1)
    ((clip.start_frame + vote_skip_count (size_sub clip.end_frame clip.start_frame)) % SIZE_MOD)
    { t with
      pos := (clip.start_frame + vote_skip_count (size_sub clip.end_frame clip.start_frame)) %
        SIZE_MOD }
    [] [] t1 sampling rfl hinit h
  simpa [direction_frames] using this

/-- What `classify_direction` returns for a clip with a predecessor when it succeeds: the
clip itself when there is no newcomer, and otherwise the clip whose battlefield is updated
from a tally that is correct for the frames sampled. -/
theorem classify_direction_voted (env : Env) (t : Task) (clip p : ClipInfo)
    (hkeys : (clip.battlefield.map (·.1)).Nodup)
    (hok : (classify_direction env t clip (some p)).1 = Outcome.ret true) :
    (newcomers clip p = [] ∧ (classify_direction env t clip (some p)).2.2 = clip) ∨
    (newcomers clip p ≠ [] ∧
      ∃ sampling, dir_inv env t (newcomers clip p) (direction_frames env t clip) sampling ∧
        (apply_directions env (env.loc_order sampling) clip.battlefield).1 = true ∧
        (classify_direction env t clip (some p)).2.2 =
          { clip with
            battlefield := (apply_directions env (env.loc_order sampling) clip.battlefield).2 }) := by
  have hcd := classify_direction_eq_sampling env t clip p
  have hnd : (newcomers clip p).Nodup := by
    unfold newcomers
    exact List.Nodup.filter _ hkeys
  by_cases hnc : newcomers clip p = []
  · left
    refine ⟨hnc, ?_⟩
    have hemp : ((clip.battlefield.map (·.1)).filter
        (fun loc => !battlefield_contains p.battlefield loc)).isEmpty = true := by
      unfold newcomers at hnc
      rw [hnc]
      rfl
    rw [hcd, if_pos hemp]
  · right
    refine ⟨hnc, ?_⟩
    have hemp : ¬ ((clip.battlefield.map (·.1)).filter
        (fun loc => !battlefield_contains p.battlefield loc)).isEmpty = true := by
      intro h
      apply hnc
      unfold newcomers
      exact List.isEmpty_iff.1 h
    rw [hcd, if_neg hemp] at hok ⊢
    rcases hcs : classify_sampling env t clip (newcomers clip p) with ⟨o, t1, sampling⟩
    have hcs2 := hcs
    unfold newcomers at hcs2
    rw [hcs2] at hok ⊢
    cases o with
    | thrown => simp at hok
    | ret b =>
      cases b with
      | false => simp at hok
      | true =>
        simp only [Outcome.ret.injEq] at hok
        exact ⟨sampling, classify_sampling_inv env t clip _ hnd t1 sampling hcs, hok, rfl⟩

/-- C21: let `classify_direction` succeed for a clip with a predecessor whose battlefield has
distinct locations, none of them flagged, as `detect_operators` leaves it, and let the clip
have no newcomer or the vote sample at least one frame; the iteration orders of the tallies
are arbitrary.  Then the battlefield afterwards has the same locations in the same order; the
entry of a location that the predecessor's battlefield contains is unchanged; the entry of
any other location is flagged and its direction is a facing read for that location in a
sampled frame such that no facing was read more often; so a location is flagged exactly when
it is in the clip's battlefield and not in the predecessor's.  Only the battlefield of the
clip changes.  For a clip without predecessor the function returns true and changes nothing,
so no location is flagged. -/
theorem classify_direction_flags (env : Env) (t : Task) (clip p : ClipInfo)
    (hloc : ∀ l, (env.loc_order l).Perm l) (hdir : ∀ l, (env.dir_order l).Perm l)
    (hkeys : (clip.battlefield.map (·.1)).Nodup)
    (hfresh : ∀ e ∈ clip.battlefield, e.2.new_here = false)
    (hok : (classify_direction env t clip (some p)).1 = Outcome.ret true)
    (hsample : newcomers clip p = [] ∨ direction_frames env t clip ≠ []) :
    List.Forall₂ (fun old new =>
        new.1 = old.1 ∧
        (battlefield_contains p.battlefield old.1 = true → new = old) ∧
        (battlefield_contains p.battlefield old.1 = false →
          new.2.new_here = true ∧
          new.2.direction ∈ direction_samples env t clip old.1 ∧
          ∀ d, (direction_samples env t clip old.1).count d ≤
            (direction_samples env t clip old.1).count new.2.direction))
      clip.battlefield (classify_direction env t clip (some p)).2.2.battlefield ∧
    (∀ loc,
      (∃ e ∈ (classify_direction env t clip (some p)).2.2.battlefield,
        e.1 = loc ∧ e.2.new_here = true) ↔
      (loc ∈ clip.battlefield.map (·.1) ∧ battlefield_contains p.battlefield loc = false)) ∧
    (classify_direction env t clip (some p)).2.2.battlefield.map (·.1) =
      clip.battlefield.map (·.1) ∧
    (classify_direction env t clip (some p)).2.2 =
      { clip with battlefield := (classify_direction env t clip (some p)).2.2.battlefield } ∧
    classify_direction env t clip none = (Outcome.ret true, t, clip) ∧
    (∀ e ∈ (classify_direction env t clip none).2.2.battlefield, e.2.new_here = false) := by
  have hmem_nc : ∀ loc, loc ∈ newcomers clip p ↔
      (loc ∈ clip.battlefield.map (·.1) ∧ battlefield_contains p.battlefield loc = false) := by
    intro loc
    unfold newcomers
    simp only [List.mem_filter, Bool.not_eq_true']
  have hcore : List.Forall₂ (fun old new =>
        new.1 = old.1 ∧
        (battlefield_contains p.battlefield old.1 = true → new = old) ∧
        (battlefield_contains p.battlefield old.1 = false →
          new.2.new_here = true ∧
          new.2.direction ∈ direction_samples env t clip old.1 ∧
          ∀ d, (direction_samples env t clip old.1).count d ≤
            (direction_samples env t clip old.1).count new.2.direction))
      clip.battlefield (classify_direction env t clip (some p)).2.2.battlefield ∧
      (classify_direction env t clip (some p)).2.2 =
        { clip with battlefield := (classify_direction env t clip (some p)).2.2.battlefield } := by
    rcases classify_direction_voted env t clip p hkeys hok with ⟨hnc, hres⟩ |
      ⟨hnc, sampling, hinv, hflag, hres⟩
    · rw [hres]
      refine ⟨?_, rfl⟩
      rw [List.forall₂_same]
      intro x hx
      refine ⟨rfl, fun _ => rfl, ?_⟩
      intro hno
      have : x.1 ∈ newcomers clip p :=
        (hmem_nc x.1).2 ⟨List.mem_map_of_mem _ hx, hno⟩
      rw [hnc] at this
      simp at this
    · have hframes : direction_frames env t clip ≠ [] := by
        rcases hsample with h | h
        · exact absurd h hnc
        · exact h
      obtain ⟨i1, i2, i3, i4⟩ := hinv
      have htile := i4 hframes
      -- the samples of a newcomer are not empty, so its tally is an entry of the nested tally
      have hsamples : ∀ loc ∈ newcomers clip p, direction_samples env t clip loc ≠ [] := by
        intro loc hl
        obtain ⟨tile, ht⟩ := htile loc hl
        unfold direction_samples facings_of
        rw [ht]
        simp only [facings_at]
        intro h
        exact hframes (List.map_eq_nil_iff.1 h)
      have hentry : ∀ loc ∈ newcomers clip p,
          tally_of sampling loc ≠ [] ∧ (loc, tally_of sampling loc) ∈ sampling := by
        intro loc hl
        have hne : tally_of sampling loc ≠ [] := by
          obtain ⟨x, hx⟩ := List.exists_mem_of_ne_nil _ (hsamples loc hl)
          obtain ⟨e, he, _⟩ := (i3 loc hl).2.1 x hx
          exact List.ne_nil_of_mem he
        exact ⟨hne, tally_of_ne_nil sampling loc hne⟩
      have hL : ∀ e ∈ env.loc_order sampling,
          e.2 ≠ [] ∧ battlefield_contains clip.battlefield e.1 = true := by
        intro e he
        have he2 : e ∈ sampling := (hloc sampling).mem_iff.1 he
        have hk : e.1 ∈ newcomers clip p := i2 e.1 (List.mem_map_of_mem _ he2)
        have htl : tally_of sampling e.1 = e.2 := tally_of_mem sampling e.1 e.2 i1 he2
        refine ⟨?_, ?_⟩
        · rw [← htl]
          exact (hentry e.1 hk).1
        · rw [battlefield_contains_iff]
          exact ((hmem_nc e.1).1 hk).1
      obtain ⟨_, hrel⟩ := apply_directions_spec env hdir (env.loc_order sampling)
        clip.battlefield hL
      rw [hres]
      refine ⟨?_, rfl⟩
      simp only
      have hrel2 := (List.forall₂_and_left (p := fun a => a ∈ clip.battlefield) _ _).2
        ⟨fun a ha => ha, hrel⟩
      refine List.Forall₂.imp ?_ hrel2
      intro old new hr
      obtain ⟨hold, q1, q2, q3⟩ := hr
      refine ⟨q1, ?_, ?_⟩
      · intro hc
        apply q2
        intro tl htl
        have htl2 : (old.1, tl) ∈ sampling := (hloc sampling).mem_iff.1 htl
        have hk : old.1 ∈ newcomers clip p := i2 old.1 (List.mem_map_of_mem _ htl2)
        have := ((hmem_nc old.1).1 hk).2
        rw [hc] at this
        exact Bool.noConfusion this
      · intro hc
        have hk : old.1 ∈ newcomers clip p :=
          (hmem_nc old.1).2 ⟨List.mem_map_of_mem _ hold, hc⟩
        obtain ⟨tl, dir, n, htl, hmax, hnew⟩ :=
          q3 ⟨_, (hloc sampling).mem_iff.2 (hentry old.1 hk).2⟩
        have htl2 : (old.1, tl) ∈ sampling := (hloc sampling).mem_iff.1 htl
        have htleq : tally_of sampling old.1 = tl := tally_of_mem sampling old.1 tl i1 htl2
        have hti := i3 old.1 hk
        rw [htleq] at hti
        obtain ⟨hbm, hbmax⟩ := max_element_spec _ _ hmax
        have hbm2 : (dir, n) ∈ tl := (hdir tl).mem_iff.1 hbm
        have hbmax2 : ∀ e ∈ tl, e.2 ≤ n := fun e he => hbmax e ((hdir tl).mem_iff.2 he)
        obtain ⟨hin, hmode⟩ := tally_inv_mode (fun a b => decide (a = b))
          (by intro a b hab; simpa using (of_decide_eq_true hab).symm)
          (by
            intro a b c hab hbc
            have h1 := of_decide_eq_true hab
            have h2 := of_decide_eq_true hbc
            simp [h1, h2])
          tl _ hti (dir, n) hbm2 hbmax2
        rw [hnew]
        refine ⟨rfl, hin, ?_⟩
        intro d
        by_cases hd : d ∈ direction_samples env t clip old.1
        · have := hmode d hd
          rw [countP_decide_eq_count, countP_decide_eq_count] at this
          exact this
        · rw [List.count_eq_zero_of_not_mem hd]
          exact Nat.zero_le _
  obtain ⟨hrel, hstruct⟩ := hcore
  refine ⟨hrel, ?_, ?_, hstruct, rfl, ?_⟩
  · intro loc
    constructor
    · rintro ⟨e, he, hloc2, hflag⟩
      obtain ⟨old, hold, r1, r2, _⟩ := forall₂_exists_left _ _ _ hrel e he
      have hc : battlefield_contains p.battlefield old.1 = false := by
        by_contra hcon
        have hct : battlefield_contains p.battlefield old.1 = true := by simpa using hcon
        have := r2 hct
        rw [this, hfresh old hold] at hflag
        exact Bool.noConfusion hflag
      rw [← hloc2, r1]
      exact ⟨List.mem_map_of_mem _ hold, hc⟩
    · rintro ⟨hin, hc⟩
      obtain ⟨old, hold, hk⟩ := List.mem_map.1 hin
      obtain ⟨new, hnew, r1, _, r3⟩ := forall₂_exists_right _ _ _ hrel old hold
      rw [← hk] at hc
      exact ⟨new, hnew, by rw [r1, hk], (r3 hc).1⟩
  · apply forall₂_keys
    exact List.Forall₂.imp (fun a b h => h.1) hrel
  · intro e he
    exact hfresh e he

/-- Witness of C21: in the third clip of the example the occupancy vote finds the units on
`(2,3)` and `(4,1)`; the predecessor holds `(2,3)`, so the direction vote, which samples the
frames 22 to 28, flags `(4,1)` alone, with the facing 0 read in every sample, and leaves the
entry of `(2,3)` as it is. -/
theorem classify_direction_flags_witness :
    example_clip3_detected.battlefield = [(⟨2, 3⟩, ⟨4, false⟩), (⟨4, 1⟩, ⟨4, false⟩)] ∧
    direction_frames example_env (example_task []) example_clip3_detected =
      [22, 23, 24, 25, 26, 27, 28] ∧
    direction_samples example_env (example_task []) example_clip3_detected ⟨4, 1⟩ =
      [0, 0, 0, 0, 0, 0, 0] ∧
    (classify_direction example_env (example_task []) example_clip3_detected
        (some example_clip2_voted)).2.2.battlefield =
      [(⟨2, 3⟩, ⟨4, false⟩), (⟨4, 1⟩, ⟨0, true⟩)] ∧
    (∀ loc,
      (∃ e ∈ (classify_direction example_env (example_task []) example_clip3_detected
          (some example_clip2_voted)).2.2.battlefield, e.1 = loc ∧ e.2.new_here = true) ↔
      (loc ∈ example_clip3_detected.battlefield.map (·.1) ∧
        battlefield_contains example_clip2_voted.battlefield loc = false)) :=
  ⟨by decide, by decide, by decide, by decide,
    (classify_direction_flags example_env (example_task []) example_clip3_detected
      example_clip2_voted (fun l => List.Perm.refl l) (fun l => List.Perm.refl l)
      (by decide) (by decide) (by decide) (Or.inr (by decide))).2.1⟩

/-! ## Success of the direction vote -/

theorem tally_add_ne_nil {α : Type} (same : α → α → Bool) (tally : List (α × Nat)) (key : α) :
    tally_add same tally key ≠ [] := by
  cases tally with
  | nil => simp [tally_add]
  | cons a rest =>
    obtain ⟨k, n⟩ := a
    unfold tally_add
    split <;> simp

theorem dir_tally_add_ne_nil (s : List (Point × List (DeployDirection × Nat))) (loc : Point)
    (dir : DeployDirection) (h : ∀ e ∈ s, e.2 ≠ []) :
    ∀ e ∈ dir_tally_add s loc dir, e.2 ≠ [] := by
  induction s with
  | nil =>
    intro e he
    simp only [dir_tally_add, List.mem_singleton] at he
    rw [he]
    simp
  | cons a rest ih =>
    obtain ⟨k, sm⟩ := a
    intro e he
    unfold dir_tally_add at he
    by_cases hk : k = loc
    · rw [if_pos hk] at he
      rcases List.mem_cons.1 he with he | he
      · rw [he]
        exact tally_add_ne_nil _ _ _
      · exact h e (List.mem_cons_of_mem _ he)
    · rw [if_neg hk] at he
      rcases List.mem_cons.1 he with he | he
      · rw [he]
        exact h (k, sm) (List.mem_cons_self _ _)
      · exact ih (fun x hx => h x (List.mem_cons_of_mem _ hx)) e he

theorem classify_frame_ne_nil (env : Env) (t : Task) (frame : Mat) (locs : List Point) :
    ∀ (s s1 : List (Point × List (DeployDirection × Nat))),
      classify_frame env t frame locs s = some s1 → (∀ e ∈ s, e.2 ≠ []) →
      ∀ e ∈ s1, e.2 ≠ [] := by
  induction locs with
  | nil =>
    intro s s1 h hs
    simp only [classify_frame, Option.some.injEq] at h
    rw [← h]
    exact hs
  | cons loc rest ih =>
    intro s s1 h hs
    unfold classify_frame at h
    cases htile : tile_at t loc with
    | none =>
      rw [htile] at h
      simp at h
    | some tile =>
      rw [htile] at h
      exact ih _ s1 h (dir_tally_add_ne_nil s loc _ hs)

theorem classify_loop_ne_nil (env : Env) (locs : List Point) (skip_count dir_end : Nat) :
    ∀ (fuel i : Nat) (task : Task) (s : List (Point × List (DeployDirection × Nat))),
      (∀ e ∈ s, e.2 ≠ []) →
      ∀ e ∈ (classify_loop env locs skip_count dir_end fuel i task s).2.2, e.2 ≠ [] := by
  intro fuel
  induction fuel with
  | zero =>
    intro i task s hs
    exact hs
  | succ fuel ih =>
    intro i task s hs
    unfold classify_loop
    by_cases hi : i < dir_end
    · simp only [hi, if_true]
      rcases read_frame env task with ⟨f, t2⟩
      cases f with
      | none => exact hs
      | some frame =>
        simp only
        cases hcf : classify_frame env t2 frame locs s with
        | none => exact hs
        | some s2 =>
          simp only
          exact ih _ _ _ (classify_frame_ne_nil env t2 frame locs s s2 hcf hs)
    · simp only [hi, if_false]
      exact hs

theorem classify_frame_isSome (env : Env) (t : Task) (frame : Mat) (locs : List Point)
    (htile : ∀ loc ∈ locs, ∃ tile, tile_at t loc = some tile) :
    ∀ s : List (Point × List (DeployDirection × Nat)),
      ∃ s1, classify_frame env t frame locs s = some s1 := by
  induction locs with
  | nil =>
    intro s
    exact ⟨s, rfl⟩
  | cons loc rest ih =>
    intro s
    obtain ⟨tile, ht⟩ := htile loc (List.mem_cons_self _ _)
    unfold classify_frame
    rw [ht]
    exact ih (fun l hl => htile l (List.mem_cons_of_mem _ hl)) _

theorem classify_loop_succeeds (env : Env) (t : Task) (locs : List Point)
    (skip_count dir_end : Nat) (hskip : 0 < skip_count)
    (hend : dir_end ≤ env.frames.length)
    (hsize : env.frames.length + skip_count ≤ SIZE_MOD)
    (htile : ∀ loc ∈ locs, ∃ tile, tile_at t loc = some tile) :
    ∀ (fuel i : Nat) (task : Task) (s : List (Point × List (DeployDirection × Nat))),
      fixed_part task = fixed_part t →
      (task.pos = i ∨ dir_end ≤ i) → dir_end ≤ i + fuel →
      (classify_loop env locs skip_count dir_end fuel i task s).1 = Outcome.ret true := by
  intro fuel
  induction fuel with
  | zero =>
    intro i task s _ _ hfuel
    simp only [classify_loop]
    have : ¬ i < dir_end := by omega
    simp [this]
  | succ fuel ih =>
    intro i task s hfix hpos hfuel
    unfold classify_loop
    by_cases hi : i < dir_end
    · simp only [hi, if_true]
      have hp : task.pos = i := by
        rcases hpos with h | h
        · exact h
        · omega
      have hlt : task.pos < env.frames.length := by omega
      have hget : env.frames.get? task.pos = some (env.frames.get ⟨task.pos, hlt⟩) :=
        List.get?_eq_get hlt
      rw [read_frame_of_get env task _ hget]
      simp only
      have hfix2 : fixed_part { task with pos := task.pos + 1 } = fixed_part t := hfix
      rw [classify_frame_of_fixed env t _ hfix2]
      obtain ⟨s2, hs2⟩ := classify_frame_isSome env t (env.frames.get ⟨task.pos, hlt⟩) locs
        htile s
      rw [hs2]
      simp only
      have hstep1 : (skip_frames env { task with pos := task.pos + 1 } skip_count).1 =
          skip_count := rfl
      have hmod : (i + skip_count) % SIZE_MOD = i + skip_count :=
        Nat.mod_eq_of_lt (by omega)
      rw [hstep1, hmod]
      apply ih
      · exact (skip_frames_fixed env _ skip_count).trans hfix2
      · by_cases hin : i + skip_count ≤ env.frames.length
        · left
          rw [skip_frames_pos env _ skip_count (by simp only; omega)]
          simp only
          omega
        · right
          omega
      · omega
    · simp only [hi, if_false]

/-- Success of `classify_direction`: for a clip with a proper span that lies within the video,
whose battlefield has distinct locations that are all on tiles, the function returns true,
whatever the iteration orders of the tallies. -/
theorem classify_direction_succeeds (env : Env) (t : Task) (clip p : ClipInfo)
    (hloc : ∀ l, (env.loc_order l).Perm l) (hdir : ∀ l, (env.dir_order l).Perm l)
    (hkeys : (clip.battlefield.map (·.1)).Nodup)
    (hspan : clip.start_frame < clip.end_frame)
    (hend : clip.end_frame ≤ env.frames.length)
    (hsize : 2 * env.frames.length ≤ SIZE_MOD)
    (htile : ∀ e ∈ clip.battlefield, ∃ tile, tile_at t e.1 = some tile) :
    (classify_direction env t clip (some p)).1 = Outcome.ret true := by
  have hcd := classify_direction_eq_sampling env t clip p
  have hnd : (newcomers clip p).Nodup := by
    unfold newcomers
    exact List.Nodup.filter _ hkeys
  have hsub : ∀ loc ∈ newcomers clip p, loc ∈ clip.battlefield.map (·.1) := by
    intro loc hl
    unfold newcomers at hl
    exact (List.mem_filter.1 hl).1
  by_cases hemp : ((clip.battlefield.map (·.1)).filter
      (fun loc => !battlefield_contains p.battlefield loc)).isEmpty = true
  · rw [hcd, if_pos hemp]
  · rw [hcd, if_neg hemp]
    have hfc : size_sub clip.end_frame clip.start_frame = clip.end_frame - clip.start_frame :=
      size_sub_of_le _ _ (by omega) (by omega)
    have hskip_pos : 0 < vote_skip_count (clip.end_frame - clip.start_frame) := by
      unfold vote_skip_count SamplingCount
      split
      · exact Nat.div_pos (by omega) (by omega)
      · exact Nat.one_pos
    have hskip_le : vote_skip_count (clip.end_frame - clip.start_frame) ≤ clip.end_frame := by
      unfold vote_skip_count SamplingCount
      split
      · exact le_trans (Nat.div_le_self _ _) (Nat.sub_le _ _)
      · omega
    have hde : size_sub clip.end_frame (vote_skip_count (clip.end_frame - clip.start_frame)) =
        clip.end_frame - vote_skip_count (clip.end_frame - clip.start_frame) :=
      size_sub_of_le _ _ hskip_le (by omega)
    have hbegin : (clip.start_frame + vote_skip_count (clip.end_frame - clip.start_frame)) %
        SIZE_MOD = clip.start_frame + vote_skip_count (clip.end_frame - clip.start_frame) :=
      Nat.mod_eq_of_lt (by omega)
    have htile2 : ∀ loc ∈ newcomers clip p, ∃ tile, tile_at t loc = some tile := by
      intro loc hl
      obtain ⟨e, he, hk⟩ := List.mem_map.1 (hsub loc hl)
      rw [← hk]
      exact htile e he
    have hloop := classify_loop_succeeds env t (newcomers clip p)
      (vote_skip_count (clip.end_frame - clip.start_frame))
      (clip.end_frame - vote_skip_count (clip.end_frame - clip.start_frame))
      hskip_pos (by omega) (by omega) htile2 (env.frames.length + 1)
      (clip.start_frame + vote_skip_count (clip.end_frame - clip.start_frame))
      { t with pos := clip.start_frame + vote_skip_count (clip.end_frame - clip.start_frame) }
      [] rfl (Or.inl rfl) (by omega)
    have hne := classify_loop_ne_nil env (newcomers clip p)
      (vote_skip_count (clip.end_frame - clip.start_frame))
      (clip.end_frame - vote_skip_count (clip.end_frame - clip.start_frame))
      (env.frames.length + 1)
      (clip.start_frame + vote_skip_count (clip.end_frame - clip.start_frame))
      { t with pos := clip.start_frame + vote_skip_count (clip.end_frame - clip.start_frame) }
      [] (by simp)
    have hcs_eq : classify_sampling env t clip (newcomers clip p) =
        classify_loop env (newcomers clip p)
          (vote_skip_count (clip.end_frame - clip.start_frame))
          (clip.end_frame - vote_skip_count (clip.end_frame - clip.start_frame))
          (env.frames.length + 1)
          (clip.start_frame + vote_skip_count (clip.end_frame - clip.start_frame))
          { t with
            pos := clip.start_frame + vote_skip_count (clip.end_frame - clip.start_frame) }
          [] := by
      unfold classify_sampling
      simp only [hfc, hde, hbegin]
    rcases hcs : classify_sampling env t clip (newcomers clip p) with ⟨o, t1, sampling⟩
    rw [hcs_eq] at hcs
    rw [hcs] at hloop hne
    simp only at hloop hne
    subst hloop
    have hcs2 : classify_sampling env t clip ((clip.battlefield.map (·.1)).filter
        (fun loc => !battlefield_contains p.battlefield loc)) =
        (Outcome.ret true, t1, sampling) := by
      have := hcs_eq.trans hcs
      unfold newcomers at this
      exact this
    rw [hcs2]
    simp only [Outcome.ret.injEq]
    obtain ⟨_, i2, _, _⟩ := classify_sampling_inv env t clip _ hnd t1 sampling
      (hcs_eq.trans hcs)
    have hL : ∀ e ∈ env.loc_order sampling,
        e.2 ≠ [] ∧ battlefield_contains clip.battlefield e.1 = true := by
      intro e he
      have he2 : e ∈ sampling := (hloc sampling).mem_iff.1 he
      refine ⟨hne e he2, ?_⟩
      rw [battlefield_contains_iff]
      exact hsub e.1 (i2 e.1 (List.mem_map_of_mem _ he2))
    exact (apply_directions_spec env hdir (env.loc_order sampling) clip.battlefield hL).1

end CombatRecord
